import Mathlib

/-!
Verification development for the SCXML analysis front-end
(`tools/codegen/scxml_parser.py` of the reactive-state-machine repository).

The Python parser is shallowly embedded: the XML document (as produced by
lxml, i.e. with entity references already decoded and namespaces already
resolved) is a tree of elements; the parser is a family of pure functions
threading the `SCXMLModel` value exactly as the Python methods mutate
`self.model` and `self.document_order_counter`.  Python dicts that keep
insertion order are association lists with in-place overwrite; Python sets
are lists with membership-tested insertion; Python `None`-able attributes
that the source only tests for truthiness are empty strings, and dict keys
that the source leaves absent (never read before being written) are default
field values.  `_process_static_invokes` is not modelled: it performs file
system I/O and touches only the `child_name` / `invoke_id` /
`child_needs_jsengine` entries of static-invoke records, fields no theorem
below mentions; every other method of `SCXMLParser` is embedded.
-/

namespace SCXML

/-! ### XML documents

An element has a (namespace-stripped) tag, attributes, text content and
child elements.  All elements are assumed to lie in the SCXML namespace:
the Python helpers `ns_find` / `ns_findall` filter on that namespace, so an
element of a foreign namespace behaves exactly like an element whose tag
matches no query; comments and processing instructions (skipped by the
source via the `isinstance(child.tag, str)` test) are likewise not
represented. -/

inductive XElem where
  | mk (tag : String) (attrs : List (String × String)) (text : String) (children : List XElem)

def XElem.tag : XElem → String
  | .mk t _ _ _ => t

def XElem.attrs : XElem → List (String × String)
  | .mk _ a _ _ => a

def XElem.text : XElem → String
  | .mk _ _ x _ => x

def XElem.children : XElem → List XElem
  | .mk _ _ _ cs => cs

/-- `elem.get(name, dflt)`: first attribute with the given name, else the
default.  (lxml attribute dicts have unique keys; taking the first match is
the general reading.) -/
def getAttrD (e : XElem) (name dflt : String) : String :=
  match e.attrs.find? (fun p => p.1 = name) with
  | some p => p.2
  | none => dflt

/-- `ns_findall(elem, tag)`: all direct children with the given tag. -/
def childrenTag (e : XElem) (t : String) : List XElem :=
  e.children.filter (fun c => c.tag = t)

/-- `ns_find(elem, tag)` / `elem.find(...)`: first direct child with the
given tag. -/
def firstChildTag (e : XElem) (t : String) : Option XElem :=
  e.children.find? (fun c => c.tag = t)

/- All proper descendants of an element in document (pre-)order, as
returned by lxml's `root.findall('.//...')` before tag filtering. -/
mutual
def descendants : XElem → List XElem
  | .mk _ _ _ cs => descendantsL cs
def descendantsL : List XElem → List XElem
  | [] => []
  | c :: rest => c :: (descendants c ++ descendantsL rest)
end

/-! ### Python string primitives

Only the ASCII behaviour of the Python operations is modelled (the SCXML
attribute values the parser inspects are ASCII). -/

/-- Characters removed by Python's `str.strip()` / split on by `str.split()`. -/
def pyIsSpace (c : Char) : Bool :=
  c = ' ' || c = '\t' || c = '\n' || c = '\r' || c = Char.ofNat 11 || c = Char.ofNat 12

def pyIsAlnum (c : Char) : Bool :=
  c.isAlpha || c.isDigit

/-- `str.strip()`. -/
def pyStrip (s : String) : String :=
  ⟨((s.toList.dropWhile pyIsSpace).reverse.dropWhile pyIsSpace).reverse⟩

/-- `str.split()` (split on whitespace runs, no empty fields). -/
def pySplitGo (acc : List Char) : List Char → List String
  | [] => if acc.isEmpty then [] else [⟨acc.reverse⟩]
  | c :: rest =>
    if pyIsSpace c then
      if acc.isEmpty then pySplitGo [] rest
      else ⟨acc.reverse⟩ :: pySplitGo [] rest
    else pySplitGo (c :: acc) rest

def pySplit (s : String) : List String :=
  pySplitGo [] s.toList

def listPrefix : List Char → List Char → Bool
  | [], _ => true
  | _ :: _, [] => false
  | a :: as, b :: bs => a = b && listPrefix as bs

def listContainsSub (needle : List Char) : List Char → Bool
  | [] => needle.isEmpty
  | b :: rest => listPrefix needle (b :: rest) || listContainsSub needle rest

/-- Python's `needle in hay` on strings (contiguous substring test). -/
def pyIn (needle hay : String) : Bool :=
  listContainsSub needle.toList hay.toList

/-- Python's `hay.endswith(needle)`. -/
def pyEndswith (needle hay : String) : Bool :=
  listPrefix needle.toList.reverse hay.toList.reverse

/-- Python's `str.replace(old, new)`: replace all occurrences left to
right, non-overlapping.  Structural in a fuel argument that the wrapper
instantiates with the string length (ample, since every step consumes at
least one character); the parser only calls it with non-empty `old`. -/
def replaceFuel (old new : List Char) : Nat → List Char → List Char
  | _, [] => []
  | 0, s => s
  | fuel + 1, c :: rest =>
    if old ≠ [] ∧ listPrefix old (c :: rest) then
      new ++ replaceFuel old new fuel ((c :: rest).drop old.length)
    else
      c :: replaceFuel old new fuel rest

def pyReplace (s old new : String) : String :=
  ⟨replaceFuel old.toList new.toList s.toList.length s.toList⟩

/-! ### Expression classifier (`_is_pure_in_predicate`, `_convert_in_to_cpp`)

The Python source matches the fixed regular expression
`^[\s()&|]*(?:In\('[^']+'\)[\s()&|]*)+$` with `re.match` against the
normalized condition.  For this one pattern, matching is deterministic
(inside `In('...')` the literal necessarily extends to the next quote, and
no character of the bracket class can begin `In('`), so the regex is
embedded as the direct recognizer below.  The input to the recognizer is
already `strip()`ed, hence `$` coincides with end-of-string. -/

def regexWClass (c : Char) : Bool :=
  pyIsSpace c || c = '(' || c = ')' || c = '&' || c = '|'

def skipWClass : List Char → List Char
  | [] => []
  | c :: rest => if regexWClass c then skipWClass rest else c :: rest

/-- After `In('` has been consumed: scan `[^']+` then expect `')`; returns
the literal and the remainder. -/
def scanInLiteral (acc : List Char) : List Char → Option (List Char × List Char)
  | [] => none
  | '\'' :: rest =>
    if acc.isEmpty then none
    else
      match rest with
      | ')' :: r2 => some (acc.reverse, r2)
      | _ => none
  | c :: rest => scanInLiteral (c :: acc) rest

/-- Scan one `In\('[^']+'\)` unit at the head of the input. -/
def scanInCall : List Char → Option (List Char × List Char)
  | 'I' :: 'n' :: '(' :: '\'' :: rest => scanInLiteral [] rest
  | _ => none

def pureUnitsLoop : Nat → List Char → Bool
  | _, [] => false
  | 0, _ => false
  | fuel + 1, s =>
    match scanInCall s with
    | none => false
    | some (_, rest) =>
      let r2 := skipWClass rest
      if r2.isEmpty then true else pureUnitsLoop fuel r2

/-- `re.match(r"^[\s()&|]*(?:In\('[^']+'\)[\s()&|]*)+$", s) is not None`. -/
def pureInRegexMatch (s : List Char) : Bool :=
  pureUnitsLoop s.length (skipWClass s)

/-- The keyword blacklist of `_is_pure_in_predicate` (note: `var`, `let`,
`const` carry no trailing space here, unlike the list in
`_requires_jsengine`). -/
def ecma_keywords : List String :=
  ["typeof", "_event", "function", "var", "let", "const", "return"]

/-- Normalization applied by `_is_pure_in_predicate`:
`expr.replace('&amp;&amp;', '&&').replace('&amp;|', '||').strip()`. -/
def cleanExprOf (expr : String) : String :=
  pyStrip (pyReplace (pyReplace expr "&amp;&amp;" "&&") "&amp;|" "||")

/-- `SCXMLParser._is_pure_in_predicate`. -/
def is_pure_in_predicate (expr : String) : Bool :=
  if expr = "" || !(pyIn "In(" expr) then false
  else
    let clean := cleanExprOf expr
    if !(pureInRegexMatch clean.toList) then false
    else if ecma_keywords.any (fun kw => pyIn kw clean) then false
    else true

/-- The scanner of `re.sub(r"In\('([^']+)'\)", ...)`: at each position try
to match one `In('...')` unit; on success emit the replacement and resume
after it, on failure emit the character and advance by one. -/
def convertSubFuel : Nat → List Char → List Char
  | _, [] => []
  | 0, s => s
  | fuel + 1, c :: rest =>
    match scanInCall (c :: rest) with
    | some (lit, r) =>
      (String.toList "this->isStateActive(\"") ++ lit ++ (String.toList "\")")
        ++ convertSubFuel fuel r
    | none => c :: convertSubFuel fuel rest

/-- `SCXMLParser._convert_in_to_cpp` (the input is entity-normalized but,
unlike in `_is_pure_in_predicate`, not stripped). -/
def convert_in_to_cpp (expr : String) : String :=
  let cpp := pyReplace (pyReplace expr "&amp;&amp;" "&&") "&amp;|" "||"
  ⟨convertSubFuel cpp.toList.length cpp.toList⟩

/-- `js_features` of `_requires_jsengine` (here `var `, `let `, `const `
do carry their trailing space). -/
def js_features : List String :=
  ["typeof", "_event.", "function", "var ", "let ", "const "]

/-- `SCXMLParser.EVENT_METADATA_FIELDS`. -/
def event_metadata_fields : List String :=
  ["_event.origin", "_event.origintype", "_event.sendid", "_event.invokeid", "_event.type"]

def cpp_reserved : List String :=
  ["return", "break", "continue", "goto", "switch", "case", "default",
   "if", "else", "while", "do", "for", "class", "struct", "typedef",
   "using", "namespace", "template", "typename", "static", "extern",
   "inline", "virtual", "operator", "new", "delete", "this", "throw",
   "try", "catch", "public", "private", "protected"]

/-- `expr_stripped.startswith(keyword)` followed by a character that is
neither alphanumeric nor `_` (so the remainder is non-empty). -/
def kwPrefixNonIdent (kw : String) (st : List Char) : Bool :=
  listPrefix kw.toList st &&
    match st.drop kw.toList.length with
    | [] => false
    | c :: _ => !(pyIsAlnum c) && c ≠ '_'

/-- The reserved-word test at the end of `_requires_jsengine`. -/
def reservedWordHit (expr : String) : Bool :=
  let st := pyStrip expr
  cpp_reserved.any (fun kw => st = kw || kwPrefixNonIdent kw st.toList)

/-- The boolean decision of `SCXMLParser._requires_jsengine` (its side
effects on the model are in `requires_jsengine` below, which provably
returns this boolean). -/
def requires_jsengine_b (expr : String) : Bool :=
  if expr = "" then false
  else if pyIn "In(" expr then !(is_pure_in_predicate expr)
  else if js_features.any (fun f => pyIn f expr) then true
  else if event_metadata_fields.any (fun f => pyIn f expr) then true
  else reservedWordHit expr

/-! ### The model (`Transition`, `State`, `SCXMLModel` dataclasses)

Executable-content actions are Python dicts keyed by `'type'`; they are
embedded as a tagged type whose constructors carry exactly the keys the
source stores for that tag.  A dict holding only the `'type'` key (unknown
elements, and the tags the `<if>` branch walker does not special-case) is
`bareAct`.  The `<send>` dict built inside an `<if>` branch stores no
`eventexpr`/`contentexpr` keys; since the source never reads an absent key,
those two fields are `""` there. -/

structure ParamRec where
  name : String
  expr : String
  location : String

inductive SAction where
  | raiseAct (event : String)
  | sendAct (event eventexpr target targetexpr send_type delay delayexpr id idlocation
      namelist : String) (params : List ParamRec) (content contentexpr : String)
  | assignAct (location expr : String)
  | ifAct (cond cond_cpp : String) (is_pure : Bool) (then_actions : List SAction)
      (elseif_branches : List (String × String × Bool × List SAction))
      (else_actions : List SAction)
  | foreachAct (array item index : String) (actions : List SAction)
  | logAct (label expr : String)
  | scriptAct (src content : String)
  | cancelAct (sendid sendidexpr : String)
  | bareAct (tag : String)

structure Transition where
  event : String := ""
  target : String := ""
  cond : String := ""
  cond_cpp : String := ""
  is_pure_in_predicate : Bool := false
  type : String := "external"
  actions : List SAction := []
  /-- Set by `_resolve_history_targets` via `setattr`; `none` models the
  attribute being absent (`hasattr` false). -/
  history_target : Option String := none

/-- A `model.variables` entry: `{id, expr, src, content}`. -/
structure VarDecl where
  id : String
  expr : String
  src : String
  content : String

/-- A per-state `state.datamodel` entry: `{id, expr, src}` (no content). -/
structure StateData where
  id : String
  expr : String
  src : String

structure DonedataRec where
  params : List ParamRec
  content : String
  contentexpr : String

structure InvokeRec where
  type : String
  src : String
  srcexpr : String
  id : String
  idlocation : String
  autoforward : String
  params : List ParamRec
  finalize : List SAction
  content : String
  contentexpr : String
  has_inline_scxml : Bool
  content_scxml : Option XElem
  is_static : Bool

structure StaticInvokeRec where
  invoke_id : String
  child_name : String
  state_name : String
  autoforward : Bool
  finalize_content : String
  src : String
  params : List ParamRec
  idlocation : String

structure State where
  id : String
  initial : String := ""
  is_final : Bool := false
  is_parallel : Bool := false
  parent : Option String := none
  transitions : List Transition := []
  on_entry : List SAction := []
  on_exit : List SAction := []
  datamodel : List StateData := []
  invokes : List InvokeRec := []
  static_invokes : List StaticInvokeRec := []
  donedata : Option DonedataRec := none
  document_order : Nat := 0
  initial_transition_actions : List SAction := []

/-- `history_states` entry: `{parent, type, default_target}`; the
`leaf_target` key is added later by `_resolve_history_targets`, hence an
`Option` that starts out `none`. -/
structure HistoryRec where
  parent : Option String
  type : String
  default_target : String
  leaf_target : Option String := none

/-- `SCXMLModel`.  `states` is insertion-ordered with overwrite-in-place
(Python dict); `events` is a set, represented as a duplicate-free list.
The seven `needs_event_*` flags of the source are never assigned anywhere
in the parser and are omitted. -/
structure SCXMLModel where
  name : String
  initial : String := ""
  binding : String := "early"
  datamodel_type : String := "ecmascript"
  states : List (String × State) := []
  events : List String := []
  history_default_targets : List (String × String) := []
  history_states : List (String × HistoryRec) := []
  has_dynamic_expressions : Bool := false
  has_parallel_states : Bool := false
  has_history_states : Bool := false
  has_invoke : Bool := false
  has_dynamic_invoke : Bool := false
  has_event_metadata : Bool := false
  has_parent_communication : Bool := false
  has_child_communication : Bool := false
  needs_jsengine : Bool := false
  uses_in_predicate : Bool := false
  has_transition_actions : Bool := false
  variables_ : List VarDecl := []
  static_invokes : List StaticInvokeRec := []
  parallel_regions : List (String × List String) := []

/-- Python-dict lookup on an association list. -/
def alistLookup {α : Type} : List (String × α) → String → Option α
  | [], _ => none
  | (k', v') :: rest, k => if k' = k then some v' else alistLookup rest k

/-- Python-dict assignment `d[k] = v`: overwrite in place (keeping the
original position) or append. -/
def alistUpsert {α : Type} : List (String × α) → String → α → List (String × α)
  | [], k, v => [(k, v)]
  | (k', v') :: rest, k, v =>
    if k' = k then (k, v) :: rest else (k', v') :: alistUpsert rest k v

def alistKeys {α : Type} (l : List (String × α)) : List String :=
  l.map (fun p => p.1)

/-- `self.model.events.add(ev)` (set insertion). -/
def addEventToSet (m : SCXMLModel) (ev : String) : SCXMLModel :=
  if ev ∈ m.events then m else { m with events := m.events ++ [ev] }

/-- `SCXMLParser._requires_jsengine`: the boolean result together with the
side effects on `uses_in_predicate` and `has_event_metadata`. -/
def requires_jsengine (m : SCXMLModel) (expr : String) : SCXMLModel × Bool :=
  if expr = "" then (m, false)
  else if pyIn "In(" expr then
    ({ m with uses_in_predicate := true }, !(is_pure_in_predicate expr))
  else if js_features.any (fun f => pyIn f expr) then (m, true)
  else if event_metadata_fields.any (fun f => pyIn f expr) then
    ({ m with has_event_metadata := true }, true)
  else (m, reservedWordHit expr)

/-! ### Executable content (`_parse_executable_content`)

The `<if>` handler iterates the children of the `<if>` element itself,
maintaining a current destination list (`then` / last `elseif` / `else`);
branch actions are parsed by the inline, non-recursive code of the source
(`branch_action` below), which handles only `raise`, `send`, `assign`,
`log`, `script` and leaves everything else — including nested `if`,
`foreach`, `cancel` — as a bare `{'type': tag}` record with no flag
side effects. -/

structure IfAcc where
  thenActs : List SAction := []
  elseifs : List (String × String × Bool × List SAction) := []
  elseActs : List SAction := []
  /-- Current destination: 0 = then, 1 = last elseif, 2 = else. -/
  dest : Nat := 0

def appendToLastBranch :
    List (String × String × Bool × List SAction) → SAction →
    List (String × String × Bool × List SAction)
  | [], _ => []
  | [(c, cc, p, as)], a => [(c, cc, p, as ++ [a])]
  | b :: rest, a => b :: appendToLastBranch rest a

def ifAccAppend (acc : IfAcc) (a : SAction) : IfAcc :=
  if acc.dest = 0 then { acc with thenActs := acc.thenActs ++ [a] }
  else if acc.dest = 1 then { acc with elseifs := appendToLastBranch acc.elseifs a }
  else { acc with elseActs := acc.elseActs ++ [a] }

/-- One non-`elseif`/`else` child of an `<if>` element (source lines
587–641). -/
def branch_action (m : SCXMLModel) (el : XElem) : SCXMLModel × SAction :=
  let tg := el.tag
  if tg = "raise" then
    let ev := getAttrD el "event" ""
    (if ev ≠ "" then addEventToSet m ev else m, .raiseAct ev)
  else if tg = "send" then
    let params := (childrenTag el "param").map
      (fun p => ⟨getAttrD p "name" "", getAttrD p "expr" "", getAttrD p "location" ""⟩)
    let content :=
      match firstChildTag el "content" with
      | some ce => ce.text
      | none => ""
    (m, .sendAct (getAttrD el "event" "") "" (getAttrD el "target" "")
      (getAttrD el "targetexpr" "") (getAttrD el "type" "") (getAttrD el "delay" "")
      (getAttrD el "delayexpr" "") (getAttrD el "id" "") (getAttrD el "idlocation" "")
      (getAttrD el "namelist" "") params content "")
  else if tg = "assign" then
    ({ m with needs_jsengine := true },
      .assignAct (getAttrD el "location" "") (getAttrD el "expr" ""))
  else if tg = "log" then
    (m, .logAct (getAttrD el "label" "") (getAttrD el "expr" ""))
  else if tg = "script" then
    ({ m with needs_jsengine := true }, .scriptAct (getAttrD el "src" "") el.text)
  else (m, .bareAct tg)

/-- The destination-switching walk over the children of an `<if>`. -/
def ifWalk (m : SCXMLModel) (acc : IfAcc) : List XElem → SCXMLModel × IfAcc
  | [] => (m, acc)
  | el :: rest =>
    if el.tag = "elseif" then
      let ec := getAttrD el "cond" ""
      let (ep, ecc) :=
        if ec ≠ "" ∧ is_pure_in_predicate ec then (true, convert_in_to_cpp ec)
        else (false, "")
      ifWalk m { acc with elseifs := acc.elseifs ++ [(ec, ecc, ep, [])], dest := 1 } rest
    else if el.tag = "else" then
      ifWalk m { acc with dest := 2 } rest
    else
      let (m', a) := branch_action m el
      ifWalk m' (ifAccAppend acc a) rest

mutual
/-- One direct child of the element whose executable content is being
parsed (the per-tag dispatch of `_parse_executable_content`). -/
def parseExecElem (m : SCXMLModel) : XElem → SCXMLModel × SAction
  | e@(.mk _ _ _ cs) =>
    let tag := e.tag
    if tag = "raise" then
      let ev := getAttrD e "event" ""
      (addEventToSet m ev, .raiseAct ev)
    else if tag = "send" then
      let event := getAttrD e "event" ""
      let eventexpr := getAttrD e "eventexpr" ""
      let target := getAttrD e "target" ""
      let targetexpr := getAttrD e "targetexpr" ""
      let m1 :=
        if target = "#_parent" then { m with has_parent_communication := true }
        else if target = "#_child" then { m with has_child_communication := true }
        else m
      let delayexpr := getAttrD e "delayexpr" ""
      let params := (childrenTag e "param").map
        (fun p => ⟨getAttrD p "name" "", getAttrD p "expr" "", getAttrD p "location" ""⟩)
      let (content, contentexpr) :=
        match firstChildTag e "content" with
        | some ce => (ce.text, getAttrD ce "expr" "")
        | none => ("", "")
      let m2 :=
        if eventexpr ≠ "" ∨ targetexpr ≠ "" ∨ delayexpr ≠ "" then
          { m1 with has_dynamic_expressions := true, needs_jsengine := true }
        else m1
      let m3 := if event ≠ "" then addEventToSet m2 event else m2
      (m3, .sendAct event eventexpr target targetexpr (getAttrD e "type" "")
        (getAttrD e "delay" "") delayexpr (getAttrD e "id" "")
        (getAttrD e "idlocation" "") (getAttrD e "namelist" "") params content contentexpr)
    else if tag = "assign" then
      ({ m with needs_jsengine := true },
        .assignAct (getAttrD e "location" "") (getAttrD e "expr" ""))
    else if tag = "if" then
      let cond := getAttrD e "cond" ""
      let (is_pure, cond_cpp) :=
        if cond ≠ "" ∧ is_pure_in_predicate cond then (true, convert_in_to_cpp cond)
        else (false, "")
      let (m1, acc) := ifWalk m {} cs
      let (m2, req) := requires_jsengine m1 cond
      let m3 := if req then { m2 with needs_jsengine := true } else m2
      (m3, .ifAct cond cond_cpp is_pure acc.thenActs acc.elseifs acc.elseActs)
    else if tag = "foreach" then
      let (m1, body) := parse_executable_content m cs
      ({ m1 with needs_jsengine := true },
        .foreachAct (getAttrD e "array" "") (getAttrD e "item" "") (getAttrD e "index" "") body)
    else if tag = "log" then
      (m, .logAct (getAttrD e "label" "") (getAttrD e "expr" ""))
    else if tag = "script" then
      ({ m with needs_jsengine := true }, .scriptAct (getAttrD e "src" "") e.text)
    else if tag = "cancel" then
      (m, .cancelAct (getAttrD e "sendid" "") (getAttrD e "sendidexpr" ""))
    else (m, .bareAct tag)

/-- `SCXMLParser._parse_executable_content`, applied to the child list of
the parent element; every child yields exactly one action record. -/
def parse_executable_content (m : SCXMLModel) : List XElem → SCXMLModel × List SAction
  | [] => (m, [])
  | c :: rest =>
    let (m1, a) := parseExecElem m c
    let (m2, rest') := parse_executable_content m1 rest
    (m2, a :: rest')
end

/-- `SCXMLParser._parse_donedata`. -/
def parse_donedata (e : XElem) : DonedataRec :=
  let params := (childrenTag e "param").map
    (fun p => ⟨getAttrD p "name" "", getAttrD p "expr" "", getAttrD p "location" ""⟩)
  match firstChildTag e "content" with
  | some ce =>
    ⟨params, if ce.text ≠ "" then pyStrip ce.text else "", getAttrD ce "expr" ""⟩
  | none => ⟨params, "", ""⟩

/-- `SCXMLParser._parse_invoke`.  The invoke is static iff the type is
empty/`scxml`/the W3C URI, it has `src` non-empty OR an inline
`<content><scxml>` child, and `srcexpr` and the content `expr` are both
empty; non-static invokes set `has_dynamic_expressions`. -/
def parse_invoke (m : SCXMLModel) (e : XElem) : SCXMLModel × InvokeRec :=
  let tp := getAttrD e "type" ""
  let src := getAttrD e "src" ""
  let srcexpr := getAttrD e "srcexpr" ""
  let (contentexpr, has_inline_scxml, content_scxml, contentVal) :=
    match firstChildTag e "content" with
    | none => ("", false, (none : Option XElem), "")
    | some ce =>
      let cexpr := getAttrD ce "expr" ""
      match firstChildTag ce "scxml" with
      | some sc => (cexpr, true, some sc, "")
      | none => (cexpr, false, none, cexpr)
  let params := (childrenTag e "param").map
    (fun p => ⟨getAttrD p "name" "", getAttrD p "expr" "", getAttrD p "location" ""⟩)
  let (m1, finalize) :=
    match firstChildTag e "finalize" with
    | none => (m, [])
    | some f => parse_executable_content m f.children
  let has_static_child := src ≠ "" ∨ has_inline_scxml
  let is_static :=
    (tp = "" ∨ tp = "scxml" ∨ tp = "http://www.w3.org/TR/scxml/") ∧
      has_static_child ∧ srcexpr = "" ∧ contentexpr = ""
  let m2 := if is_static then m1 else { m1 with has_dynamic_expressions := true }
  (m2, ⟨tp, src, srcexpr, getAttrD e "id" "", getAttrD e "idlocation" "",
    getAttrD e "autoforward" "false", params, finalize, contentVal, contentexpr,
    has_inline_scxml, content_scxml, decide is_static⟩)

/-- `SCXMLParser._parse_transition`. -/
def parse_transition (m : SCXMLModel) (e : XElem) : SCXMLModel × Transition :=
  let cond := getAttrD e "cond" ""
  let (is_pure, cond_cpp) :=
    if cond ≠ "" ∧ is_pure_in_predicate cond then (true, convert_in_to_cpp cond)
    else (false, "")
  let (m1, acts) := parse_executable_content m e.children
  let t : Transition :=
    { event := getAttrD e "event" "", target := getAttrD e "target" "", cond := cond,
      cond_cpp := cond_cpp, is_pure_in_predicate := is_pure,
      type := getAttrD e "type" "external", actions := acts }
  let m2 :=
    if cond ≠ "" then
      let (m', req) := requires_jsengine m1 cond
      if req then { m' with needs_jsengine := true } else m'
    else m1
  (m2, t)

/-- `SCXMLParser._parse_datamodel`: `root.findall('.//sc:datamodel')`
visits every `<datamodel>` descendant (top-level and per-state alike), in
document order; each `<data>` child contributes a variable record and sets
`needs_jsengine`. -/
def parse_datamodel (m : SCXMLModel) (root : XElem) : SCXMLModel :=
  ((descendants root).filter (fun d => d.tag = "datamodel")).foldl
    (fun acc dm =>
      (childrenTag dm "data").foldl
        (fun acc2 d =>
          { acc2 with
            variables_ := acc2.variables_ ++
              [⟨getAttrD d "id" "", getAttrD d "expr" "", getAttrD d "src" "",
                pyStrip d.text⟩],
            needs_jsengine := true })
        acc)
    m

/-! ### State-tree builder (`_parse_states`)

`_parse_states` runs four `ns_findall` loops over the same parent element:
all `<state>` children first (recursing into each), then all `<final>`
children, then all `<parallel>` children (recursing), then all `<history>`
children.  The parser object's `document_order_counter` is the `ctr` field
threaded alongside the model; a child with a missing or empty `id` is
skipped entirely (no counter increment, no recursion). -/

structure Psr where
  model : SCXMLModel
  ctr : Nat

/-- The wildcard filter applied to a transition's event descriptor
(source lines 252–262 and 373–378). -/
def collectTransitionEvents (m : SCXMLModel) (t : Transition) : SCXMLModel :=
  if t.event ≠ "" then
    if t.event ∉ ["*", ".*", "_*"] then
      (pySplit t.event).foldl
        (fun acc ev =>
          if ev ∉ ["*", ".*", "_*"] ∧ !(pyEndswith ".*" ev) then addEventToSet acc ev
          else acc) m
    else m
  else m

def parseStateTransitions (m : SCXMLModel) (e : XElem) : SCXMLModel × List Transition :=
  (childrenTag e "transition").foldl
    (fun acc te =>
      let (m', t) := parse_transition acc.1 te
      (collectTransitionEvents m' t, acc.2 ++ [t]))
    (m, [])

/-- The `<onentry>` / `<onexit>` loops: executable content of every child
with the given tag, concatenated. -/
def parseEntryActions (m : SCXMLModel) (e : XElem) (tagName : String) :
    SCXMLModel × List SAction :=
  (childrenTag e tagName).foldl
    (fun acc en =>
      let (m', as) := parse_executable_content acc.1 en.children
      (m', acc.2 ++ as))
    (m, [])

/-- The `<initial><transition>` handling of the `<state>` loop: its
executable content becomes `initial_transition_actions`, and its `target`
fills the state's `initial` when the attribute was absent. -/
def parseInitialElem (m : SCXMLModel) (e : XElem) (curInitial : String) :
    SCXMLModel × List SAction × String :=
  match firstChildTag e "initial" with
  | none => (m, [], curInitial)
  | some ie =>
    match firstChildTag ie "transition" with
    | none => (m, [], curInitial)
    | some it =>
      let (m', acts) := parse_executable_content m it.children
      let newInitial :=
        if curInitial = "" then
          let tgt := getAttrD it "target" ""
          if tgt ≠ "" then tgt else curInitial
        else curInitial
      (m', acts, newInitial)

def parseStateDatamodel (e : XElem) : List StateData :=
  (childrenTag e "datamodel").foldl
    (fun acc dm =>
      acc ++ (childrenTag dm "data").map
        (fun d => ⟨getAttrD d "id" "", getAttrD d "expr" "", getAttrD d "src" ""⟩))
    []

/-- The `<invoke>` loop of the `<state>` handler: parses each invoke, sets
`has_invoke`, tracks dynamic invokes, and builds a `StaticInvokeRec` (added
to both the state and the model) for static ones. -/
def parseStateInvokes (m : SCXMLModel) (e : XElem) (sid : String) :
    SCXMLModel × List InvokeRec × List StaticInvokeRec :=
  (childrenTag e "invoke").foldl
    (fun acc ie =>
      let (m', inv) := parse_invoke acc.1 ie
      let m2 := { m' with has_invoke := true }
      if !inv.is_static then
        ({ m2 with has_dynamic_invoke := true }, acc.2.1 ++ [inv], acc.2.2)
      else
        let si : StaticInvokeRec :=
          ⟨inv.id, "", sid, inv.autoforward = "true", "", inv.src, inv.params,
            inv.idlocation⟩
        ({ m2 with static_invokes := m2.static_invokes ++ [si] },
          acc.2.1 ++ [inv], acc.2.2 ++ [si]))
    (m, [], [])

/-- Body of one `<state>` iteration (excluding the recursion into child
states, which the caller performs). -/
def handleState (p : Psr) (e : XElem) (pid : Option String) : Psr :=
  let sid := getAttrD e "id" ""
  let ord := p.ctr
  let (m1, trs) := parseStateTransitions p.model e
  let (m2, onE) := parseEntryActions m1 e "onentry"
  let (m3, onX) := parseEntryActions m2 e "onexit"
  let (m4, initActs, initAttr) := parseInitialElem m3 e (getAttrD e "initial" "")
  let dms := parseStateDatamodel e
  let (m5, invs, sinvs) := parseStateInvokes m4 e sid
  let st : State :=
    { id := sid, initial := initAttr, parent := pid, transitions := trs,
      on_entry := onE, on_exit := onX, datamodel := dms, invokes := invs,
      static_invokes := sinvs, document_order := ord,
      initial_transition_actions := initActs }
  ⟨{ m5 with states := alistUpsert m5.states sid st }, p.ctr + 1⟩

/-- Body of one `<final>` iteration. -/
def handleFinal (p : Psr) (e : XElem) (pid : Option String) : Psr :=
  let fid := getAttrD e "id" ""
  let ord := p.ctr
  let (m1, onE) := parseEntryActions p.model e "onentry"
  let (m2, onX) := parseEntryActions m1 e "onexit"
  let dd :=
    match firstChildTag e "donedata" with
    | some de => some (parse_donedata de)
    | none => none
  let st : State :=
    { id := fid, is_final := true, parent := pid, on_entry := onE, on_exit := onX,
      donedata := dd, document_order := ord }
  ⟨{ m2 with states := alistUpsert m2.states fid st }, p.ctr + 1⟩

/-- Body of one `<parallel>` iteration (excluding the recursion). -/
def handleParallel (p : Psr) (e : XElem) (pid : Option String) : Psr :=
  let sid := getAttrD e "id" ""
  let ord := p.ctr
  let (m1, trs) := parseStateTransitions p.model e
  let (m2, onE) := parseEntryActions m1 e "onentry"
  let (m3, onX) := parseEntryActions m2 e "onexit"
  let st : State :=
    { id := sid, is_parallel := true, parent := pid, transitions := trs,
      on_entry := onE, on_exit := onX, document_order := ord }
  ⟨{ m3 with states := alistUpsert m3.states sid st, has_parallel_states := true },
    p.ctr + 1⟩

/-- First `<transition>` child carrying a non-empty `target` (the
`<history>` loop scans its transitions and breaks at the first truthy
target). -/
def firstTransitionTarget : List XElem → Option String
  | [] => none
  | c :: rest =>
    if c.tag = "transition" then
      let t := getAttrD c "target" ""
      if t ≠ "" then some t else firstTransitionTarget rest
    else firstTransitionTarget rest

/-- The `<history>` loop: a history with an id and a default target is
recorded in both history maps and sets `has_history_states`; one without a
default target (or without an id) is dropped.  History elements are never
added to `states` and are not recursed into. -/
def handleHistoryL : Psr → List XElem → Option String → Psr
  | p, [], _ => p
  | p, c :: rest, pid =>
    let p' :=
      if c.tag = "history" then
        let hid := getAttrD c "id" ""
        if hid = "" then p
        else
          let htype := getAttrD c "type" "shallow"
          match firstTransitionTarget c.children with
          | none => p
          | some dt =>
            let m := p.model
            ⟨{ m with
                history_default_targets := alistUpsert m.history_default_targets hid dt,
                history_states := alistUpsert m.history_states hid ⟨pid, htype, dt, none⟩,
                has_history_states := true }, p.ctr⟩
      else p
    handleHistoryL p' rest pid

/-- The `<final>` loop (finals are not recursed into). -/
def passFinals : Psr → List XElem → Option String → Psr
  | p, [], _ => p
  | p, c :: rest, pid =>
    let p' :=
      if c.tag = "final" ∧ getAttrD c "id" "" ≠ "" then handleFinal p c pid else p
    passFinals p' rest pid

mutual
/-- `SCXMLParser._parse_states` on one parent element. -/
def parse_states (p : Psr) (e : XElem) (pid : Option String) : Psr :=
  match e with
  | .mk _ _ _ cs =>
    let p1 := passStates p cs pid
    let p2 := passFinals p1 cs pid
    let p3 := passParallels p2 cs pid
    handleHistoryL p3 cs pid

/-- The `<state>` loop (`for state_elem in ns_findall(parent_elem, 'state')`). -/
def passStates : Psr → List XElem → Option String → Psr
  | p, [], _ => p
  | p, c :: rest, pid =>
    let p' :=
      if c.tag = "state" ∧ getAttrD c "id" "" ≠ "" then
        parse_states (handleState p c pid) c (some (getAttrD c "id" ""))
      else p
    passStates p' rest pid

/-- The `<parallel>` loop. -/
def passParallels : Psr → List XElem → Option String → Psr
  | p, [], _ => p
  | p, c :: rest, pid =>
    let p' :=
      if c.tag = "parallel" ∧ getAttrD c "id" "" ≠ "" then
        parse_states (handleParallel p c pid) c (some (getAttrD c "id" ""))
      else p
    passParallels p' rest pid
end

/-! ### Feature detector and resolver passes -/

/-- `SCXMLParser._detect_features`: final sweep over transition guards for
event-metadata references. -/
def detect_features (m : SCXMLModel) : SCXMLModel :=
  m.states.foldl
    (fun acc kv =>
      kv.2.transitions.foldl
        (fun acc2 t =>
          if t.cond ≠ "" then
            if event_metadata_fields.any (fun f => pyIn f t.cond) then
              { acc2 with has_event_metadata := true, needs_jsengine := true }
            else acc2
          else acc2)
        acc)
    m

/-- The depth-capped walk along `initial` attributes shared by
`_resolve_deep_initial` and `_resolve_to_leaf_state`: follow
`states[cur].initial` while it names an existing state, at most `fuel`
steps; a start not in `states` is returned as-is. -/
def followInitialChain (states : List (String × State)) : Nat → String → String
  | 0, cur => cur
  | d + 1, cur =>
    match alistLookup states cur with
    | none => cur
    | some st =>
      if st.initial ≠ "" ∧ (alistLookup states st.initial).isSome then
        followInitialChain states d st.initial
      else cur

/-- `SCXMLParser._resolve_to_leaf_state` (`MAX_DEPTH = 20`). -/
def resolve_to_leaf_state (m : SCXMLModel) (sid : String) : String :=
  followInitialChain m.states 20 sid

/-- The single-start tail of `_resolve_deep_initial`: when the start state
does not exist the method returns without touching `model.initial`;
otherwise `model.initial` is overwritten with the end of the chain. -/
def deepSingle (m : SCXMLModel) (start : String) : SCXMLModel :=
  if (alistLookup m.states start).isNone then m
  else { m with initial := followInitialChain m.states 20 start }

/-- `SCXMLParser._resolve_deep_initial`.  `none` models the `IndexError`
the source raises on `initial_states[0]` when `model.initial` is non-empty
whitespace (`split()` yields no tokens); a multi-token initial whose states
all exist is kept verbatim, otherwise the *whole* string is treated as the
single start. -/
def resolve_deep_initial (m : SCXMLModel) : Option SCXMLModel :=
  if m.initial = "" then some m
  else
    let toks := pySplit m.initial
    if toks.length > 1 then
      if toks.all (fun t => (alistLookup m.states t).isSome) then some m
      else some (deepSingle m m.initial)
    else
      match toks with
      | [t] => some (deepSingle m t)
      | _ => none

/-- `SCXMLParser._apply_parallel_initial_overrides`. -/
def apply_parallel_initial_overrides (m : SCXMLModel) : SCXMLModel :=
  if m.initial = "" then m
  else
    let toks := pySplit m.initial
    if toks.length ≤ 1 then m
    else
      let m' := toks.foldl
        (fun acc t =>
          match alistLookup acc.states t with
          | none => acc
          | some st =>
            match st.parent with
            | none => acc
            | some pid =>
              if pid = "" then acc
              else
                match alistLookup acc.states pid with
                | none => acc
                | some ps =>
                  { acc with states := alistUpsert acc.states pid { ps with initial := t } })
        m
      { m' with initial := toks.headD "" }

/-- First loop of `_resolve_history_targets`: adds `leaf_target` (the
resolved leaf of the default target) to every `history_states` entry. -/
def rhtLeaf (m : SCXMLModel) : SCXMLModel :=
  { m with
    history_states := m.history_states.map
      (fun kv => (kv.1,
        { kv.2 with
          leaf_target := some (resolve_to_leaf_state m kv.2.default_target) })) }

/-- Second loop of `_resolve_history_targets`: tags transitions that
target a history id with `history_target` (keeping the original target). -/
def rhtTag (m : SCXMLModel) : SCXMLModel :=
  { m with
    states := m.states.map
      (fun kv => (kv.1,
        { kv.2 with
          transitions := kv.2.transitions.map
            (fun t =>
              if (alistLookup m.history_default_targets t.target).isSome ∧
                  t.history_target = none then
                { t with history_target := some t.target }
              else t) })) }

/-- Third loop of `_resolve_history_targets`: substitutes a
`state.initial` naming a history id with that history's `leaf_target`. -/
def rhtInit (m : SCXMLModel) : SCXMLModel :=
  { m with
    states := m.states.map
      (fun kv => (kv.1,
        if (alistLookup m.history_default_targets kv.2.initial).isSome then
          match alistLookup m.history_states kv.2.initial with
          | some info =>
            match info.leaf_target with
            | some lt => { kv.2 with initial := lt }
            | none => kv.2
          | none => kv.2
        else kv.2)) }

/-- `SCXMLParser._resolve_history_targets`: the three loops in order (a
no-op when no history default target was recorded). -/
def resolve_history_targets (m : SCXMLModel) : SCXMLModel :=
  if m.history_default_targets.isEmpty then m
  else rhtInit (rhtTag (rhtLeaf m))

/-- `SCXMLParser._compute_parallel_regions`. -/
def compute_parallel_regions (m : SCXMLModel) : SCXMLModel :=
  m.states.foldl
    (fun acc kv =>
      if kv.2.is_parallel then
        let regions := (m.states.filter (fun c => c.2.parent = some kv.1)).map
          (fun c => c.1)
        { acc with parallel_regions := alistUpsert acc.parallel_regions kv.1 regions }
      else acc)
    m

/-- `SCXMLParser._detect_transition_actions`. -/
def detect_transition_actions (m : SCXMLModel) : SCXMLModel :=
  { m with
    has_transition_actions :=
      m.states.any (fun kv => kv.2.transitions.any (fun t => !t.actions.isEmpty)) }

/-! ### The pipeline (`parse_file`) -/

/-- The root `initial` default: the attribute when present, else the id of
the first `<state>` (then `<parallel>`, then `<final>`) child. -/
def phaseInit (root : XElem) : String :=
  let initAttr := getAttrD root "initial" ""
  if initAttr = "" then
    match firstChildTag root "state" with
    | some fs => getAttrD fs "id" ""
    | none =>
      match firstChildTag root "parallel" with
      | some fs => getAttrD fs "id" ""
      | none =>
        match firstChildTag root "final" with
        | some fs => getAttrD fs "id" ""
        | none => ""
  else initAttr

/-- The freshly created model (`SCXMLModel(name=...)` plus the attribute
reads preceding the passes). -/
def m0Of (nm : String) (root : XElem) : SCXMLModel :=
  { name := nm, initial := phaseInit root, binding := getAttrD root "binding" "early",
    datamodel_type := getAttrD root "datamodel" "ecmascript" }

/-- `parse_file` up to `_detect_features`: model creation (with the
first-child default for a missing root `initial`), `_parse_datamodel`,
`_parse_states`, `_detect_features`.  `nm` is the stem of the input path
(the model is named after the file, not the `name` attribute). -/
def parsePhase (nm : String) (root : XElem) : SCXMLModel :=
  detect_features (parse_states ⟨parse_datamodel (m0Of nm root) root, 0⟩ root none).model

/-- `SCXMLParser.parse_file` (with `_process_static_invokes` omitted, see
the header note): the parse phase followed by the resolver passes.  `none`
is the `IndexError` of `_resolve_deep_initial`. -/
def parse_file (nm : String) (root : XElem) : Option SCXMLModel :=
  match resolve_deep_initial (parsePhase nm root) with
  | none => none
  | some m4 =>
    some (detect_transition_actions
      (compute_parallel_regions
        (resolve_history_targets
          (apply_parallel_initial_overrides m4))))

/-! ### Pure traversal mirrors

Specification-side descriptions of the builder's traversal, used to state
the claims: `visitIds` lists the state ids in the order the builder assigns
`document_order` (states, then finals, then parallels under each parent);
`sourceIds` lists them in XML document order; `visitedParents` lists the
elements whose children the builder scans. -/

def visitFinalIds (cs : List XElem) : List String :=
  (cs.filter (fun c => c.tag = "final" ∧ getAttrD c "id" "" ≠ "")).map
    (fun c => getAttrD c "id" "")

mutual
def visitIds : XElem → List String
  | .mk _ _ _ cs => visitStateIds cs ++ visitFinalIds cs ++ visitParallelIds cs
def visitStateIds : List XElem → List String
  | [] => []
  | c :: rest =>
    (if c.tag = "state" ∧ getAttrD c "id" "" ≠ "" then
      getAttrD c "id" "" :: visitIds c
    else []) ++ visitStateIds rest
def visitParallelIds : List XElem → List String
  | [] => []
  | c :: rest =>
    (if c.tag = "parallel" ∧ getAttrD c "id" "" ≠ "" then
      getAttrD c "id" "" :: visitIds c
    else []) ++ visitParallelIds rest
end

/- Ids of the state-like elements (`state`, `parallel`, `final`) in XML
document order. -/
mutual
def sourceIds : XElem → List String
  | .mk _ _ _ cs => sourceIdsL cs
def sourceIdsL : List XElem → List String
  | [] => []
  | c :: rest =>
    (if (c.tag = "state" ∨ c.tag = "parallel" ∨ c.tag = "final") ∧
        getAttrD c "id" "" ≠ "" then
      [getAttrD c "id" ""]
    else []) ++ sourceIds c ++ sourceIdsL rest
end

/- The elements on which `_parse_states` is invoked: the root, and
recursively every `<state>`/`<parallel>` child with a non-empty id. -/
mutual
def visitedParents : XElem → List XElem
  | e@(.mk _ _ _ cs) => e :: visitedParentsL cs
def visitedParentsL : List XElem → List XElem
  | [] => []
  | c :: rest =>
    (if (c.tag = "state" ∨ c.tag = "parallel") ∧ getAttrD c "id" "" ≠ "" then
      visitedParents c
    else []) ++ visitedParentsL rest
end

/-- Position of the first occurrence of an element in a list (length of the
list when absent). -/
def posOf (i : String) : List String → Nat
  | [] => 0
  | x :: rest => if x = i then 0 else posOf i rest + 1

/-! ### Specification-side definitions

Definitions following the wording of the specification, for comparison
with the embedded source. -/

/-- The reject-token list as the specification words it: `var `, `let `,
`const ` each with a trailing space (the source's `ecma_keywords` has them
without). -/
def spec_reject_tokens : List String :=
  ["typeof", "_event", "function", "var ", "let ", "const ", "return"]

/-- "`variables`: ordered list of `<data>` declarations `{id, expr, src,
content}`", taken over the `<data>` children of every `<datamodel>` element
of the document in document order. -/
def specVariables (doc : XElem) : List VarDecl :=
  (((descendants doc).filter (fun d => d.tag = "datamodel")).map
    (fun dm =>
      (childrenTag dm "data").map
        (fun d => (⟨getAttrD d "id" "", getAttrD d "expr" "", getAttrD d "src" "",
          pyStrip d.text⟩ : VarDecl)))).flatten

/-- "inline `<content><scxml>` present": the invoke's first `<content>`
child has an `<scxml>` child. -/
def specInlineScxml (e : XElem) : Bool :=
  match firstChildTag e "content" with
  | some ce => (firstChildTag ce "scxml").isSome
  | none => false

/-- "`content expr`": the `expr` attribute of the invoke's first
`<content>` child (empty when there is none). -/
def specContentExpr (e : XElem) : String :=
  match firstChildTag e "content" with
  | some ce => getAttrD ce "expr" ""
  | none => ""

/-- An element that can make the parser set `needs_jsengine`: a
`<datamodel>` with a `<data>` child; an `<assign>`, `<script>` or
`<foreach>`; a `<send>` with a non-empty `eventexpr`/`targetexpr`/
`delayexpr`; an element whose `cond` attribute the expression classifier
flags as needing the engine, or whose `cond` references event metadata. -/
def trigElem (e : XElem) : Bool :=
  (e.tag = "datamodel" && !(childrenTag e "data").isEmpty) ||
  e.tag = "assign" || e.tag = "script" || e.tag = "foreach" ||
  (e.tag = "send" &&
    (getAttrD e "eventexpr" "" ≠ "" || getAttrD e "targetexpr" "" ≠ "" ||
      getAttrD e "delayexpr" "" ≠ "")) ||
  requires_jsengine_b (getAttrD e "cond" "") ||
  event_metadata_fields.any (fun f => pyIn f (getAttrD e "cond" ""))

/-- Some element of the document (the root included) is a
`needs_jsengine` trigger. -/
def hasJsTrigger (doc : XElem) : Bool :=
  trigElem doc || (descendants doc).any trigElem

/-! ### Concrete documents used by counterexamples and witnesses -/

def freshModel : SCXMLModel := { name := "model" }

/-- `<scxml><final id="f"/><state id="a"/></scxml>`: a `<final>` element
preceding a `<state>` under the same parent. -/
def c1doc : XElem :=
  .mk "scxml" [] "" [.mk "final" [("id", "f")] "" [], .mk "state" [("id", "a")] "" []]

/-- An `<invoke src="child.scxml"><content><scxml/></content></invoke>`:
both an external `src` and an inline `<content><scxml>`. -/
def c2elem : XElem :=
  .mk "invoke" [("src", "child.scxml")] ""
    [.mk "content" [] "" [.mk "scxml" [("name", "k")] "" []]]

/-- `<invoke src="child.scxml"/>`: a plain static invoke. -/
def c2srcElem : XElem := .mk "invoke" [("src", "child.scxml")] "" []

/-- `<scxml><state id="a"><datamodel><data id="x" expr="1"/></datamodel>
</state></scxml>`: the only `<data>` lives in a per-state datamodel. -/
def dataDoc : XElem :=
  .mk "scxml" [] ""
    [.mk "state" [("id", "a")] ""
      [.mk "datamodel" [] "" [.mk "data" [("id", "x"), ("expr", "1")] "" []]]]

/-- `<send targetexpr="x" target="#_parent"/>`. -/
def c5send : XElem := .mk "send" [("target", "#_parent"), ("targetexpr", "x")] "" []

/-- `<if cond=""><send targetexpr="x" target="#_parent"/></if>`. -/
def c5ifelem : XElem := .mk "if" [("cond", "")] "" [c5send]

/-- `<scxml initial="a"><state id="a"><transition event="e"
cond="In('s1') && In('s2')" target="a"/></state></scxml>` (the condition
is the value lxml delivers for the XML attribute text
`In('s1') &amp;&amp; In('s2')`). -/
def c7doc : XElem :=
  .mk "scxml" [("initial", "a")] ""
    [.mk "state" [("id", "a")] ""
      [.mk "transition" [("event", "e"), ("cond", "In('s1') && In('s2')"), ("target", "a")]
        "" []]]

/-- `<scxml><state id="p"><history id="hh"/></state></scxml>`: a history
with no `<transition>` child at all. -/
def c8doc : XElem :=
  .mk "scxml" [] "" [.mk "state" [("id", "p")] "" [.mk "history" [("id", "hh")] "" []]]

/-- A history with a default transition, targeting a compound state. -/
def c8wdoc : XElem :=
  .mk "scxml" [("initial", "p")] ""
    [.mk "state" [("id", "p")] ""
      [.mk "history" [("id", "h")] "" [.mk "transition" [("target", "x")] "" []],
       .mk "state" [("id", "x"), ("initial", "x1")] "" [.mk "state" [("id", "x1")] "" []]]]

/-- `<scxml initial="nosuch"><state id="a"/></scxml>`: the root `initial`
names a state that does not exist. -/
def c9doc : XElem :=
  .mk "scxml" [("initial", "nosuch")] "" [.mk "state" [("id", "a")] "" []]

/-- `<scxml initial="s0"><state id="s0" initial="s01"><state id="s01"/>
</state></scxml>`. -/
def c9wdoc : XElem :=
  .mk "scxml" [("initial", "s0")] ""
    [.mk "state" [("id", "s0"), ("initial", "s01")] "" [.mk "state" [("id", "s01")] "" []]]

/-- `<raise/>` without an `event` attribute. -/
def rawRaise : XElem := .mk "raise" [] "" []

/-- `<if><raise/><raise event="e1"/></if>`. -/
def c10ifelem : XElem :=
  .mk "if" [] "" [rawRaise, .mk "raise" [("event", "e1")] "" []]

/-! ### Invariant vocabulary -/

/-- The model fields executable-content parsing never touches. -/
def ExecFrame (m m' : SCXMLModel) : Prop :=
  m'.states = m.states ∧ m'.variables_ = m.variables_ ∧ m'.initial = m.initial ∧
  m'.name = m.name ∧ m'.history_default_targets = m.history_default_targets ∧
  m'.history_states = m.history_states ∧
  m'.has_history_states = m.has_history_states ∧
  m'.parallel_regions = m.parallel_regions

/-- The guard conditions of every transition stored in a states map. -/
def storedConds (sts : List (String × State)) : List String :=
  (sts.map (fun kv => kv.2.transitions.map (fun t => t.cond))).flatten

/-- A history id is registered: present in both history maps, with
`has_history_states` set. -/
def Registered (m : SCXMLModel) (h : String) : Prop :=
  h ∈ alistKeys m.history_default_targets ∧ h ∈ alistKeys m.history_states ∧
    m.has_history_states = true

/-- The model fields the state-tree builder never touches. -/
def NodeFrame (m m' : SCXMLModel) : Prop :=
  m'.variables_ = m.variables_ ∧ m'.initial = m.initial ∧ m'.name = m.name ∧
  m'.parallel_regions = m.parallel_regions

/-- The history maps and flag only grow during parsing. -/
def HistMono (m m' : SCXMLModel) : Prop :=
  (∀ h ∈ alistKeys m.history_default_targets, h ∈ alistKeys m'.history_default_targets) ∧
  (∀ h ∈ alistKeys m.history_states, h ∈ alistKeys m'.history_states) ∧
  (m.has_history_states = true → m'.has_history_states = true)

/-- One step of the state-tree builder with trigger scope `scope`:
the frame fields are preserved, the history maps grow, `needs_jsengine`
can only be set by a trigger element in scope, new stored guard
conditions come from `cond` attributes of elements in scope, and
key-distinctness of the states map is preserved. -/
def NodeStep (m m' : SCXMLModel) (scope : List XElem) : Prop :=
  NodeFrame m m' ∧ HistMono m m' ∧
  (m'.needs_jsengine = true → m.needs_jsengine = true ∨ ∃ x ∈ scope, trigElem x = true) ∧
  (∀ c ∈ storedConds m'.states,
    c ∈ storedConds m.states ∨ ∃ x ∈ scope, getAttrD x "cond" "" = c) ∧
  ((alistKeys m.states).Nodup → (alistKeys m'.states).Nodup)

/-- A resolver pass preserves the key set of the states map and the
`document_order` of every entry. -/
def OrdPres (a b : SCXMLModel) : Prop :=
  (∀ k, k ∈ alistKeys b.states ↔ k ∈ alistKeys a.states) ∧
  (∀ k s, alistLookup b.states k = some s →
    ∃ s0, alistLookup a.states k = some s0 ∧ s.document_order = s0.document_order)

/-- The fields a resolver pass leaves intact (the history-map key sets,
and the states map up to `OrdPres`). -/
def ResolveFrame (a b : SCXMLModel) : Prop :=
  b.variables_ = a.variables_ ∧
  b.needs_jsengine = a.needs_jsengine ∧
  b.name = a.name ∧
  alistKeys b.history_default_targets = alistKeys a.history_default_targets ∧
  alistKeys b.history_states = alistKeys a.history_states ∧
  b.has_history_states = a.has_history_states ∧
  OrdPres a b

/-! ## Lemmas

### Association lists, `posOf`, `descendants` -/

@[simp] theorem XElem.tag_mk (t : String) (a : List (String × String)) (x : String)
    (cs : List XElem) : (XElem.mk t a x cs).tag = t := rfl

@[simp] theorem XElem.attrs_mk (t : String) (a : List (String × String)) (x : String)
    (cs : List XElem) : (XElem.mk t a x cs).attrs = a := rfl

@[simp] theorem XElem.text_mk (t : String) (a : List (String × String)) (x : String)
    (cs : List XElem) : (XElem.mk t a x cs).text = x := rfl

@[simp] theorem XElem.children_mk (t : String) (a : List (String × String)) (x : String)
    (cs : List XElem) : (XElem.mk t a x cs).children = cs := rfl

theorem alistLookup_upsert_self {α : Type} (l : List (String × α)) (k : String) (v : α) :
    alistLookup (alistUpsert l k v) k = some v := by
  induction l with
  | nil => simp [alistUpsert, alistLookup]
  | cons p rest ih =>
    obtain ⟨k', v'⟩ := p
    by_cases h : k' = k
    · simp [alistUpsert, h, alistLookup]
    · simp [alistUpsert, h, alistLookup, ih]

theorem alistLookup_upsert_ne {α : Type} (l : List (String × α)) (k k' : String) (v : α)
    (h : k' ≠ k) : alistLookup (alistUpsert l k v) k' = alistLookup l k' := by
  have hk : k ≠ k' := fun he => h he.symm
  induction l with
  | nil => simp [alistUpsert, alistLookup, hk]
  | cons p rest ih =>
    obtain ⟨k0, v0⟩ := p
    by_cases h0 : k0 = k
    · subst h0
      simp [alistUpsert, alistLookup, hk]
    · by_cases h1 : k0 = k'
      · simp [alistUpsert, h0, alistLookup, h1, h]
      · simp [alistUpsert, h0, alistLookup, h1, ih]

theorem mem_keys_upsert {α : Type} (l : List (String × α)) (k k' : String) (v : α) :
    k' ∈ alistKeys (alistUpsert l k v) ↔ k' ∈ alistKeys l ∨ k' = k := by
  induction l with
  | nil => simp [alistUpsert, alistKeys]
  | cons p rest ih =>
    obtain ⟨k0, v0⟩ := p
    by_cases h0 : k0 = k
    · subst h0
      simp [alistUpsert, alistKeys]
      tauto
    · simp [alistUpsert, h0, alistKeys] at ih ⊢
      tauto

theorem keys_upsert_nodup {α : Type} (l : List (String × α)) (k : String) (v : α)
    (h : (alistKeys l).Nodup) : (alistKeys (alistUpsert l k v)).Nodup := by
  induction l with
  | nil => simp [alistUpsert, alistKeys]
  | cons p rest ih =>
    obtain ⟨k0, v0⟩ := p
    simp only [alistKeys, List.map_cons, List.nodup_cons] at h
    by_cases h0 : k0 = k
    · subst h0
      simpa [alistUpsert, alistKeys, List.nodup_cons] using h
    · simp only [alistUpsert, if_neg h0, alistKeys, List.map_cons, List.nodup_cons]
      refine ⟨fun hc => ?_, ih h.2⟩
      rcases (mem_keys_upsert rest k k0 v).mp hc with hc | hc
      · exact h.1 hc
      · exact h0 hc

theorem lookup_isSome_iff_mem_keys {α : Type} (l : List (String × α)) (k : String) :
    (alistLookup l k).isSome = true ↔ k ∈ alistKeys l := by
  induction l with
  | nil => simp [alistLookup, alistKeys]
  | cons p rest ih =>
    obtain ⟨k0, v0⟩ := p
    by_cases h0 : k0 = k
    · simp [alistLookup, h0, alistKeys]
    · have h0' : ¬k = k0 := fun he => h0 he.symm
      simp [alistLookup, h0, alistKeys, ih, h0']

theorem mem_of_lookup_eq_some {α : Type} (l : List (String × α)) (k : String) (v : α)
    (h : alistLookup l k = some v) : (k, v) ∈ l := by
  induction l with
  | nil => simp [alistLookup] at h
  | cons p rest ih =>
    obtain ⟨k0, v0⟩ := p
    by_cases h0 : k0 = k
    · subst h0
      simp [alistLookup] at h
      subst h
      exact List.mem_cons_self _ _
    · simp only [alistLookup, if_neg h0] at h
      exact List.mem_cons_of_mem _ (ih h)

theorem lookup_eq_some_of_mem {α : Type} (l : List (String × α)) (k : String) (v : α)
    (hnd : (alistKeys l).Nodup) (h : (k, v) ∈ l) : alistLookup l k = some v := by
  induction l with
  | nil => simp at h
  | cons p rest ih =>
    obtain ⟨k0, v0⟩ := p
    simp only [alistKeys, List.map_cons, List.nodup_cons] at hnd
    rcases List.mem_cons.mp h with h | h
    · injection h with h1 h2
      subst h1
      subst h2
      simp [alistLookup]
    · have hk : k0 ≠ k := by
        intro he
        subst he
        exact hnd.1 (List.mem_map.mpr ⟨(k0, v), h, rfl⟩)
      simp only [alistLookup, if_neg hk]
      exact ih hnd.2 h

theorem posOf_append_left (i : String) (A B : List String) (h : i ∈ A) :
    posOf i (A ++ B) = posOf i A := by
  induction A with
  | nil => simp at h
  | cons a rest ih =>
    by_cases ha : a = i
    · simp [posOf, ha]
    · rcases List.mem_cons.mp h with h' | h'
      · exact absurd h'.symm ha
      · simp [posOf, ha, ih h']

theorem posOf_append_right (i : String) (A B : List String) (h : i ∉ A) :
    posOf i (A ++ B) = A.length + posOf i B := by
  induction A with
  | nil => simp [posOf]
  | cons a rest ih =>
    have ha : a ≠ i := fun he => h (he ▸ List.mem_cons_self _ _)
    have h' : i ∉ rest := fun hm => h (List.mem_cons_of_mem _ hm)
    rw [List.cons_append,
      show posOf i (a :: (rest ++ B)) = posOf i (rest ++ B) + 1 from by simp [posOf, ha],
      ih h', List.length_cons]
    omega

theorem posOf_lt_length (i : String) (A : List String) (h : i ∈ A) :
    posOf i A < A.length := by
  induction A with
  | nil => simp at h
  | cons a rest ih =>
    by_cases ha : a = i
    · simp [posOf, ha]
    · rcases List.mem_cons.mp h with h' | h'
      · exact absurd h'.symm ha
      · simp only [posOf, if_neg ha, List.length_cons]
        exact Nat.succ_lt_succ (ih h')

theorem posOf_inj (A : List String) (hnd : A.Nodup) (a b : String)
    (ha : a ∈ A) (hb : b ∈ A) (h : posOf a A = posOf b A) : a = b := by
  induction A with
  | nil => simp at ha
  | cons x rest ih =>
    rw [List.nodup_cons] at hnd
    by_cases hxa : x = a
    · by_cases hxb : x = b
      · exact hxa.symm.trans hxb
      · rcases List.mem_cons.mp hb with hb' | hb'
        · exact absurd hb'.symm hxb
        · rw [show posOf a (x :: rest) = 0 from by simp [posOf, hxa],
            show posOf b (x :: rest) = posOf b rest + 1 from by simp [posOf, hxb]] at h
          omega
    · by_cases hxb : x = b
      · rcases List.mem_cons.mp ha with ha' | ha'
        · exact absurd ha'.symm hxa
        · rw [show posOf a (x :: rest) = posOf a rest + 1 from by simp [posOf, hxa],
            show posOf b (x :: rest) = 0 from by simp [posOf, hxb]] at h
          omega
      · rcases List.mem_cons.mp ha with ha' | ha'
        · exact absurd ha'.symm hxa
        · rcases List.mem_cons.mp hb with hb' | hb'
          · exact absurd hb'.symm hxb
          · rw [show posOf a (x :: rest) = posOf a rest + 1 from by simp [posOf, hxa],
              show posOf b (x :: rest) = posOf b rest + 1 from by simp [posOf, hxb]] at h
            exact ih hnd.2 ha' hb' (by omega)

theorem mem_descendantsL_iff (x c : XElem) (rest : List XElem) :
    x ∈ descendantsL (c :: rest) ↔ x = c ∨ x ∈ descendants c ∨ x ∈ descendantsL rest := by
  rw [show descendantsL (c :: rest) = c :: (descendants c ++ descendantsL rest) from rfl]
  simp [List.mem_cons, List.mem_append]

theorem mem_descendantsL_of_mem (x : XElem) (cs : List XElem) (h : x ∈ cs) :
    x ∈ descendantsL cs := by
  induction cs with
  | nil => simp at h
  | cons c rest ih =>
    rw [mem_descendantsL_iff]
    rcases List.mem_cons.mp h with h | h
    · exact Or.inl h
    · exact Or.inr (Or.inr (ih h))

theorem mem_descendantsL_of_mem_descendants (x c : XElem) (cs : List XElem)
    (hc : c ∈ cs) (h : x ∈ descendants c) : x ∈ descendantsL cs := by
  induction cs with
  | nil => simp at hc
  | cons c0 rest ih =>
    rw [mem_descendantsL_iff]
    rcases List.mem_cons.mp hc with h0 | h0
    · exact Or.inr (Or.inl (h0 ▸ h))
    · exact Or.inr (Or.inr (ih h0))

theorem mem_descendants_children (x : XElem) (t : String) (a : List (String × String))
    (tx : String) (cs : List XElem) (h : x ∈ cs) :
    x ∈ descendants (XElem.mk t a tx cs) := by
  rw [show descendants (XElem.mk t a tx cs) = descendantsL cs from rfl]
  exact mem_descendantsL_of_mem x cs h

/-! ### Effect lemmas for executable-content parsing -/

theorem execFrame_refl (m : SCXMLModel) : ExecFrame m m :=
  ⟨rfl, rfl, rfl, rfl, rfl, rfl, rfl, rfl⟩

theorem execFrame_trans {a b c : SCXMLModel} (h1 : ExecFrame a b) (h2 : ExecFrame b c) :
    ExecFrame a c := by
  obtain ⟨s1, v1, i1, n1, hd1, hs1, hh1, pr1⟩ := h1
  obtain ⟨s2, v2, i2, n2, hd2, hs2, hh2, pr2⟩ := h2
  exact ⟨s2.trans s1, v2.trans v1, i2.trans i1, n2.trans n1, hd2.trans hd1,
    hs2.trans hs1, hh2.trans hh1, pr2.trans pr1⟩

theorem addEvent_effects (m : SCXMLModel) (ev : String) :
    ExecFrame m (addEventToSet m ev) ∧
    (addEventToSet m ev).needs_jsengine = m.needs_jsengine ∧
    (addEventToSet m ev).has_dynamic_expressions = m.has_dynamic_expressions ∧
    (addEventToSet m ev).has_parent_communication = m.has_parent_communication ∧
    (addEventToSet m ev).has_child_communication = m.has_child_communication ∧
    ev ∈ (addEventToSet m ev).events ∧
    (∀ e', e' ∈ m.events → e' ∈ (addEventToSet m ev).events) ∧
    (∀ e', e' ∈ (addEventToSet m ev).events → e' ∈ m.events ∨ e' = ev) := by
  unfold addEventToSet
  by_cases h : ev ∈ m.events
  · rw [if_pos h]
    exact ⟨execFrame_refl m, rfl, rfl, rfl, rfl, h, fun _ he => he, fun _ he => Or.inl he⟩
  · rw [if_neg h]
    refine ⟨⟨rfl, rfl, rfl, rfl, rfl, rfl, rfl, rfl⟩, rfl, rfl, rfl, rfl, ?_, ?_, ?_⟩
    · simp
    · intro e' he
      simp [he]
    · intro e' he
      rcases List.mem_append.mp he with he | he
      · exact Or.inl he
      · simp only [List.mem_singleton] at he
        exact Or.inr he

theorem requires_effects (m : SCXMLModel) (e : String) :
    ExecFrame m (requires_jsengine m e).1 ∧
    (requires_jsengine m e).1.events = m.events ∧
    (requires_jsengine m e).1.needs_jsengine = m.needs_jsengine ∧
    (requires_jsengine m e).1.has_dynamic_expressions = m.has_dynamic_expressions ∧
    (requires_jsengine m e).1.has_parent_communication = m.has_parent_communication ∧
    (requires_jsengine m e).1.has_child_communication = m.has_child_communication ∧
    (requires_jsengine m e).2 = requires_jsengine_b e := by
  unfold requires_jsengine requires_jsengine_b
  split_ifs <;>
    exact ⟨⟨rfl, rfl, rfl, rfl, rfl, rfl, rfl, rfl⟩, rfl, rfl, rfl, rfl, rfl, rfl⟩

theorem branch_action_effects (m : SCXMLModel) (el : XElem) :
    ExecFrame m (branch_action m el).1 ∧
    (branch_action m el).1.has_dynamic_expressions = m.has_dynamic_expressions ∧
    (branch_action m el).1.has_parent_communication = m.has_parent_communication ∧
    (branch_action m el).1.has_child_communication = m.has_child_communication ∧
    (∀ e', e' ∈ m.events → e' ∈ (branch_action m el).1.events) ∧
    (∀ e', e' ∈ (branch_action m el).1.events → e' ∈ m.events ∨ e' ≠ "") ∧
    ((branch_action m el).1.needs_jsengine = true →
      m.needs_jsengine = true ∨ el.tag = "assign" ∨ el.tag = "script") := by
  simp only [branch_action]
  by_cases h1 : el.tag = "raise"
  · rw [if_pos h1]
    by_cases h : getAttrD el "event" "" ≠ ""
    · rw [if_pos h]
      obtain ⟨f, njs, dyn, par, chi, _, mono, rev⟩ := addEvent_effects m (getAttrD el "event" "")
      refine ⟨f, dyn, par, chi, mono, ?_, fun hn => Or.inl (njs ▸ hn)⟩
      intro e' he
      rcases rev e' he with he2 | he2
      · exact Or.inl he2
      · exact Or.inr (he2.symm ▸ h)
    · rw [if_neg h]
      exact ⟨execFrame_refl m, rfl, rfl, rfl, fun _ he => he, fun _ he => Or.inl he,
        fun hn => Or.inl hn⟩
  · rw [if_neg h1]
    by_cases h2 : el.tag = "send"
    · rw [if_pos h2]
      exact ⟨execFrame_refl m, rfl, rfl, rfl, fun _ he => he, fun _ he => Or.inl he,
        fun hn => Or.inl hn⟩
    · rw [if_neg h2]
      by_cases h3 : el.tag = "assign"
      · rw [if_pos h3]
        exact ⟨⟨rfl, rfl, rfl, rfl, rfl, rfl, rfl, rfl⟩, rfl, rfl, rfl,
          fun _ he => he, fun _ he => Or.inl he, fun _ => Or.inr (Or.inl h3)⟩
      · rw [if_neg h3]
        by_cases h4 : el.tag = "log"
        · rw [if_pos h4]
          exact ⟨execFrame_refl m, rfl, rfl, rfl, fun _ he => he, fun _ he => Or.inl he,
            fun hn => Or.inl hn⟩
        · rw [if_neg h4]
          by_cases h5 : el.tag = "script"
          · rw [if_pos h5]
            exact ⟨⟨rfl, rfl, rfl, rfl, rfl, rfl, rfl, rfl⟩, rfl, rfl, rfl,
              fun _ he => he, fun _ he => Or.inl he, fun _ => Or.inr (Or.inr h5)⟩
          · rw [if_neg h5]
            exact ⟨execFrame_refl m, rfl, rfl, rfl, fun _ he => he,
              fun _ he => Or.inl he, fun hn => Or.inl hn⟩

/-- A raise inside an `<if>` branch with a non-empty event adds it. -/
theorem branch_action_raise_adds (m : SCXMLModel) (el : XElem)
    (h1 : el.tag = "raise") (h2 : getAttrD el "event" "" ≠ "") :
    getAttrD el "event" "" ∈ (branch_action m el).1.events := by
  unfold branch_action
  simp only [if_pos h1, if_pos h2]
  exact (addEvent_effects m (getAttrD el "event" "")).2.2.2.2.2.1

theorem ifWalk_effects (cs : List XElem) (m : SCXMLModel) (acc : IfAcc) :
    ExecFrame m (ifWalk m acc cs).1 ∧
    (ifWalk m acc cs).1.has_dynamic_expressions = m.has_dynamic_expressions ∧
    (ifWalk m acc cs).1.has_parent_communication = m.has_parent_communication ∧
    (ifWalk m acc cs).1.has_child_communication = m.has_child_communication ∧
    (∀ e', e' ∈ m.events → e' ∈ (ifWalk m acc cs).1.events) ∧
    (∀ e', e' ∈ (ifWalk m acc cs).1.events → e' ∈ m.events ∨ e' ≠ "") ∧
    ((ifWalk m acc cs).1.needs_jsengine = true →
      m.needs_jsengine = true ∨
        ∃ el ∈ cs, el.tag = "assign" ∨ el.tag = "script") := by
  induction cs generalizing m acc with
  | nil =>
    exact ⟨execFrame_refl m, rfl, rfl, rfl, fun _ he => he, fun _ he => Or.inl he,
      fun hn => Or.inl hn⟩
  | cons el rest ih =>
    unfold ifWalk
    by_cases h1 : el.tag = "elseif"
    · simp only [if_pos h1]
      obtain ⟨f, dyn, par, chi, mono, rev, njs⟩ := ih m _
      exact ⟨f, dyn, par, chi, mono, rev,
        fun hn => (njs hn).imp id (fun ⟨x, hx, hh⟩ => ⟨x, List.mem_cons_of_mem _ hx, hh⟩)⟩
    · simp only [if_neg h1]
      by_cases h2 : el.tag = "else"
      · simp only [if_pos h2]
        obtain ⟨f, dyn, par, chi, mono, rev, njs⟩ := ih m _
        exact ⟨f, dyn, par, chi, mono, rev,
          fun hn => (njs hn).imp id (fun ⟨x, hx, hh⟩ => ⟨x, List.mem_cons_of_mem _ hx, hh⟩)⟩
      · simp only [if_neg h2]
        rcases hba : branch_action m el with ⟨m', a⟩
        obtain ⟨f1, dyn1, par1, chi1, mono1, rev1, njs1⟩ := branch_action_effects m el
        rw [hba] at f1 dyn1 par1 chi1 mono1 rev1 njs1
        obtain ⟨f2, dyn2, par2, chi2, mono2, rev2, njs2⟩ := ih m' (ifAccAppend acc a)
        refine ⟨execFrame_trans f1 f2, dyn2.trans dyn1, par2.trans par1, chi2.trans chi1,
          fun e' he => mono2 e' (mono1 e' he), ?_, ?_⟩
        · intro e' he
          rcases rev2 e' he with he | he
          · exact rev1 e' he
          · exact Or.inr he
        · intro hn
          rcases njs2 hn with hn | ⟨xx, hx, hh⟩
          · rcases njs1 hn with hn | hh
            · exact Or.inl hn
            · exact Or.inr ⟨el, List.mem_cons_self _ _, hh⟩
          · exact Or.inr ⟨xx, List.mem_cons_of_mem _ hx, hh⟩

/-! Per-tag characterizations of the model component of `parseExecElem`
(the action component is irrelevant to the flag/event lemmas below). -/

theorem parseExecElem_model_raise (m : SCXMLModel) (tg : String)
    (ats : List (String × String)) (tx : String) (cs : List XElem) (h1 : tg = "raise") :
    (parseExecElem m (XElem.mk tg ats tx cs)).1 =
      addEventToSet m (getAttrD (XElem.mk tg ats tx cs) "event" "") := by
  simp only [parseExecElem, XElem.tag_mk]
  rw [if_pos h1]

theorem parseExecElem_model_send (m : SCXMLModel) (tg : String)
    (ats : List (String × String)) (tx : String) (cs : List XElem)
    (h1 : ¬tg = "raise") (h2 : tg = "send") :
    (parseExecElem m (XElem.mk tg ats tx cs)).1 =
      (let e := XElem.mk tg ats tx cs
       let m1 :=
         if getAttrD e "target" "" = "#_parent" then
           { m with has_parent_communication := true }
         else if getAttrD e "target" "" = "#_child" then
           { m with has_child_communication := true }
         else m
       let m2 :=
         if getAttrD e "eventexpr" "" ≠ "" ∨ getAttrD e "targetexpr" "" ≠ "" ∨
             getAttrD e "delayexpr" "" ≠ "" then
           { m1 with has_dynamic_expressions := true, needs_jsengine := true }
         else m1
       if getAttrD e "event" "" ≠ "" then addEventToSet m2 (getAttrD e "event" "")
       else m2) := by
  simp only [parseExecElem, XElem.tag_mk]
  rw [if_neg h1, if_pos h2]

theorem parseExecElem_model_assign (m : SCXMLModel) (tg : String)
    (ats : List (String × String)) (tx : String) (cs : List XElem)
    (h1 : ¬tg = "raise") (h2 : ¬tg = "send") (h3 : tg = "assign") :
    (parseExecElem m (XElem.mk tg ats tx cs)).1 = { m with needs_jsengine := true } := by
  simp only [parseExecElem, XElem.tag_mk]
  rw [if_neg h1, if_neg h2, if_pos h3]

theorem parseExecElem_model_if (m : SCXMLModel) (tg : String)
    (ats : List (String × String)) (tx : String) (cs : List XElem)
    (h1 : ¬tg = "raise") (h2 : ¬tg = "send") (h3 : ¬tg = "assign") (h4 : tg = "if") :
    (parseExecElem m (XElem.mk tg ats tx cs)).1 =
      (let q := requires_jsengine (ifWalk m {} cs).1
        (getAttrD (XElem.mk tg ats tx cs) "cond" "")
       if q.2 then { q.1 with needs_jsengine := true } else q.1) := by
  simp only [parseExecElem, XElem.tag_mk]
  rw [if_neg h1, if_neg h2, if_neg h3, if_pos h4]

theorem parseExecElem_model_foreach (m : SCXMLModel) (tg : String)
    (ats : List (String × String)) (tx : String) (cs : List XElem)
    (h1 : ¬tg = "raise") (h2 : ¬tg = "send") (h3 : ¬tg = "assign") (h4 : ¬tg = "if")
    (h5 : tg = "foreach") :
    (parseExecElem m (XElem.mk tg ats tx cs)).1 =
      { (parse_executable_content m cs).1 with needs_jsengine := true } := by
  simp only [parseExecElem, XElem.tag_mk]
  rw [if_neg h1, if_neg h2, if_neg h3, if_neg h4, if_pos h5]

theorem parseExecElem_model_script (m : SCXMLModel) (tg : String)
    (ats : List (String × String)) (tx : String) (cs : List XElem)
    (h1 : ¬tg = "raise") (h2 : ¬tg = "send") (h3 : ¬tg = "assign") (h4 : ¬tg = "if")
    (h5 : ¬tg = "foreach") (h6 : ¬tg = "log") (h7 : tg = "script") :
    (parseExecElem m (XElem.mk tg ats tx cs)).1 = { m with needs_jsengine := true } := by
  simp only [parseExecElem, XElem.tag_mk]
  rw [if_neg h1, if_neg h2, if_neg h3, if_neg h4, if_neg h5, if_neg h6, if_pos h7]

theorem parseExecElem_model_other (m : SCXMLModel) (tg : String)
    (ats : List (String × String)) (tx : String) (cs : List XElem)
    (h1 : ¬tg = "raise") (h2 : ¬tg = "send") (h3 : ¬tg = "assign") (h4 : ¬tg = "if")
    (h5 : ¬tg = "foreach") (h7 : ¬tg = "script") :
    (parseExecElem m (XElem.mk tg ats tx cs)).1 = m := by
  simp only [parseExecElem, XElem.tag_mk]
  rw [if_neg h1, if_neg h2, if_neg h3, if_neg h4, if_neg h5]
  by_cases h6 : tg = "log"
  · rw [if_pos h6]
  · rw [if_neg h6, if_neg h7]
    by_cases h8 : tg = "cancel"
    · rw [if_pos h8]
    · rw [if_neg h8]

mutual
theorem parseExecElem_inv (c : XElem) (m : SCXMLModel) :
    ExecFrame m (parseExecElem m c).1 ∧
    (∀ e' : String, e' ∈ m.events → e' ∈ (parseExecElem m c).1.events) ∧
    ((parseExecElem m c).1.needs_jsengine = true →
      m.needs_jsengine = true ∨ ∃ x ∈ descendantsL [c], trigElem x = true) := by
  obtain ⟨tg, ats, tx, cs⟩ := c
  have hmemself : XElem.mk tg ats tx cs ∈ descendantsL [XElem.mk tg ats tx cs] :=
    mem_descendantsL_of_mem _ _ (List.mem_cons_self _ _)
  have hmemdesc : ∀ x ∈ descendantsL cs, x ∈ descendantsL [XElem.mk tg ats tx cs] := by
    intro x hx
    exact (mem_descendantsL_iff x _ []).mpr (Or.inr (Or.inl hx))
  by_cases h1 : tg = "raise"
  · rw [parseExecElem_model_raise m tg ats tx cs h1]
    obtain ⟨f, njs, _, _, _, _, mono, _⟩ :=
      addEvent_effects m (getAttrD (XElem.mk tg ats tx cs) "event" "")
    exact ⟨f, mono, fun hn => Or.inl (njs ▸ hn)⟩
  · by_cases h2 : tg = "send"
    · rw [parseExecElem_model_send m tg ats tx cs h1 h2]
      subst h2
      dsimp only
      by_cases hdyn : getAttrD (XElem.mk "send" ats tx cs) "eventexpr" "" ≠ "" ∨
          getAttrD (XElem.mk "send" ats tx cs) "targetexpr" "" ≠ "" ∨
          getAttrD (XElem.mk "send" ats tx cs) "delayexpr" "" ≠ ""
      · rw [if_pos hdyn]
        have htrig : trigElem (XElem.mk "send" ats tx cs) = true := by
          rcases hdyn with h | h | h <;> simp [trigElem, h]
        by_cases hev : getAttrD (XElem.mk "send" ats tx cs) "event" "" ≠ "" <;>
          [rw [if_pos hev]; rw [if_neg hev]] <;>
          · split_ifs <;>
            · constructor
              · first
                | exact execFrame_trans ⟨rfl, rfl, rfl, rfl, rfl, rfl, rfl, rfl⟩
                    (addEvent_effects _ _).1
                | exact ⟨rfl, rfl, rfl, rfl, rfl, rfl, rfl, rfl⟩
              constructor
              · intro e' he
                first
                  | exact (addEvent_effects _ _).2.2.2.2.2.2.1 e' he
                  | exact he
              · intro _
                exact Or.inr ⟨XElem.mk "send" ats tx cs, hmemself, htrig⟩
      · rw [if_neg hdyn]
        by_cases hev : getAttrD (XElem.mk "send" ats tx cs) "event" "" ≠ "" <;>
          [rw [if_pos hev]; rw [if_neg hev]] <;>
          · split_ifs <;>
            · refine ⟨?_, ?_, ?_⟩
              · first
                | exact execFrame_trans ⟨rfl, rfl, rfl, rfl, rfl, rfl, rfl, rfl⟩
                    (addEvent_effects _ _).1
                | exact ⟨rfl, rfl, rfl, rfl, rfl, rfl, rfl, rfl⟩
              · intro e' he
                first
                  | exact (addEvent_effects _ _).2.2.2.2.2.2.1 e' he
                  | exact he
              · intro hn
                first
                  | (rw [(addEvent_effects _ _).2.1] at hn; exact Or.inl hn)
                  | exact Or.inl hn
    · by_cases h3 : tg = "assign"
      · rw [parseExecElem_model_assign m tg ats tx cs h1 h2 h3]
        refine ⟨⟨rfl, rfl, rfl, rfl, rfl, rfl, rfl, rfl⟩, fun _ he => he, fun _ => ?_⟩
        refine Or.inr ⟨XElem.mk tg ats tx cs, hmemself, ?_⟩
        simp [trigElem, h3]
      · by_cases h4 : tg = "if"
        · rw [parseExecElem_model_if m tg ats tx cs h1 h2 h3 h4]
          dsimp only
          obtain ⟨fw, _, _, _, monow, _, njsw⟩ := ifWalk_effects cs m {}
          obtain ⟨fr, evr, njsr, _, _, _, valr⟩ :=
            requires_effects (ifWalk m {} cs).1 (getAttrD (XElem.mk tg ats tx cs) "cond" "")
          by_cases hreq : (requires_jsengine (ifWalk m {} cs).1
              (getAttrD (XElem.mk tg ats tx cs) "cond" "")).2 = true
          · rw [if_pos hreq]
            refine ⟨execFrame_trans (execFrame_trans fw fr)
              ⟨rfl, rfl, rfl, rfl, rfl, rfl, rfl, rfl⟩, ?_, ?_⟩
            · intro e' he
              have : e' ∈ (requires_jsengine (ifWalk m {} cs).1
                  (getAttrD (XElem.mk tg ats tx cs) "cond" "")).1.events := by
                rw [evr]
                exact monow e' he
              exact this
            · intro _
              refine Or.inr ⟨XElem.mk tg ats tx cs, hmemself, ?_⟩
              have hb : requires_jsengine_b (getAttrD (XElem.mk tg ats tx cs) "cond" "")
                  = true := valr ▸ hreq
              simp [trigElem, hb]
          · rw [if_neg hreq]
            refine ⟨execFrame_trans fw fr, ?_, ?_⟩
            · intro e' he
              rw [evr]
              exact monow e' he
            · intro hn
              rw [njsr] at hn
              rcases njsw hn with hn | ⟨el, hel, ht⟩
              · exact Or.inl hn
              · refine Or.inr ⟨el, hmemdesc el (mem_descendantsL_of_mem el cs hel), ?_⟩
                rcases ht with ht | ht <;> simp [trigElem, ht]
        · by_cases h5 : tg = "foreach"
          · rw [parseExecElem_model_foreach m tg ats tx cs h1 h2 h3 h4 h5]
            obtain ⟨f, mono, _⟩ := parse_executable_content_inv cs m
            refine ⟨execFrame_trans f ⟨rfl, rfl, rfl, rfl, rfl, rfl, rfl, rfl⟩,
              fun e' he => mono e' he, fun _ => ?_⟩
            refine Or.inr ⟨XElem.mk tg ats tx cs, hmemself, ?_⟩
            simp [trigElem, h5]
          · by_cases h7 : tg = "script"
            · rw [parseExecElem_model_script m tg ats tx cs h1 h2 h3 h4 h5
                (by rw [h7]; intro hc; exact absurd hc (by simp)) h7]
              refine ⟨⟨rfl, rfl, rfl, rfl, rfl, rfl, rfl, rfl⟩, fun _ he => he, fun _ => ?_⟩
              refine Or.inr ⟨XElem.mk tg ats tx cs, hmemself, ?_⟩
              simp [trigElem, h7]
            · rw [parseExecElem_model_other m tg ats tx cs h1 h2 h3 h4 h5 h7]
              exact ⟨execFrame_refl m, fun _ he => he, fun hn => Or.inl hn⟩

theorem parse_executable_content_inv (cs : List XElem) (m : SCXMLModel) :
    ExecFrame m (parse_executable_content m cs).1 ∧
    (∀ e' : String, e' ∈ m.events → e' ∈ (parse_executable_content m cs).1.events) ∧
    ((parse_executable_content m cs).1.needs_jsengine = true →
      m.needs_jsengine = true ∨ ∃ x ∈ descendantsL cs, trigElem x = true) := by
  cases cs with
  | nil => exact ⟨execFrame_refl m, fun _ he => he, fun hn => Or.inl hn⟩
  | cons c rest =>
    obtain ⟨f1, mono1, njs1⟩ := parseExecElem_inv c m
    rcases h1 : parseExecElem m c with ⟨m1, a⟩
    rw [h1] at f1 mono1 njs1
    obtain ⟨f2, mono2, njs2⟩ := parse_executable_content_inv rest m1
    rcases h2 : parse_executable_content m1 rest with ⟨m2, as⟩
    rw [h2] at f2 mono2 njs2
    have hgoal : parse_executable_content m (c :: rest) = (m2, a :: as) := by
      simp only [parse_executable_content, h1, h2]
    rw [hgoal]
    refine ⟨execFrame_trans f1 f2, fun e' he => mono2 e' (mono1 e' he), ?_⟩
    intro hn
    rcases njs2 hn with hn | ⟨x, hx, ht⟩
    · rcases njs1 hn with hn | ⟨x, hx, ht⟩
      · exact Or.inl hn
      · refine Or.inr ⟨x, ?_, ht⟩
        rcases (mem_descendantsL_iff x c []).mp hx with h | h | h
        · exact (mem_descendantsL_iff x c rest).mpr (Or.inl h)
        · exact (mem_descendantsL_iff x c rest).mpr (Or.inr (Or.inl h))
        · simp [descendantsL] at h
    · exact Or.inr ⟨x, (mem_descendantsL_iff x c rest).mpr (Or.inr (Or.inr hx)), ht⟩
end

theorem firstChildTag_mem (e : XElem) (t : String) (f : XElem)
    (h : firstChildTag e t = some f) : f ∈ e.children :=
  List.mem_of_find?_eq_some h

/-! ### Event-set lemmas for `<raise>` (claim C10 groundwork) -/

/-- A `<raise>` direct child always puts its (possibly empty) event value
into the event set. -/
theorem parse_exec_raise_adds (cs : List XElem) (m : SCXMLModel) (c : XElem)
    (hmem : c ∈ cs) (htag : c.tag = "raise") :
    getAttrD c "event" "" ∈ (parse_executable_content m cs).1.events := by
  induction cs generalizing m with
  | nil => simp at hmem
  | cons c0 rest ih =>
    rcases h1 : parseExecElem m c0 with ⟨m1, a⟩
    rcases h2 : parse_executable_content m1 rest with ⟨m2, as⟩
    have hgoal : parse_executable_content m (c0 :: rest) = (m2, a :: as) := by
      simp only [parse_executable_content, h1, h2]
    rw [hgoal]
    rcases List.mem_cons.mp hmem with hc | hc
    · subst hc
      obtain ⟨tg, ats, tx, ccs⟩ := c
      have hm1 : m1 = addEventToSet m (getAttrD (XElem.mk tg ats tx ccs) "event" "") := by
        have := parseExecElem_model_raise m tg ats tx ccs (by simpa using htag)
        rw [h1] at this
        exact this
      have hev : getAttrD (XElem.mk tg ats tx ccs) "event" "" ∈ m1.events := by
        rw [hm1]
        exact (addEvent_effects m _).2.2.2.2.2.1
      have := (parse_executable_content_inv rest m1).2.1
      rw [h2] at this
      exact this _ hev
    · have hmono := (parseExecElem_inv c0 m).2.1
      rw [h1] at hmono
      have := ih m1 hc
      rw [h2] at this
      exact this

/-- A `<raise>` inside an `<if>` branch with a non-empty event adds it. -/
theorem ifWalk_raise_adds (cs : List XElem) (m : SCXMLModel) (acc : IfAcc) (c : XElem)
    (hmem : c ∈ cs) (htag : c.tag = "raise") (hne : getAttrD c "event" "" ≠ "") :
    getAttrD c "event" "" ∈ (ifWalk m acc cs).1.events := by
  induction cs generalizing m acc with
  | nil => simp at hmem
  | cons el rest ih =>
    unfold ifWalk
    rcases List.mem_cons.mp hmem with hc | hc
    · subst hc
      rw [if_neg (by rw [htag]; decide), if_neg (by rw [htag]; decide)]
      rcases hba : branch_action m c with ⟨m', a⟩
      have hin := branch_action_raise_adds m c htag hne
      rw [hba] at hin
      have hmono := (ifWalk_effects rest m' (ifAccAppend acc a)).2.2.2.2.1
      exact hmono _ hin
    · by_cases h1 : el.tag = "elseif"
      · rw [if_pos h1]
        exact ih _ _ hc
      · rw [if_neg h1]
        by_cases h2 : el.tag = "else"
        · rw [if_pos h2]
          exact ih _ _ hc
        · rw [if_neg h2]
          rcases hba : branch_action m el with ⟨m', a⟩
          exact ih _ _ hc

theorem addEvent_dyn (m : SCXMLModel) (ev : String) :
    (addEventToSet m ev).has_dynamic_expressions = m.has_dynamic_expressions :=
  (addEvent_effects m ev).2.2.1

theorem addEvent_njs (m : SCXMLModel) (ev : String) :
    (addEventToSet m ev).needs_jsengine = m.needs_jsengine :=
  (addEvent_effects m ev).2.1

theorem addEvent_par (m : SCXMLModel) (ev : String) :
    (addEventToSet m ev).has_parent_communication = m.has_parent_communication :=
  (addEvent_effects m ev).2.2.2.1

theorem addEvent_chi (m : SCXMLModel) (ev : String) :
    (addEventToSet m ev).has_child_communication = m.has_child_communication :=
  (addEvent_effects m ev).2.2.2.2.1

theorem parse_exec_singleton (m : SCXMLModel) (e : XElem) :
    parse_executable_content m [e] = ((parseExecElem m e).1, [(parseExecElem m e).2]) := by
  rcases h : parseExecElem m e with ⟨m1, a⟩
  simp only [parse_executable_content, h]

/-- The four flag equations for a direct-child `<send>`. -/
theorem send_direct_flags (m : SCXMLModel) (tg : String) (ats : List (String × String))
    (tx : String) (cs : List XElem) (h2 : tg = "send") :
    ((parse_executable_content m [XElem.mk tg ats tx cs]).1.has_dynamic_expressions = true ↔
      (m.has_dynamic_expressions = true ∨
        getAttrD (XElem.mk tg ats tx cs) "eventexpr" "" ≠ "" ∨
        getAttrD (XElem.mk tg ats tx cs) "targetexpr" "" ≠ "" ∨
        getAttrD (XElem.mk tg ats tx cs) "delayexpr" "" ≠ "")) ∧
    ((parse_executable_content m [XElem.mk tg ats tx cs]).1.needs_jsengine = true ↔
      (m.needs_jsengine = true ∨
        getAttrD (XElem.mk tg ats tx cs) "eventexpr" "" ≠ "" ∨
        getAttrD (XElem.mk tg ats tx cs) "targetexpr" "" ≠ "" ∨
        getAttrD (XElem.mk tg ats tx cs) "delayexpr" "" ≠ "")) ∧
    ((parse_executable_content m [XElem.mk tg ats tx cs]).1.has_parent_communication = true ↔
      (m.has_parent_communication = true ∨
        getAttrD (XElem.mk tg ats tx cs) "target" "" = "#_parent")) ∧
    ((parse_executable_content m [XElem.mk tg ats tx cs]).1.has_child_communication = true ↔
      (m.has_child_communication = true ∨
        (getAttrD (XElem.mk tg ats tx cs) "target" "" = "#_child" ∧
          ¬getAttrD (XElem.mk tg ats tx cs) "target" "" = "#_parent"))) := by
  have h1 : ¬tg = "raise" := by rw [h2]; decide
  rw [parse_exec_singleton, parseExecElem_model_send m tg ats tx cs h1 h2]
  dsimp only
  split_ifs with hdyn hev hpar hchi hpar2 hchi2 hev2 hpar3 hchi3 hpar4 hchi4 <;>
    simp_all [addEvent_dyn, addEvent_njs, addEvent_par, addEvent_chi]

/-- An `<if>` element leaves the dynamic-expression and communication
flags untouched (in particular a `<send>` inside a branch sets none). -/
theorem if_elem_flags (m : SCXMLModel) (tg : String) (ats : List (String × String))
    (tx : String) (cs : List XElem) (h4 : tg = "if") :
    (parse_executable_content m [XElem.mk tg ats tx cs]).1.has_dynamic_expressions =
        m.has_dynamic_expressions ∧
    (parse_executable_content m [XElem.mk tg ats tx cs]).1.has_parent_communication =
        m.has_parent_communication ∧
    (parse_executable_content m [XElem.mk tg ats tx cs]).1.has_child_communication =
        m.has_child_communication := by
  rw [parse_exec_singleton, parseExecElem_model_if m tg ats tx cs
    (by rw [h4]; decide) (by rw [h4]; decide) (by rw [h4]; decide) h4]
  dsimp only
  obtain ⟨_, _, _, dynr, parr, chir, _⟩ :=
    requires_effects (ifWalk m {} cs).1 (getAttrD (XElem.mk tg ats tx cs) "cond" "")
  obtain ⟨_, dynw, parw, chiw, _, _, _⟩ := ifWalk_effects cs m {}
  split_ifs
  · exact ⟨dynr.trans dynw, parr.trans parw, chir.trans chiw⟩
  · exact ⟨dynr.trans dynw, parr.trans parw, chir.trans chiw⟩

/-- The event set of an `<if>` element is the event set left by its
branch walk. -/
theorem if_elem_events (m : SCXMLModel) (tg : String) (ats : List (String × String))
    (tx : String) (cs : List XElem) (h4 : tg = "if") :
    (parse_executable_content m [XElem.mk tg ats tx cs]).1.events =
      (ifWalk m {} cs).1.events := by
  rw [parse_exec_singleton, parseExecElem_model_if m tg ats tx cs
    (by rw [h4]; decide) (by rw [h4]; decide) (by rw [h4]; decide) h4]
  dsimp only
  obtain ⟨_, evr, _⟩ :=
    requires_effects (ifWalk m {} cs).1 (getAttrD (XElem.mk tg ats tx cs) "cond" "")
  split_ifs
  · exact evr
  · exact evr

/-! ## Claims -/

/-- C2 (counterexample): an `<invoke>` carrying both a non-empty `src`
and an inline `<content><scxml>` is classified static by the source,
although "exactly one of (`src` present) or (inline `<content><scxml>`
present)" is false for it. -/
theorem claim2_counterexample :
    (parse_invoke freshModel c2elem).2.is_static = true ∧
    getAttrD c2elem "src" "" ≠ "" ∧ specInlineScxml c2elem = true := by
  decide

/-- C2 (amended): an invoke is classified static iff its `type` is empty,
`scxml`, or the W3C URI, AND at least one (not: exactly one) of `src`
present / inline `<content><scxml>` present holds, AND `srcexpr` and the
content `expr` are both empty. -/
theorem claim2_amended (m : SCXMLModel) (e : XElem) :
    (parse_invoke m e).2.is_static = true ↔
      ((getAttrD e "type" "" = "" ∨ getAttrD e "type" "" = "scxml" ∨
        getAttrD e "type" "" = "http://www.w3.org/TR/scxml/") ∧
       (getAttrD e "src" "" ≠ "" ∨ specInlineScxml e = true) ∧
       getAttrD e "srcexpr" "" = "" ∧ specContentExpr e = "") := by
  obtain ⟨tg, ats, tx, cs⟩ := e
  simp only [parse_invoke, specInlineScxml, specContentExpr]
  rcases hfc : firstChildTag (XElem.mk tg ats tx cs) "content" with _ | ce <;>
    simp only [hfc] <;> rw [decide_eq_true_eq]
  rcases hsc : firstChildTag ce "scxml" with _ | sc <;> simp only [hsc] <;> simp

/-- C2 (witness): a plain `src`-only invoke is classified static via the
amended criterion. -/
theorem claim2_witness : (parse_invoke freshModel c2srcElem).2.is_static = true :=
  (claim2_amended freshModel c2srcElem).mpr (by decide)

/-- C5 (counterexample): a `<send targetexpr="x" target="#_parent">`
inside an `<if>` branch sets neither `has_dynamic_expressions` nor
`needs_jsengine` nor `has_parent_communication`, contradicting the claim
that the flags are set for sends inside `<if>` branches too. -/
theorem claim5_counterexample :
    c5ifelem.children = [c5send] ∧ c5ifelem.tag = "if" ∧ c5send.tag = "send" ∧
    getAttrD c5send "targetexpr" "" = "x" ∧ getAttrD c5send "target" "" = "#_parent" ∧
    (parse_executable_content freshModel [c5ifelem]).1.has_dynamic_expressions = false ∧
    (parse_executable_content freshModel [c5ifelem]).1.needs_jsengine = false ∧
    (parse_executable_content freshModel [c5ifelem]).1.has_parent_communication = false := by
  exact ⟨rfl, rfl, rfl, by decide, by decide, by decide, by decide, by decide⟩

/-- C5 (amended): a `<send>` that is a direct child of the element whose
executable content is parsed sets `has_dynamic_expressions` and
`needs_jsengine` exactly when one of its `eventexpr`/`targetexpr`/
`delayexpr` attributes is non-empty, `has_parent_communication` exactly
when `target="#_parent"`, and `has_child_communication` exactly when
`target="#_child"`; an `<if>` element never changes
`has_dynamic_expressions`, `has_parent_communication` or
`has_child_communication` — in particular a `<send>` inside an `<if>`
branch sets none of these flags. -/
theorem claim5_amended :
    (∀ (m : SCXMLModel) (tg : String) (ats : List (String × String)) (tx : String)
      (cs : List XElem), tg = "send" →
      ((parse_executable_content m [XElem.mk tg ats tx cs]).1.has_dynamic_expressions =
          true ↔
        (m.has_dynamic_expressions = true ∨
          getAttrD (XElem.mk tg ats tx cs) "eventexpr" "" ≠ "" ∨
          getAttrD (XElem.mk tg ats tx cs) "targetexpr" "" ≠ "" ∨
          getAttrD (XElem.mk tg ats tx cs) "delayexpr" "" ≠ "")) ∧
      ((parse_executable_content m [XElem.mk tg ats tx cs]).1.needs_jsengine = true ↔
        (m.needs_jsengine = true ∨
          getAttrD (XElem.mk tg ats tx cs) "eventexpr" "" ≠ "" ∨
          getAttrD (XElem.mk tg ats tx cs) "targetexpr" "" ≠ "" ∨
          getAttrD (XElem.mk tg ats tx cs) "delayexpr" "" ≠ "")) ∧
      ((parse_executable_content m [XElem.mk tg ats tx cs]).1.has_parent_communication =
          true ↔
        (m.has_parent_communication = true ∨
          getAttrD (XElem.mk tg ats tx cs) "target" "" = "#_parent")) ∧
      ((parse_executable_content m [XElem.mk tg ats tx cs]).1.has_child_communication =
          true ↔
        (m.has_child_communication = true ∨
          getAttrD (XElem.mk tg ats tx cs) "target" "" = "#_child"))) ∧
    (∀ (m : SCXMLModel) (tg : String) (ats : List (String × String)) (tx : String)
      (cs : List XElem), tg = "if" →
      (parse_executable_content m [XElem.mk tg ats tx cs]).1.has_dynamic_expressions =
          m.has_dynamic_expressions ∧
      (parse_executable_content m [XElem.mk tg ats tx cs]).1.has_parent_communication =
          m.has_parent_communication ∧
      (parse_executable_content m [XElem.mk tg ats tx cs]).1.has_child_communication =
          m.has_child_communication) := by
  constructor
  · intro m tg ats tx cs h2
    obtain ⟨hdyn, hnjs, hpar, hchi⟩ := send_direct_flags m tg ats tx cs h2
    refine ⟨hdyn, hnjs, hpar, ?_⟩
    constructor
    · intro hx
      rcases hchi.mp hx with h | ⟨h, _⟩
      · exact Or.inl h
      · exact Or.inr h
    · intro hx
      apply hchi.mpr
      rcases hx with h | h
      · exact Or.inl h
      · exact Or.inr ⟨h, by rw [h]; decide⟩
  · intro m tg ats tx cs h4
    exact if_elem_flags m tg ats tx cs h4

/-- C5 (witness): a direct `<send targetexpr="x" target="#_parent">` does
set `has_parent_communication` (and the dynamic-expression flags). -/
theorem claim5_witness :
    (parse_executable_content freshModel [c5send]).1.has_parent_communication = true ∧
    (parse_executable_content freshModel [c5ifelem]).1.has_parent_communication =
      freshModel.has_parent_communication :=
  ⟨(claim5_amended.1 freshModel "send" [("target", "#_parent"), ("targetexpr", "x")] ""
      [] rfl).2.2.1.mpr (Or.inr (by decide)),
   (claim5_amended.2 freshModel "if" [("cond", "")] "" [c5send] rfl).2.1⟩

/-- C6 (counterexample): the guard `In('variable')` matches the pure-In
regex and contains none of the specification's reject tokens (which list
`var `, `let `, `const ` with a trailing space), yet the classifier
rejects it: the source checks `var` as a bare substring and finds it
inside the quoted literal. -/
theorem claim6_counterexample :
    is_pure_in_predicate "In('variable')" = false ∧
    pyIn "In(" "In('variable')" = true ∧
    pureInRegexMatch (cleanExprOf "In('variable')").toList = true ∧
    (∀ kw ∈ spec_reject_tokens, pyIn kw (cleanExprOf "In('variable')") = false) := by
  decide

/-- C6 (amended): the classifier returns pure-In exactly when the
condition contains `In(`, its normalized form matches the regex, and the
normalized form contains none of `typeof`, `_event`, `function`, `var`,
`let`, `const`, `return` as bare substrings (no trailing spaces) — so
`In('variable')` is rejected because `var` occurs inside the quoted
literal. -/
theorem claim6_amended :
    (∀ expr : String, is_pure_in_predicate expr = true ↔
      (pyIn "In(" expr = true ∧ pureInRegexMatch (cleanExprOf expr).toList = true ∧
        ∀ kw ∈ ecma_keywords, pyIn kw (cleanExprOf expr) = false)) ∧
    is_pure_in_predicate "In('variable')" = false := by
  constructor
  · intro expr
    simp only [String.toList]
    by_cases h0 : expr = ""
    · subst h0
      decide
    · by_cases hin : pyIn "In(" expr = true
      · by_cases hrx : pureInRegexMatch (cleanExprOf expr).data = true
        · by_cases hkw : ecma_keywords.any (fun kw => pyIn kw (cleanExprOf expr)) = true
          · have hL : is_pure_in_predicate expr = false := by
              simp [is_pure_in_predicate, String.toList, h0, hin, hrx, hkw]
            obtain ⟨kw, hmem, hp⟩ := List.any_eq_true.mp hkw
            rw [hL]
            constructor
            · intro hc
              exact absurd hc (by simp)
            · rintro ⟨-, -, hall⟩
              rw [hall kw hmem] at hp
              exact absurd hp (by simp)
          · have hkw' : ecma_keywords.any (fun kw => pyIn kw (cleanExprOf expr)) = false := by
              simpa using hkw
            have hL : is_pure_in_predicate expr = true := by
              simp [is_pure_in_predicate, String.toList, h0, hin, hrx, hkw']
            rw [hL]
            refine ⟨fun _ => ⟨hin, hrx, fun kw hm => ?_⟩, fun _ => rfl⟩
            have := List.any_eq_false.mp hkw' kw hm
            simpa using this
        · have hrx' : pureInRegexMatch (cleanExprOf expr).data = false := by
            simpa using hrx
          have hL : is_pure_in_predicate expr = false := by
            simp [is_pure_in_predicate, String.toList, h0, hin, hrx']
          rw [hL]
          constructor
          · intro hc
            exact absurd hc (by simp)
          · rintro ⟨-, hc, -⟩
            rw [hc] at hrx'
            exact absurd hrx' (by simp)
      · have hin' : pyIn "In(" expr = false := by simpa using hin
        have hL : is_pure_in_predicate expr = false := by
          simp [is_pure_in_predicate, hin']
        rw [hL]
        constructor
        · intro hc
          exact absurd hc (by simp)
        · rintro ⟨hc, -, -⟩
          rw [hc] at hin'
          exact absurd hin' (by simp)
  · decide

/-- C6 (witness): `In('s1')`, which contains no reject token, is
classified pure-In by the amended criterion. -/
theorem claim6_witness : is_pure_in_predicate "In('s1')" = true :=
  (claim6_amended.1 "In('s1')").mpr (by decide)

/-- C7 (counterexample): the lowered form of the pure-In guard
`In('s1') && In('s2')` is `this->isStateActive("s1") &&
this->isStateActive("s2")` — the generated calls carry a `this->` prefix,
so the guard is not the string `isStateActive("s1") &&
isStateActive("s2")` that the claim demands. -/
theorem claim7_counterexample :
    ((parse_file "c7" c7doc).map (fun m =>
      (alistLookup m.states "a").map (fun s => s.transitions.map (fun t => t.cond_cpp))))
      = some (some ["this->isStateActive(\"s1\") && this->isStateActive(\"s2\")"]) ∧
    ("this->isStateActive(\"s1\") && this->isStateActive(\"s2\")" ≠
      "isStateActive(\"s1\") && isStateActive(\"s2\")") := by
  constructor
  · decide
  · decide

/-- C7 (amended): for a transition guarded by `In('s1') && In('s2')` (the
attribute value after XML entity decoding) the parser records
`is_pure_in_predicate = true`, lowers the guard to
`this->isStateActive("s1") && this->isStateActive("s2")`, sets
`uses_in_predicate`, and does not set `needs_jsengine` from this guard
alone. -/
theorem claim7_amended :
    (parse_file "c7" c7doc).map (fun m =>
      ((alistLookup m.states "a").map (fun s =>
        s.transitions.map (fun t => (t.is_pure_in_predicate, t.cond_cpp))),
       m.uses_in_predicate, m.needs_jsengine))
      = some (some [(true, "this->isStateActive(\"s1\") && this->isStateActive(\"s2\")")],
          true, false) := by
  decide

/-- C10: a `<raise>` parsed as a direct child always adds its `event`
attribute value to the model's event set, the empty string when the
attribute is absent; a `<raise>` inside an `<if>` branch adds its event
only when it is non-empty (the empty string is never added by an `<if>`
element). -/
theorem claim10_confirmed :
    (∀ (m : SCXMLModel) (cs : List XElem) (c : XElem), c ∈ cs → c.tag = "raise" →
      getAttrD c "event" "" ∈ (parse_executable_content m cs).1.events) ∧
    (∀ (m : SCXMLModel) (tg : String) (ats : List (String × String)) (tx : String)
      (cs : List XElem), tg = "if" →
      ("" ∈ (parse_executable_content m [XElem.mk tg ats tx cs]).1.events →
        "" ∈ m.events) ∧
      (∀ c ∈ cs, c.tag = "raise" → getAttrD c "event" "" ≠ "" →
        getAttrD c "event" "" ∈
          (parse_executable_content m [XElem.mk tg ats tx cs]).1.events)) := by
  constructor
  · intro m cs c hm ht
    exact parse_exec_raise_adds cs m c hm ht
  · intro m tg ats tx cs h4
    constructor
    · intro hmem
      rw [if_elem_events m tg ats tx cs h4] at hmem
      rcases (ifWalk_effects cs m {}).2.2.2.2.2.1 "" hmem with h | h
      · exact h
      · exact absurd rfl h
    · intro c hc ht hne
      rw [if_elem_events m tg ats tx cs h4]
      exact ifWalk_raise_adds cs m {} c hc ht hne

/-- C10 (witness): a bare `<raise/>` puts `""` into the event set; inside
an `<if>` the non-empty `e1` is added while `""` is not. -/
theorem claim10_witness :
    "" ∈ (parse_executable_content freshModel [rawRaise]).1.events ∧
    getAttrD (XElem.mk "raise" [("event", "e1")] "" []) "event" "" ∈
      (parse_executable_content freshModel [c10ifelem]).1.events ∧
    ("" ∈ (parse_executable_content freshModel [c10ifelem]).1.events →
      "" ∈ freshModel.events) := by
  refine ⟨?_, ?_, ?_⟩
  · exact claim10_confirmed.1 freshModel [rawRaise] rawRaise (List.mem_cons_self _ _) rfl
  · exact (claim10_confirmed.2 freshModel "if" [] ""
      [rawRaise, XElem.mk "raise" [("event", "e1")] "" []] rfl).2
      (XElem.mk "raise" [("event", "e1")] "" [])
      (List.mem_cons_of_mem _ (List.mem_cons_self _ _)) rfl (by decide)
  · exact (claim10_confirmed.2 freshModel "if" [] ""
      [rawRaise, XElem.mk "raise" [("event", "e1")] "" []] rfl).1

/-! ### State-tree builder machinery -/

mutual
theorem descendants_trans (x c e : XElem) (hc : c ∈ descendants e)
    (hx : x ∈ descendants c) : x ∈ descendants e := by
  obtain ⟨t, a, tx0, cs⟩ := e
  exact descendantsL_trans x c cs
    (by rw [show descendants (XElem.mk t a tx0 cs) = descendantsL cs from rfl] at hc
        exact hc) hx

theorem descendantsL_trans (x c : XElem) (cs : List XElem) (hc : c ∈ descendantsL cs)
    (hx : x ∈ descendants c) : x ∈ descendantsL cs := by
  cases cs with
  | nil => simp [descendantsL] at hc
  | cons c0 rest =>
    rcases (mem_descendantsL_iff c c0 rest).mp hc with h | h | h
    · exact (mem_descendantsL_iff x c0 rest).mpr (Or.inr (Or.inl (h ▸ hx)))
    · exact (mem_descendantsL_iff x c0 rest).mpr
        (Or.inr (Or.inl (descendants_trans x c c0 h hx)))
    · exact (mem_descendantsL_iff x c0 rest).mpr
        (Or.inr (Or.inr (descendantsL_trans x c rest h hx)))
end

theorem mem_childrenTag (e : XElem) (t : String) (c : XElem) (h : c ∈ childrenTag e t) :
    c ∈ e.children := by
  exact List.mem_of_mem_filter h

theorem storedConds_upsert (l : List (String × State)) (k : String) (v : State)
    (c : String) (h : c ∈ storedConds (alistUpsert l k v)) :
    c ∈ storedConds l ∨ c ∈ v.transitions.map (fun t => t.cond) := by
  induction l with
  | nil =>
    simp only [alistUpsert, storedConds, List.map_cons, List.map_nil,
      List.flatten_cons, List.flatten_nil, List.append_nil] at h
    exact Or.inr h
  | cons kv rest ih =>
    by_cases hk : kv.1 = k
    · rw [show alistUpsert (kv :: rest) k v = (k, v) :: rest from by
        simp [alistUpsert, hk]] at h
      simp only [storedConds, List.map_cons, List.flatten_cons, List.mem_append] at h ⊢
      rcases h with h | h
      · exact Or.inr h
      · exact Or.inl (Or.inr h)
    · rw [show alistUpsert (kv :: rest) k v = kv :: alistUpsert rest k v from by
        simp [alistUpsert, hk]] at h
      simp only [storedConds, List.map_cons, List.flatten_cons, List.mem_append] at h ⊢
      rcases h with h | h
      · exact Or.inl (Or.inl h)
      · rcases ih (by simpa [storedConds] using h) with h2 | h2
        · exact Or.inl (Or.inr (by simpa [storedConds] using h2))
        · exact Or.inr h2

theorem histMono_refl (m : SCXMLModel) : HistMono m m :=
  ⟨fun _ h => h, fun _ h => h, fun h => h⟩

theorem histMono_trans {a b c : SCXMLModel} (h1 : HistMono a b) (h2 : HistMono b c) :
    HistMono a c :=
  ⟨fun x hx => h2.1 x (h1.1 x hx), fun x hx => h2.2.1 x (h1.2.1 x hx),
    fun hx => h2.2.2 (h1.2.2 hx)⟩

theorem registered_mono {a b : SCXMLModel} (hm : HistMono a b) (h : String)
    (hr : Registered a h) : Registered b h :=
  ⟨hm.1 h hr.1, hm.2.1 h hr.2.1, hm.2.2 hr.2.2⟩

theorem nodeStep_refl (m : SCXMLModel) (scope : List XElem) : NodeStep m m scope :=
  ⟨⟨rfl, rfl, rfl, rfl⟩, histMono_refl m, fun h => Or.inl h, fun _ h => Or.inl h,
    fun h => h⟩

theorem nodeStep_trans {a b c : SCXMLModel} {scope : List XElem}
    (h1 : NodeStep a b scope) (h2 : NodeStep b c scope) : NodeStep a c scope := by
  obtain ⟨⟨v1, i1, n1, p1⟩, hm1, nj1, sc1, nd1⟩ := h1
  obtain ⟨⟨v2, i2, n2, p2⟩, hm2, nj2, sc2, nd2⟩ := h2
  refine ⟨⟨v2.trans v1, i2.trans i1, n2.trans n1, p2.trans p1⟩,
    histMono_trans hm1 hm2, ?_, ?_, fun h => nd2 (nd1 h)⟩
  · intro hn
    rcases nj2 hn with hn | hx
    · exact nj1 hn
    · exact Or.inr hx
  · intro cd hcd
    rcases sc2 cd hcd with h | hx
    · exact sc1 cd h
    · exact Or.inr hx

theorem nodeStep_mono_scope {a b : SCXMLModel} {s s' : List XElem}
    (h : NodeStep a b s) (hs : ∀ x ∈ s, x ∈ s') : NodeStep a b s' := by
  obtain ⟨hf, hm, nj, sc, nd⟩ := h
  refine ⟨hf, hm, ?_, ?_, nd⟩
  · intro hn
    rcases nj hn with hn | ⟨x, hx, ht⟩
    · exact Or.inl hn
    · exact Or.inr ⟨x, hs x hx, ht⟩
  · intro cd hcd
    rcases sc cd hcd with h2 | ⟨x, hx, ht⟩
    · exact Or.inl h2
    · exact Or.inr ⟨x, hs x hx, ht⟩

/-- An executable-content step (ExecFrame plus a trigger bound) is a
NodeStep. -/
theorem nodeStep_of_exec {m m' : SCXMLModel} {scope : List XElem}
    (hf : ExecFrame m m')
    (hn : m'.needs_jsengine = true →
      m.needs_jsengine = true ∨ ∃ x ∈ scope, trigElem x = true) :
    NodeStep m m' scope := by
  obtain ⟨hs, hv, hi, hnm, hhd, hhs, hhh, hpr⟩ := hf
  exact ⟨⟨hv, hi, hnm, hpr⟩, ⟨fun x hx => hhd ▸ hx, fun x hx => hhs ▸ hx,
    fun hx => hhh ▸ hx⟩, hn, fun cd hcd => Or.inl (hs ▸ hcd), fun h => hs ▸ h⟩

theorem descendants_eq_children (e : XElem) : descendants e = descendantsL e.children := by
  obtain ⟨t, a, tx, cs⟩ := e
  rfl

theorem mem_descendants_of_mem_children (x e : XElem) (h : x ∈ e.children) :
    x ∈ descendants e := by
  rw [descendants_eq_children]
  exact mem_descendantsL_of_mem x e.children h

theorem mem_descendantsL_elim (x : XElem) (l : List XElem) (h : x ∈ descendantsL l) :
    ∃ c ∈ l, x = c ∨ x ∈ descendants c := by
  induction l with
  | nil => simp [descendantsL] at h
  | cons c rest ih =>
    rcases (mem_descendantsL_iff x c rest).mp h with h | h | h
    · exact ⟨c, List.mem_cons_self _ _, Or.inl h⟩
    · exact ⟨c, List.mem_cons_self _ _, Or.inr h⟩
    · obtain ⟨c0, hc0, hx⟩ := ih h
      exact ⟨c0, List.mem_cons_of_mem _ hc0, hx⟩

theorem descendantsL_subset (x : XElem) (l cs : List XElem)
    (hl : ∀ c ∈ l, c ∈ cs) (h : x ∈ descendantsL l) : x ∈ descendantsL cs := by
  obtain ⟨c, hc, hx⟩ := mem_descendantsL_elim x l h
  rcases hx with rfl | hx
  · exact mem_descendantsL_of_mem x cs (hl x hc)
  · exact mem_descendantsL_of_mem_descendants x c cs (hl c hc) hx

/-- Elements in scope of a single element are the element itself or its
descendants. -/
theorem mem_scope_single (x e : XElem) (h : x ∈ descendantsL [e]) :
    x = e ∨ x ∈ descendants e := by
  rcases (mem_descendantsL_iff x e []).mp h with h | h | h
  · exact Or.inl h
  · exact Or.inr h
  · simp [descendantsL] at h

theorem scope_single_intro (x e : XElem) (h : x = e ∨ x ∈ descendants e) :
    x ∈ descendantsL [e] := by
  rcases h with rfl | h
  · exact mem_descendantsL_of_mem x [x] (List.mem_cons_self _ _)
  · exact (mem_descendantsL_iff x e []).mpr (Or.inr (Or.inl h))

/-! ### Effect lemmas for the per-state helper folds -/

theorem collectFold_inv (evs : List String) (m : SCXMLModel) :
    ExecFrame m (evs.foldl
      (fun acc ev =>
        if ev ∉ ["*", ".*", "_*"] ∧ !(pyEndswith ".*" ev) then addEventToSet acc ev
        else acc) m) ∧
    (evs.foldl
      (fun acc ev =>
        if ev ∉ ["*", ".*", "_*"] ∧ !(pyEndswith ".*" ev) then addEventToSet acc ev
        else acc) m).needs_jsengine = m.needs_jsengine := by
  induction evs generalizing m with
  | nil => exact ⟨execFrame_refl m, rfl⟩
  | cons ev rest ih =>
    simp only [List.foldl_cons]
    by_cases h : ev ∉ ["*", ".*", "_*"] ∧ !(pyEndswith ".*" ev)
    · rw [if_pos h]
      obtain ⟨f2, njs2⟩ := ih (addEventToSet m ev)
      exact ⟨execFrame_trans (addEvent_effects m ev).1 f2,
        njs2.trans (addEvent_effects m ev).2.1⟩
    · rw [if_neg h]
      exact ih m

theorem collect_effects (m : SCXMLModel) (t : Transition) :
    ExecFrame m (collectTransitionEvents m t) ∧
    (collectTransitionEvents m t).needs_jsengine = m.needs_jsengine := by
  simp only [collectTransitionEvents]
  by_cases h1 : t.event ≠ ""
  · rw [if_pos h1]
    by_cases h2 : t.event ∉ ["*", ".*", "_*"]
    · rw [if_pos h2]
      exact collectFold_inv (pySplit t.event) m
    · rw [if_neg h2]
      exact ⟨execFrame_refl m, rfl⟩
  · rw [if_neg h1]
    exact ⟨execFrame_refl m, rfl⟩

theorem parse_transition_effects (m : SCXMLModel) (e : XElem) :
    ExecFrame m (parse_transition m e).1 ∧
    ((parse_transition m e).1.needs_jsengine = true →
      m.needs_jsengine = true ∨ ∃ x ∈ descendantsL [e], trigElem x = true) ∧
    (parse_transition m e).2.cond = getAttrD e "cond" "" := by
  obtain ⟨tg, ats, tx, cs⟩ := e
  have hscope : ∀ x ∈ descendantsL cs, x ∈ descendantsL [XElem.mk tg ats tx cs] :=
    fun x hx => (mem_descendantsL_iff x _ []).mpr (Or.inr (Or.inl hx))
  have hself : XElem.mk tg ats tx cs ∈ descendantsL [XElem.mk tg ats tx cs] :=
    mem_descendantsL_of_mem _ _ (List.mem_cons_self _ _)
  obtain ⟨fp, monop, njsp⟩ := parse_executable_content_inv cs m
  simp only [parse_transition, XElem.children_mk]
  rcases hp : parse_executable_content m cs with ⟨m1, acts⟩
  rw [hp] at fp monop njsp
  obtain ⟨fr, evr, njsr, _, _, _, valr⟩ :=
    requires_effects m1 (getAttrD (XElem.mk tg ats tx cs) "cond" "")
  rcases hr : requires_jsengine m1 (getAttrD (XElem.mk tg ats tx cs) "cond" "")
    with ⟨m2, req⟩
  rw [hr] at fr evr njsr valr
  simp only [hp, hr]
  by_cases hc : getAttrD (XElem.mk tg ats tx cs) "cond" "" ≠ ""
  · rw [if_pos hc]
    by_cases hq : req = true
    · rw [if_pos hq]
      refine ⟨execFrame_trans fp (execFrame_trans fr
        ⟨rfl, rfl, rfl, rfl, rfl, rfl, rfl, rfl⟩), fun _ => ?_, trivial⟩
      refine Or.inr ⟨XElem.mk tg ats tx cs, hself, ?_⟩
      have hb : requires_jsengine_b (getAttrD (XElem.mk tg ats tx cs) "cond" "")
          = true := valr ▸ hq
      simp [trigElem, hb]
    · rw [if_neg hq]
      refine ⟨execFrame_trans fp fr, ?_, trivial⟩
      intro hn
      rw [njsr] at hn
      rcases njsp hn with hn | ⟨x, hx, ht⟩
      · exact Or.inl hn
      · exact Or.inr ⟨x, hscope x hx, ht⟩
  · rw [if_neg hc]
    refine ⟨fp, ?_, trivial⟩
    intro hn
    rcases njsp hn with hn | ⟨x, hx, ht⟩
    · exact Or.inl hn
    · exact Or.inr ⟨x, hscope x hx, ht⟩

theorem stFold_inv (l : List XElem) (m : SCXMLModel) (acc0 : List Transition) :
    ExecFrame m (l.foldl
      (fun acc te =>
        let (m', t) := parse_transition acc.1 te
        (collectTransitionEvents m' t, acc.2 ++ [t])) (m, acc0)).1 ∧
    ((l.foldl
      (fun acc te =>
        let (m', t) := parse_transition acc.1 te
        (collectTransitionEvents m' t, acc.2 ++ [t])) (m, acc0)).1.needs_jsengine = true →
      m.needs_jsengine = true ∨ ∃ x ∈ descendantsL l, trigElem x = true) ∧
    (∀ t ∈ (l.foldl
      (fun acc te =>
        let (m', t) := parse_transition acc.1 te
        (collectTransitionEvents m' t, acc.2 ++ [t])) (m, acc0)).2,
      t ∈ acc0 ∨ ∃ te ∈ l, t.cond = getAttrD te "cond" "") := by
  induction l generalizing m acc0 with
  | nil =>
    exact ⟨execFrame_refl m, fun h => Or.inl h, fun t ht => Or.inl ht⟩
  | cons te rest ih =>
    obtain ⟨f1, njs1, hc1⟩ := parse_transition_effects m te
    rcases hpt : parse_transition m te with ⟨m1, t1⟩
    rw [hpt] at f1 njs1 hc1
    obtain ⟨f2, njs2⟩ := collect_effects m1 t1
    obtain ⟨f3, njs3, hc3⟩ := ih (collectTransitionEvents m1 t1) (acc0 ++ [t1])
    simp only [List.foldl_cons, hpt]
    refine ⟨execFrame_trans (execFrame_trans f1 f2) f3, ?_, ?_⟩
    · intro hn
      rcases njs3 hn with hn | ⟨x, hx, ht⟩
      · rw [njs2] at hn
        rcases njs1 hn with hn | ⟨x, hx, ht⟩
        · exact Or.inl hn
        · rcases mem_scope_single x te hx with heq | hd
          · exact Or.inr ⟨te, (mem_descendantsL_iff te te rest).mpr (Or.inl rfl), heq ▸ ht⟩
          · exact Or.inr ⟨x, (mem_descendantsL_iff x te rest).mpr (Or.inr (Or.inl hd)), ht⟩
      · exact Or.inr ⟨x, (mem_descendantsL_iff x te rest).mpr (Or.inr (Or.inr hx)), ht⟩
    · intro t ht
      rcases hc3 t ht with ht2 | ⟨te2, hte2, hcnd⟩
      · rcases List.mem_append.mp ht2 with ht3 | ht3
        · exact Or.inl ht3
        · simp only [List.mem_singleton] at ht3
          subst ht3
          exact Or.inr ⟨te, List.mem_cons_self _ _, hc1⟩
      · exact Or.inr ⟨te2, List.mem_cons_of_mem _ hte2, hcnd⟩

theorem parseStateTransitions_effects (m : SCXMLModel) (e : XElem) :
    ExecFrame m (parseStateTransitions m e).1 ∧
    ((parseStateTransitions m e).1.needs_jsengine = true →
      m.needs_jsengine = true ∨ ∃ x ∈ descendantsL e.children, trigElem x = true) ∧
    (∀ t ∈ (parseStateTransitions m e).2,
      ∃ te ∈ childrenTag e "transition", t.cond = getAttrD te "cond" "") := by
  obtain ⟨f, njs, hc⟩ := stFold_inv (childrenTag e "transition") m []
  refine ⟨f, ?_, ?_⟩
  · intro hn
    rcases njs hn with hn | ⟨x, hx, ht⟩
    · exact Or.inl hn
    · exact Or.inr ⟨x, descendantsL_subset x _ _
        (fun c hcm => mem_childrenTag e "transition" c hcm) hx, ht⟩
  · intro t ht
    rcases hc t ht with ht2 | h2
    · simp at ht2
    · exact h2

theorem eaFold_inv (l : List XElem) (m : SCXMLModel) (acc0 : List SAction) :
    ExecFrame m (l.foldl
      (fun acc en =>
        let (m', as) := parse_executable_content acc.1 en.children
        (m', acc.2 ++ as)) (m, acc0)).1 ∧
    ((l.foldl
      (fun acc en =>
        let (m', as) := parse_executable_content acc.1 en.children
        (m', acc.2 ++ as)) (m, acc0)).1.needs_jsengine = true →
      m.needs_jsengine = true ∨ ∃ x ∈ descendantsL l, trigElem x = true) := by
  induction l generalizing m acc0 with
  | nil => exact ⟨execFrame_refl m, fun h => Or.inl h⟩
  | cons en rest ih =>
    obtain ⟨f1, _, njs1⟩ := parse_executable_content_inv en.children m
    rcases hp : parse_executable_content m en.children with ⟨m1, as1⟩
    rw [hp] at f1 njs1
    obtain ⟨f2, njs2⟩ := ih m1 (acc0 ++ as1)
    simp only [List.foldl_cons, hp]
    refine ⟨execFrame_trans f1 f2, ?_⟩
    intro hn
    rcases njs2 hn with hn | ⟨x, hx, ht⟩
    · rcases njs1 hn with hn | ⟨x, hx, ht⟩
      · exact Or.inl hn
      · refine Or.inr ⟨x, (mem_descendantsL_iff x en rest).mpr (Or.inr (Or.inl ?_)), ht⟩
        rw [descendants_eq_children]
        exact hx
    · exact Or.inr ⟨x, (mem_descendantsL_iff x en rest).mpr (Or.inr (Or.inr hx)), ht⟩

theorem parseEntryActions_effects (m : SCXMLModel) (e : XElem) (tagName : String) :
    ExecFrame m (parseEntryActions m e tagName).1 ∧
    ((parseEntryActions m e tagName).1.needs_jsengine = true →
      m.needs_jsengine = true ∨ ∃ x ∈ descendantsL e.children, trigElem x = true) := by
  obtain ⟨f, njs⟩ := eaFold_inv (childrenTag e tagName) m []
  refine ⟨f, ?_⟩
  intro hn
  rcases njs hn with hn | ⟨x, hx, ht⟩
  · exact Or.inl hn
  · exact Or.inr ⟨x, descendantsL_subset x _ _
      (fun c hcm => mem_childrenTag e tagName c hcm) hx, ht⟩

theorem parseInitialElem_effects (m : SCXMLModel) (e : XElem) (cur : String) :
    ExecFrame m (parseInitialElem m e cur).1 ∧
    ((parseInitialElem m e cur).1.needs_jsengine = true →
      m.needs_jsengine = true ∨ ∃ x ∈ descendantsL e.children, trigElem x = true) := by
  simp only [parseInitialElem]
  rcases hie : firstChildTag e "initial" with - | ie
  · exact ⟨execFrame_refl m, fun h => Or.inl h⟩
  · simp only []
    rcases hit : firstChildTag ie "transition" with - | it
    · exact ⟨execFrame_refl m, fun h => Or.inl h⟩
    · simp only []
      obtain ⟨f1, _, njs1⟩ := parse_executable_content_inv it.children m
      rcases hp : parse_executable_content m it.children with ⟨m1, as1⟩
      rw [hp] at f1 njs1
      simp only [hp]
      refine ⟨f1, ?_⟩
      intro hn
      rcases njs1 hn with hn | ⟨x, hx, ht⟩
      · exact Or.inl hn
      · refine Or.inr ⟨x, ?_, ht⟩
        rw [show descendantsL e.children = descendants e from
          (descendants_eq_children e).symm]
        refine descendants_trans x ie e
          (mem_descendants_of_mem_children ie e (firstChildTag_mem e "initial" ie hie)) ?_
        refine descendants_trans x it ie
          (mem_descendants_of_mem_children it ie
            (firstChildTag_mem ie "transition" it hit)) ?_
        rw [descendants_eq_children]
        exact hx

theorem parse_invoke_effects (m : SCXMLModel) (e : XElem) :
    ExecFrame m (parse_invoke m e).1 ∧
    ((parse_invoke m e).1.needs_jsengine = true →
      m.needs_jsengine = true ∨ ∃ x ∈ descendantsL e.children, trigElem x = true) := by
  simp only [parse_invoke]
  rcases hfin : firstChildTag e "finalize" with - | f
  · simp only []
    split_ifs with hst
    · exact ⟨execFrame_refl m, fun h => Or.inl h⟩
    · exact ⟨⟨rfl, rfl, rfl, rfl, rfl, rfl, rfl, rfl⟩, fun h => Or.inl h⟩
  · simp only []
    obtain ⟨f1, _, njs1⟩ := parse_executable_content_inv f.children m
    rcases hp : parse_executable_content m f.children with ⟨m1, fin⟩
    rw [hp] at f1 njs1
    simp only [hp]
    have hsc : ∀ x ∈ descendantsL f.children, x ∈ descendantsL e.children := by
      intro x hx
      refine mem_descendantsL_of_mem_descendants x f e.children
        (firstChildTag_mem e "finalize" f hfin) ?_
      rw [descendants_eq_children]
      exact hx
    split_ifs with hst
    · refine ⟨f1, ?_⟩
      intro hn
      rcases njs1 hn with hn | ⟨x, hx, ht⟩
      · exact Or.inl hn
      · exact Or.inr ⟨x, hsc x hx, ht⟩
    · refine ⟨execFrame_trans f1 ⟨rfl, rfl, rfl, rfl, rfl, rfl, rfl, rfl⟩, ?_⟩
      intro hn
      rcases njs1 hn with hn | ⟨x, hx, ht⟩
      · exact Or.inl hn
      · exact Or.inr ⟨x, hsc x hx, ht⟩

theorem invFold_inv (l : List XElem) (m : SCXMLModel) (acc1 : List InvokeRec)
    (acc2 : List StaticInvokeRec) (sid : String) :
    ExecFrame m (l.foldl
      (fun acc ie =>
        let (m', inv) := parse_invoke acc.1 ie
        let m2 := { m' with has_invoke := true }
        if !inv.is_static then
          ({ m2 with has_dynamic_invoke := true }, acc.2.1 ++ [inv], acc.2.2)
        else
          let si : StaticInvokeRec :=
            ⟨inv.id, "", sid, inv.autoforward = "true", "", inv.src, inv.params,
              inv.idlocation⟩
          ({ m2 with static_invokes := m2.static_invokes ++ [si] },
            acc.2.1 ++ [inv], acc.2.2 ++ [si])) (m, acc1, acc2)).1 ∧
    ((l.foldl
      (fun acc ie =>
        let (m', inv) := parse_invoke acc.1 ie
        let m2 := { m' with has_invoke := true }
        if !inv.is_static then
          ({ m2 with has_dynamic_invoke := true }, acc.2.1 ++ [inv], acc.2.2)
        else
          let si : StaticInvokeRec :=
            ⟨inv.id, "", sid, inv.autoforward = "true", "", inv.src, inv.params,
              inv.idlocation⟩
          ({ m2 with static_invokes := m2.static_invokes ++ [si] },
            acc.2.1 ++ [inv], acc.2.2 ++ [si])) (m, acc1, acc2)).1.needs_jsengine = true →
      m.needs_jsengine = true ∨ ∃ x ∈ descendantsL l, trigElem x = true) := by
  induction l generalizing m acc1 acc2 with
  | nil => exact ⟨execFrame_refl m, fun h => Or.inl h⟩
  | cons ie rest ih =>
    obtain ⟨f1, njs1⟩ := parse_invoke_effects m ie
    rcases hp : parse_invoke m ie with ⟨m1, inv⟩
    rw [hp] at f1 njs1
    simp only [List.foldl_cons, hp]
    have hscope : ∀ x ∈ descendantsL ie.children, x ∈ descendantsL (ie :: rest) := by
      intro x hx
      refine (mem_descendantsL_iff x ie rest).mpr (Or.inr (Or.inl ?_))
      rw [descendants_eq_children]
      exact hx
    split_ifs with hb
    · obtain ⟨f2, njs2⟩ :=
        ih { m1 with has_invoke := true, has_dynamic_invoke := true } (acc1 ++ [inv]) acc2
      refine ⟨execFrame_trans (execFrame_trans f1
        ⟨rfl, rfl, rfl, rfl, rfl, rfl, rfl, rfl⟩) f2, ?_⟩
      intro hn
      rcases njs2 hn with hn | ⟨x, hx, ht⟩
      · rcases njs1 hn with hn | ⟨x, hx, ht⟩
        · exact Or.inl hn
        · exact Or.inr ⟨x, hscope x hx, ht⟩
      · exact Or.inr ⟨x, (mem_descendantsL_iff x ie rest).mpr (Or.inr (Or.inr hx)), ht⟩
    · obtain ⟨f2, njs2⟩ :=
        ih { m1 with
              has_invoke := true,
              static_invokes := m1.static_invokes ++
                [⟨inv.id, "", sid, inv.autoforward = "true", "", inv.src, inv.params,
                  inv.idlocation⟩] } (acc1 ++ [inv])
          (acc2 ++ [⟨inv.id, "", sid, inv.autoforward = "true", "", inv.src, inv.params,
              inv.idlocation⟩])
      refine ⟨execFrame_trans (execFrame_trans f1
        ⟨rfl, rfl, rfl, rfl, rfl, rfl, rfl, rfl⟩) f2, ?_⟩
      intro hn
      rcases njs2 hn with hn | ⟨x, hx, ht⟩
      · rcases njs1 hn with hn | ⟨x, hx, ht⟩
        · exact Or.inl hn
        · exact Or.inr ⟨x, hscope x hx, ht⟩
      · exact Or.inr ⟨x, (mem_descendantsL_iff x ie rest).mpr (Or.inr (Or.inr hx)), ht⟩

theorem parseStateInvokes_effects (m : SCXMLModel) (e : XElem) (sid : String) :
    ExecFrame m (parseStateInvokes m e sid).1 ∧
    ((parseStateInvokes m e sid).1.needs_jsengine = true →
      m.needs_jsengine = true ∨ ∃ x ∈ descendantsL e.children, trigElem x = true) := by
  obtain ⟨f, njs⟩ := invFold_inv (childrenTag e "invoke") m [] [] sid
  refine ⟨f, ?_⟩
  intro hn
  rcases njs hn with hn | ⟨x, hx, ht⟩
  · exact Or.inl hn
  · exact Or.inr ⟨x, descendantsL_subset x _ _
      (fun c hcm => mem_childrenTag e "invoke" c hcm) hx, ht⟩

theorem njs_compose {a b c : SCXMLModel} {scope : List XElem}
    (h1 : b.needs_jsengine = true →
      a.needs_jsengine = true ∨ ∃ x ∈ scope, trigElem x = true)
    (h2 : c.needs_jsengine = true →
      b.needs_jsengine = true ∨ ∃ x ∈ scope, trigElem x = true) :
    c.needs_jsengine = true →
      a.needs_jsengine = true ∨ ∃ x ∈ scope, trigElem x = true := by
  intro hn
  rcases h2 hn with hn | hx
  · exact h1 hn
  · exact Or.inr hx

theorem njs_scope_children {a b : SCXMLModel} (e : XElem)
    (h : b.needs_jsengine = true →
      a.needs_jsengine = true ∨ ∃ x ∈ descendantsL e.children, trigElem x = true) :
    b.needs_jsengine = true →
      a.needs_jsengine = true ∨ ∃ x ∈ descendantsL [e], trigElem x = true := by
  intro hn
  rcases h hn with hn | ⟨x, hx, ht⟩
  · exact Or.inl hn
  · refine Or.inr ⟨x, scope_single_intro x e (Or.inr ?_), ht⟩
    rw [descendants_eq_children]
    exact hx

theorem nodeStep_scope_cons {a b : SCXMLModel} (c : XElem) (rest : List XElem)
    (h : NodeStep a b (descendantsL [c])) : NodeStep a b (descendantsL (c :: rest)) := by
  refine nodeStep_mono_scope h ?_
  intro x hx
  rcases mem_scope_single x c hx with heq | hd
  · exact (mem_descendantsL_iff x c rest).mpr (Or.inl heq)
  · exact (mem_descendantsL_iff x c rest).mpr (Or.inr (Or.inl hd))

theorem nodeStep_scope_tail {a b : SCXMLModel} (c : XElem) (rest : List XElem)
    (h : NodeStep a b (descendantsL rest)) : NodeStep a b (descendantsL (c :: rest)) := by
  refine nodeStep_mono_scope h ?_
  intro x hx
  exact (mem_descendantsL_iff x c rest).mpr (Or.inr (Or.inr hx))

theorem handleState_effects (p : Psr) (e : XElem) (pid : Option String) :
    NodeStep p.model (handleState p e pid).model (descendantsL [e]) ∧
    (handleState p e pid).ctr = p.ctr + 1 ∧
    (∀ i, ¬i = getAttrD e "id" "" →
      alistLookup (handleState p e pid).model.states i = alistLookup p.model.states i) ∧
    (∃ s, alistLookup (handleState p e pid).model.states (getAttrD e "id" "") = some s ∧
      s.document_order = p.ctr) ∧
    (∀ k, k ∈ alistKeys (handleState p e pid).model.states ↔
      k ∈ alistKeys p.model.states ∨ k = getAttrD e "id" "") := by
  obtain ⟨f1, njs1, hc1⟩ := parseStateTransitions_effects p.model e
  rcases h1 : parseStateTransitions p.model e with ⟨m1, trs⟩
  rw [h1] at f1 njs1 hc1
  obtain ⟨f2, njs2⟩ := parseEntryActions_effects m1 e "onentry"
  rcases h2 : parseEntryActions m1 e "onentry" with ⟨m2, onE⟩
  rw [h2] at f2 njs2
  obtain ⟨f3, njs3⟩ := parseEntryActions_effects m2 e "onexit"
  rcases h3 : parseEntryActions m2 e "onexit" with ⟨m3, onX⟩
  rw [h3] at f3 njs3
  obtain ⟨f4, njs4⟩ := parseInitialElem_effects m3 e (getAttrD e "initial" "")
  rcases h4 : parseInitialElem m3 e (getAttrD e "initial" "") with ⟨m4, initActs, initAttr⟩
  rw [h4] at f4 njs4
  obtain ⟨f5, njs5⟩ := parseStateInvokes_effects m4 e (getAttrD e "id" "")
  rcases h5 : parseStateInvokes m4 e (getAttrD e "id" "") with ⟨m5, invs, sinvs⟩
  rw [h5] at f5 njs5
  have hexec : ExecFrame p.model m5 :=
    execFrame_trans f1 (execFrame_trans f2 (execFrame_trans f3 (execFrame_trans f4 f5)))
  have hnjs : m5.needs_jsengine = true →
      p.model.needs_jsengine = true ∨ ∃ x ∈ descendantsL [e], trigElem x = true :=
    njs_compose (njs_scope_children e njs1)
      (njs_compose (njs_scope_children e njs2)
        (njs_compose (njs_scope_children e njs3)
          (njs_compose (njs_scope_children e njs4) (njs_scope_children e njs5))))
  have hgoal : handleState p e pid =
      ⟨{ m5 with states := (alistUpsert m5.states (getAttrD e "id" "")
          { id := getAttrD e "id" "", initial := initAttr, parent := pid,
            transitions := trs, on_entry := onE, on_exit := onX,
            datamodel := parseStateDatamodel e, invokes := invs,
            static_invokes := sinvs, document_order := p.ctr,
            initial_transition_actions := initActs }) }, p.ctr + 1⟩ := by
    simp only [handleState, h1, h2, h3, h4, h5]
  rw [hgoal]
  refine ⟨?_, rfl, ?_, ?_, ?_⟩
  · refine nodeStep_trans (nodeStep_of_exec hexec hnjs) ?_
    refine ⟨⟨rfl, rfl, rfl, rfl⟩, ⟨fun x hx => hx, fun x hx => hx, fun h => h⟩,
      fun h => Or.inl h, ?_, ?_⟩
    · intro cd hcd
      rcases storedConds_upsert m5.states (getAttrD e "id" "") _ cd hcd with h | h
      · exact Or.inl h
      · obtain ⟨t, htm, htc⟩ := List.mem_map.mp h
        obtain ⟨te, hte, hcnd⟩ := hc1 t htm
        refine Or.inr ⟨te, scope_single_intro te e (Or.inr
          (mem_descendants_of_mem_children te e (mem_childrenTag e "transition" te hte))),
          hcnd.symm.trans htc⟩
    · intro hnd
      exact keys_upsert_nodup m5.states _ _ hnd
  · intro i hi
    rw [show (⟨{ m5 with states := alistUpsert m5.states (getAttrD e "id" "") _ },
      p.ctr + 1⟩ : Psr).model.states = alistUpsert m5.states (getAttrD e "id" "") _ from rfl]
    rw [alistLookup_upsert_ne m5.states (getAttrD e "id" "") i _ hi]
    rw [hexec.1]
  · exact ⟨_, alistLookup_upsert_self m5.states (getAttrD e "id" "") _, rfl⟩
  · intro k
    refine (mem_keys_upsert m5.states (getAttrD e "id" "") k _).trans ?_
    rw [hexec.1]

theorem handleFinal_effects (p : Psr) (e : XElem) (pid : Option String) :
    NodeStep p.model (handleFinal p e pid).model (descendantsL [e]) ∧
    (handleFinal p e pid).ctr = p.ctr + 1 ∧
    (∀ i, ¬i = getAttrD e "id" "" →
      alistLookup (handleFinal p e pid).model.states i = alistLookup p.model.states i) ∧
    (∃ s, alistLookup (handleFinal p e pid).model.states (getAttrD e "id" "") = some s ∧
      s.document_order = p.ctr) ∧
    (∀ k, k ∈ alistKeys (handleFinal p e pid).model.states ↔
      k ∈ alistKeys p.model.states ∨ k = getAttrD e "id" "") := by
  obtain ⟨f1, njs1⟩ := parseEntryActions_effects p.model e "onentry"
  rcases h1 : parseEntryActions p.model e "onentry" with ⟨m1, onE⟩
  rw [h1] at f1 njs1
  obtain ⟨f2, njs2⟩ := parseEntryActions_effects m1 e "onexit"
  rcases h2 : parseEntryActions m1 e "onexit" with ⟨m2, onX⟩
  rw [h2] at f2 njs2
  have hexec : ExecFrame p.model m2 := execFrame_trans f1 f2
  have hnjs : m2.needs_jsengine = true →
      p.model.needs_jsengine = true ∨ ∃ x ∈ descendantsL [e], trigElem x = true :=
    njs_compose (njs_scope_children e njs1) (njs_scope_children e njs2)
  have hgoal : handleFinal p e pid =
      ⟨{ m2 with states := (alistUpsert m2.states (getAttrD e "id" "")
          { id := getAttrD e "id" "", is_final := true, parent := pid,
            on_entry := onE, on_exit := onX,
            donedata := (match firstChildTag e "donedata" with
              | some de => some (parse_donedata de)
              | none => none),
            document_order := p.ctr }) }, p.ctr + 1⟩ := by
    simp only [handleFinal, h1, h2]
  rw [hgoal]
  refine ⟨?_, rfl, ?_, ?_, ?_⟩
  · refine nodeStep_trans (nodeStep_of_exec hexec hnjs) ?_
    refine ⟨⟨rfl, rfl, rfl, rfl⟩, ⟨fun x hx => hx, fun x hx => hx, fun h => h⟩,
      fun h => Or.inl h, ?_, ?_⟩
    · intro cd hcd
      rcases storedConds_upsert m2.states (getAttrD e "id" "") _ cd hcd with h | h
      · exact Or.inl h
      · simp at h
    · intro hnd
      exact keys_upsert_nodup m2.states _ _ hnd
  · intro i hi
    rw [show (⟨{ m2 with states := alistUpsert m2.states (getAttrD e "id" "") _ },
      p.ctr + 1⟩ : Psr).model.states = alistUpsert m2.states (getAttrD e "id" "") _ from rfl]
    rw [alistLookup_upsert_ne m2.states (getAttrD e "id" "") i _ hi]
    rw [hexec.1]
  · exact ⟨_, alistLookup_upsert_self m2.states (getAttrD e "id" "") _, rfl⟩
  · intro k
    refine (mem_keys_upsert m2.states (getAttrD e "id" "") k _).trans ?_
    rw [hexec.1]

theorem handleParallel_effects (p : Psr) (e : XElem) (pid : Option String) :
    NodeStep p.model (handleParallel p e pid).model (descendantsL [e]) ∧
    (handleParallel p e pid).ctr = p.ctr + 1 ∧
    (∀ i, ¬i = getAttrD e "id" "" →
      alistLookup (handleParallel p e pid).model.states i = alistLookup p.model.states i) ∧
    (∃ s, alistLookup (handleParallel p e pid).model.states (getAttrD e "id" "") = some s ∧
      s.document_order = p.ctr) ∧
    (∀ k, k ∈ alistKeys (handleParallel p e pid).model.states ↔
      k ∈ alistKeys p.model.states ∨ k = getAttrD e "id" "") := by
  obtain ⟨f1, njs1, hc1⟩ := parseStateTransitions_effects p.model e
  rcases h1 : parseStateTransitions p.model e with ⟨m1, trs⟩
  rw [h1] at f1 njs1 hc1
  obtain ⟨f2, njs2⟩ := parseEntryActions_effects m1 e "onentry"
  rcases h2 : parseEntryActions m1 e "onentry" with ⟨m2, onE⟩
  rw [h2] at f2 njs2
  obtain ⟨f3, njs3⟩ := parseEntryActions_effects m2 e "onexit"
  rcases h3 : parseEntryActions m2 e "onexit" with ⟨m3, onX⟩
  rw [h3] at f3 njs3
  have hexec : ExecFrame p.model m3 := execFrame_trans f1 (execFrame_trans f2 f3)
  have hnjs : m3.needs_jsengine = true →
      p.model.needs_jsengine = true ∨ ∃ x ∈ descendantsL [e], trigElem x = true :=
    njs_compose (njs_scope_children e njs1)
      (njs_compose (njs_scope_children e njs2) (njs_scope_children e njs3))
  have hgoal : handleParallel p e pid =
      ⟨{ m3 with states := (alistUpsert m3.states (getAttrD e "id" "")
          { id := getAttrD e "id" "", is_parallel := true, parent := pid,
            transitions := trs, on_entry := onE, on_exit := onX,
            document_order := p.ctr }), has_parallel_states := true }, p.ctr + 1⟩ := by
    simp only [handleParallel, h1, h2, h3]
  rw [hgoal]
  refine ⟨?_, rfl, ?_, ?_, ?_⟩
  · refine nodeStep_trans (nodeStep_of_exec hexec hnjs) ?_
    refine ⟨⟨rfl, rfl, rfl, rfl⟩, ⟨fun x hx => hx, fun x hx => hx, fun h => h⟩,
      fun h => Or.inl h, ?_, ?_⟩
    · intro cd hcd
      rcases storedConds_upsert m3.states (getAttrD e "id" "") _ cd hcd with h | h
      · exact Or.inl h
      · obtain ⟨t, htm, htc⟩ := List.mem_map.mp h
        obtain ⟨te, hte, hcnd⟩ := hc1 t htm
        refine Or.inr ⟨te, scope_single_intro te e (Or.inr
          (mem_descendants_of_mem_children te e (mem_childrenTag e "transition" te hte))),
          hcnd.symm.trans htc⟩
    · intro hnd
      exact keys_upsert_nodup m3.states _ _ hnd
  · intro i hi
    rw [show (⟨{ m3 with
          states := (alistUpsert m3.states (getAttrD e "id" "") _),
          has_parallel_states := true }, p.ctr + 1⟩ : Psr).model.states
        = alistUpsert m3.states (getAttrD e "id" "") _ from rfl]
    rw [alistLookup_upsert_ne m3.states (getAttrD e "id" "") i _ hi]
    rw [hexec.1]
  · exact ⟨_, alistLookup_upsert_self m3.states (getAttrD e "id" "") _, rfl⟩
  · intro k
    refine (mem_keys_upsert m3.states (getAttrD e "id" "") k _).trans ?_
    rw [hexec.1]

theorem handleHistoryL_effects (cs : List XElem) (p : Psr) (pid : Option String) :
    (handleHistoryL p cs pid).model.states = p.model.states ∧
    (handleHistoryL p cs pid).model.needs_jsengine = p.model.needs_jsengine ∧
    NodeFrame p.model (handleHistoryL p cs pid).model ∧
    HistMono p.model (handleHistoryL p cs pid).model ∧
    (handleHistoryL p cs pid).ctr = p.ctr ∧
    (∀ c ∈ cs, c.tag = "history" → getAttrD c "id" "" ≠ "" →
      (firstTransitionTarget c.children).isSome = true →
      Registered (handleHistoryL p cs pid).model (getAttrD c "id" "")) := by
  induction cs generalizing p with
  | nil =>
    exact ⟨rfl, rfl, ⟨rfl, rfl, rfl, rfl⟩, histMono_refl _, rfl, by simp⟩
  | cons c rest ih =>
    by_cases ht : c.tag = "history"
    · by_cases hid : getAttrD c "id" "" = ""
      · have hrw : handleHistoryL p (c :: rest) pid = handleHistoryL p rest pid := by
          simp only [handleHistoryL, if_pos ht, if_pos hid]
        rw [hrw]
        obtain ⟨hs, hn, hf, hm, hc, hreg⟩ := ih p
        refine ⟨hs, hn, hf, hm, hc, ?_⟩
        intro c0 hc0 h1 h2 h3
        rcases List.mem_cons.mp hc0 with heq | hc0
        · exact absurd (heq ▸ hid) h2
        · exact hreg c0 hc0 h1 h2 h3
      · rcases hft : firstTransitionTarget c.children with - | dt
        · have hrw : handleHistoryL p (c :: rest) pid = handleHistoryL p rest pid := by
            simp only [handleHistoryL, if_pos ht, if_neg hid, hft]
          rw [hrw]
          obtain ⟨hs, hn, hf, hm, hc, hreg⟩ := ih p
          refine ⟨hs, hn, hf, hm, hc, ?_⟩
          intro c0 hc0 h1 h2 h3
          rcases List.mem_cons.mp hc0 with heq | hc0
          · rw [heq, hft] at h3
            simp at h3
          · exact hreg c0 hc0 h1 h2 h3
        · have hrw : handleHistoryL p (c :: rest) pid =
              handleHistoryL ⟨{ p.model with
                history_default_targets :=
                  (alistUpsert p.model.history_default_targets (getAttrD c "id" "") dt),
                history_states :=
                  (alistUpsert p.model.history_states (getAttrD c "id" "")
                    ⟨pid, getAttrD c "type" "shallow", dt, none⟩),
                has_history_states := true }, p.ctr⟩ rest pid := by
            simp only [handleHistoryL, if_pos ht, if_neg hid, hft]
          rw [hrw]
          obtain ⟨hs, hn, hf, hm, hc, hreg⟩ := ih ⟨{ p.model with
            history_default_targets :=
              (alistUpsert p.model.history_default_targets (getAttrD c "id" "") dt),
            history_states :=
              (alistUpsert p.model.history_states (getAttrD c "id" "")
                ⟨pid, getAttrD c "type" "shallow", dt, none⟩),
            has_history_states := true }, p.ctr⟩
          have hstep : HistMono p.model ({ p.model with
              history_default_targets :=
                (alistUpsert p.model.history_default_targets (getAttrD c "id" "") dt),
              history_states :=
                (alistUpsert p.model.history_states (getAttrD c "id" "")
                  ⟨pid, getAttrD c "type" "shallow", dt, none⟩),
              has_history_states := true } : SCXMLModel) :=
            ⟨fun x hx => (mem_keys_upsert _ _ _ _).mpr (Or.inl hx),
             fun x hx => (mem_keys_upsert _ _ _ _).mpr (Or.inl hx),
             fun _ => rfl⟩
          refine ⟨hs, hn, ⟨hf.1, hf.2.1, hf.2.2.1, hf.2.2.2⟩,
            histMono_trans hstep hm, hc, ?_⟩
          intro c0 hc0 h1 h2 h3
          rcases List.mem_cons.mp hc0 with heq | hc0
          · subst heq
            refine registered_mono hm (getAttrD c0 "id" "") ?_
            exact ⟨(mem_keys_upsert _ _ _ _).mpr (Or.inr rfl),
              (mem_keys_upsert _ _ _ _).mpr (Or.inr rfl), rfl⟩
          · exact hreg c0 hc0 h1 h2 h3
    · have hrw : handleHistoryL p (c :: rest) pid = handleHistoryL p rest pid := by
        simp only [handleHistoryL, if_neg ht]
      rw [hrw]
      obtain ⟨hs, hn, hf, hm, hc, hreg⟩ := ih p
      refine ⟨hs, hn, hf, hm, hc, ?_⟩
      intro c0 hc0 h1 h2 h3
      rcases List.mem_cons.mp hc0 with heq | hc0
      · exact absurd (heq ▸ h1) ht
      · exact hreg c0 hc0 h1 h2 h3

theorem passFinals_step (cs : List XElem) (p : Psr) (pid : Option String) :
    NodeStep p.model (passFinals p cs pid).model (descendantsL cs) := by
  induction cs generalizing p with
  | nil => exact nodeStep_refl _ _
  | cons c rest ih =>
    by_cases hc : c.tag = "final" ∧ getAttrD c "id" "" ≠ ""
    · have hrw : passFinals p (c :: rest) pid = passFinals (handleFinal p c pid) rest pid := by
        simp only [passFinals, if_pos hc]
      rw [hrw]
      exact nodeStep_trans (nodeStep_scope_cons c rest (handleFinal_effects p c pid).1)
        (nodeStep_scope_tail c rest (ih (handleFinal p c pid)))
    · have hrw : passFinals p (c :: rest) pid = passFinals p rest pid := by
        simp only [passFinals, if_neg hc]
      rw [hrw]
      exact nodeStep_scope_tail c rest (ih p)

theorem visitedParents_eq (e : XElem) :
    visitedParents e = e :: visitedParentsL e.children := by
  obtain ⟨tg, ats, tx, cs⟩ := e
  rfl

theorem mem_visitedParentsL (v : XElem) (cs : List XElem) (h : v ∈ visitedParentsL cs) :
    ∃ c ∈ cs, ((c.tag = "state" ∨ c.tag = "parallel") ∧ getAttrD c "id" "" ≠ "") ∧
      v ∈ visitedParents c := by
  induction cs with
  | nil => simp [visitedParentsL] at h
  | cons c rest ih =>
    rw [show visitedParentsL (c :: rest) =
        (if (c.tag = "state" ∨ c.tag = "parallel") ∧ getAttrD c "id" "" ≠ "" then
          visitedParents c
        else []) ++ visitedParentsL rest from rfl] at h
    rcases List.mem_append.mp h with h | h
    · by_cases hc : (c.tag = "state" ∨ c.tag = "parallel") ∧ getAttrD c "id" "" ≠ ""
      · rw [if_pos hc] at h
        exact ⟨c, List.mem_cons_self _ _, hc, h⟩
      · rw [if_neg hc] at h
        simp at h
    · obtain ⟨c0, hc0, hcond, hv⟩ := ih h
      exact ⟨c0, List.mem_cons_of_mem _ hc0, hcond, hv⟩

theorem scope_child_lift (c : XElem) (rest : List XElem) :
    ∀ x ∈ descendantsL c.children, x ∈ descendantsL (c :: rest) := by
  intro x hx
  refine (mem_descendantsL_iff x c rest).mpr (Or.inr (Or.inl ?_))
  rw [descendants_eq_children]
  exact hx

mutual
theorem parse_states_step (e : XElem) (p : Psr) (pid : Option String) :
    NodeStep p.model (parse_states p e pid).model (descendantsL e.children) ∧
    (∀ v ∈ visitedParents e, ∀ he ∈ v.children, he.tag = "history" →
      getAttrD he "id" "" ≠ "" → (firstTransitionTarget he.children).isSome = true →
      Registered (parse_states p e pid).model (getAttrD he "id" "")) := by
  obtain ⟨tg, ats, tx, cs⟩ := e
  have hrw : parse_states p (XElem.mk tg ats tx cs) pid =
      handleHistoryL (passParallels (passFinals (passStates p cs pid) cs pid) cs pid)
        cs pid := by
    simp only [parse_states]
  rw [hrw]
  obtain ⟨ns1, reg1⟩ := passStates_step cs p pid
  have ns2 := passFinals_step cs (passStates p cs pid) pid
  obtain ⟨ns3, reg3⟩ :=
    passParallels_step cs (passFinals (passStates p cs pid) cs pid) pid
  obtain ⟨hs4, hn4, hf4, hm4, hc4, reg4⟩ :=
    handleHistoryL_effects cs
      (passParallels (passFinals (passStates p cs pid) cs pid) cs pid) pid
  have ns4 : NodeStep
      (passParallels (passFinals (passStates p cs pid) cs pid) cs pid).model
      (handleHistoryL (passParallels (passFinals (passStates p cs pid) cs pid) cs pid)
        cs pid).model (descendantsL cs) := by
    refine ⟨hf4, hm4, ?_, ?_, ?_⟩
    · intro hn
      rw [hn4] at hn
      exact Or.inl hn
    · intro cd hcd
      rw [hs4] at hcd
      exact Or.inl hcd
    · intro hnd
      rw [hs4]
      exact hnd
  refine ⟨nodeStep_trans ns1 (nodeStep_trans ns2 (nodeStep_trans ns3 ns4)), ?_⟩
  intro v hv he hhe h1 h2 h3
  rw [visitedParents_eq] at hv
  rcases List.mem_cons.mp hv with heq | hv
  · subst heq
    exact reg4 he hhe h1 h2 h3
  · obtain ⟨c, hcm, ⟨hcTag, hcId⟩, hvc⟩ := mem_visitedParentsL v cs hv
    rcases hcTag with hstate | hpar
    · have hreg := reg1 c hcm hstate hcId v hvc he hhe h1 h2 h3
      exact registered_mono (histMono_trans ns2.2.1 (histMono_trans ns3.2.1 ns4.2.1))
        _ hreg
    · have hreg := reg3 c hcm hpar hcId v hvc he hhe h1 h2 h3
      exact registered_mono ns4.2.1 _ hreg

theorem passStates_step (cs : List XElem) (p : Psr) (pid : Option String) :
    NodeStep p.model (passStates p cs pid).model (descendantsL cs) ∧
    (∀ c ∈ cs, c.tag = "state" → getAttrD c "id" "" ≠ "" →
      ∀ v ∈ visitedParents c, ∀ he ∈ v.children, he.tag = "history" →
        getAttrD he "id" "" ≠ "" → (firstTransitionTarget he.children).isSome = true →
        Registered (passStates p cs pid).model (getAttrD he "id" "")) := by
  cases cs with
  | nil => exact ⟨nodeStep_refl _ _, by simp⟩
  | cons c rest =>
    by_cases hc : c.tag = "state" ∧ getAttrD c "id" "" ≠ ""
    · have hrw : passStates p (c :: rest) pid =
          passStates (parse_states (handleState p c pid) c (some (getAttrD c "id" "")))
            rest pid := by
        simp only [passStates, if_pos hc]
      rw [hrw]
      obtain ⟨nsP, regP⟩ :=
        parse_states_step c (handleState p c pid) (some (getAttrD c "id" ""))
      obtain ⟨nsR, regR⟩ :=
        passStates_step rest
          (parse_states (handleState p c pid) c (some (getAttrD c "id" ""))) pid
      have nsHc := nodeStep_scope_cons c rest (handleState_effects p c pid).1
      have nsPc := nodeStep_mono_scope nsP (scope_child_lift c rest)
      have nsRc := nodeStep_scope_tail c rest nsR
      refine ⟨nodeStep_trans nsHc (nodeStep_trans nsPc nsRc), ?_⟩
      intro c0 hc0 h1 h2 v hv he hhe hh1 hh2 hh3
      rcases List.mem_cons.mp hc0 with heq | hc0
      · subst heq
        exact registered_mono nsR.2.1 _ (regP v hv he hhe hh1 hh2 hh3)
      · exact regR c0 hc0 h1 h2 v hv he hhe hh1 hh2 hh3
    · have hrw : passStates p (c :: rest) pid = passStates p rest pid := by
        simp only [passStates, if_neg hc]
      rw [hrw]
      obtain ⟨nsR, regR⟩ := passStates_step rest p pid
      refine ⟨nodeStep_scope_tail c rest nsR, ?_⟩
      intro c0 hc0 h1 h2
      rcases List.mem_cons.mp hc0 with heq | hc0
      · exact absurd ⟨heq ▸ h1, heq ▸ h2⟩ hc
      · exact regR c0 hc0 h1 h2

theorem passParallels_step (cs : List XElem) (p : Psr) (pid : Option String) :
    NodeStep p.model (passParallels p cs pid).model (descendantsL cs) ∧
    (∀ c ∈ cs, c.tag = "parallel" → getAttrD c "id" "" ≠ "" →
      ∀ v ∈ visitedParents c, ∀ he ∈ v.children, he.tag = "history" →
        getAttrD he "id" "" ≠ "" → (firstTransitionTarget he.children).isSome = true →
        Registered (passParallels p cs pid).model (getAttrD he "id" "")) := by
  cases cs with
  | nil => exact ⟨nodeStep_refl _ _, by simp⟩
  | cons c rest =>
    by_cases hc : c.tag = "parallel" ∧ getAttrD c "id" "" ≠ ""
    · have hrw : passParallels p (c :: rest) pid =
          passParallels (parse_states (handleParallel p c pid) c (some (getAttrD c "id" "")))
            rest pid := by
        simp only [passParallels, if_pos hc]
      rw [hrw]
      obtain ⟨nsP, regP⟩ :=
        parse_states_step c (handleParallel p c pid) (some (getAttrD c "id" ""))
      obtain ⟨nsR, regR⟩ :=
        passParallels_step rest
          (parse_states (handleParallel p c pid) c (some (getAttrD c "id" ""))) pid
      have nsHc := nodeStep_scope_cons c rest (handleParallel_effects p c pid).1
      have nsPc := nodeStep_mono_scope nsP (scope_child_lift c rest)
      have nsRc := nodeStep_scope_tail c rest nsR
      refine ⟨nodeStep_trans nsHc (nodeStep_trans nsPc nsRc), ?_⟩
      intro c0 hc0 h1 h2 v hv he hhe hh1 hh2 hh3
      rcases List.mem_cons.mp hc0 with heq | hc0
      · subst heq
        exact registered_mono nsR.2.1 _ (regP v hv he hhe hh1 hh2 hh3)
      · exact regR c0 hc0 h1 h2 v hv he hhe hh1 hh2 hh3
    · have hrw : passParallels p (c :: rest) pid = passParallels p rest pid := by
        simp only [passParallels, if_neg hc]
      rw [hrw]
      obtain ⟨nsR, regR⟩ := passParallels_step rest p pid
      refine ⟨nodeStep_scope_tail c rest nsR, ?_⟩
      intro c0 hc0 h1 h2
      rcases List.mem_cons.mp hc0 with heq | hc0
      · exact absurd ⟨heq ▸ h1, heq ▸ h2⟩ hc
      · exact regR c0 hc0 h1 h2
end

/-! ### The datamodel pass and the feature detector -/

theorem dmInner_inv (ds : List XElem) (acc : SCXMLModel) :
    (ds.foldl (fun acc2 d =>
      { acc2 with
        variables_ := acc2.variables_ ++
          [⟨getAttrD d "id" "", getAttrD d "expr" "", getAttrD d "src" "",
            pyStrip d.text⟩],
        needs_jsengine := true }) acc).variables_ =
      acc.variables_ ++ ds.map (fun d =>
        (⟨getAttrD d "id" "", getAttrD d "expr" "", getAttrD d "src" "",
          pyStrip d.text⟩ : VarDecl)) ∧
    (ds.foldl (fun acc2 d =>
      { acc2 with
        variables_ := acc2.variables_ ++
          [⟨getAttrD d "id" "", getAttrD d "expr" "", getAttrD d "src" "",
            pyStrip d.text⟩],
        needs_jsengine := true }) acc).states = acc.states ∧
    (ds.foldl (fun acc2 d =>
      { acc2 with
        variables_ := acc2.variables_ ++
          [⟨getAttrD d "id" "", getAttrD d "expr" "", getAttrD d "src" "",
            pyStrip d.text⟩],
        needs_jsengine := true }) acc).initial = acc.initial ∧
    (ds.foldl (fun acc2 d =>
      { acc2 with
        variables_ := acc2.variables_ ++
          [⟨getAttrD d "id" "", getAttrD d "expr" "", getAttrD d "src" "",
            pyStrip d.text⟩],
        needs_jsengine := true }) acc).name = acc.name ∧
    (ds.foldl (fun acc2 d =>
      { acc2 with
        variables_ := acc2.variables_ ++
          [⟨getAttrD d "id" "", getAttrD d "expr" "", getAttrD d "src" "",
            pyStrip d.text⟩],
        needs_jsengine := true }) acc).history_default_targets
      = acc.history_default_targets ∧
    (ds.foldl (fun acc2 d =>
      { acc2 with
        variables_ := acc2.variables_ ++
          [⟨getAttrD d "id" "", getAttrD d "expr" "", getAttrD d "src" "",
            pyStrip d.text⟩],
        needs_jsengine := true }) acc).history_states = acc.history_states ∧
    (ds.foldl (fun acc2 d =>
      { acc2 with
        variables_ := acc2.variables_ ++
          [⟨getAttrD d "id" "", getAttrD d "expr" "", getAttrD d "src" "",
            pyStrip d.text⟩],
        needs_jsengine := true }) acc).has_history_states = acc.has_history_states ∧
    (ds.foldl (fun acc2 d =>
      { acc2 with
        variables_ := acc2.variables_ ++
          [⟨getAttrD d "id" "", getAttrD d "expr" "", getAttrD d "src" "",
            pyStrip d.text⟩],
        needs_jsengine := true }) acc).parallel_regions = acc.parallel_regions ∧
    ((ds.foldl (fun acc2 d =>
      { acc2 with
        variables_ := acc2.variables_ ++
          [⟨getAttrD d "id" "", getAttrD d "expr" "", getAttrD d "src" "",
            pyStrip d.text⟩],
        needs_jsengine := true }) acc).needs_jsengine = true →
      acc.needs_jsengine = true ∨ ds ≠ []) := by
  induction ds generalizing acc with
  | nil =>
    exact ⟨by simp, rfl, rfl, rfl, rfl, rfl, rfl, rfl, fun h => Or.inl h⟩
  | cons d rest ih =>
    simp only [List.foldl_cons]
    obtain ⟨hv, hs, hi, hn, h1, h2, h3, h4, _⟩ := ih
      { acc with
        variables_ := acc.variables_ ++
          [⟨getAttrD d "id" "", getAttrD d "expr" "", getAttrD d "src" "",
            pyStrip d.text⟩],
        needs_jsengine := true }
    refine ⟨?_, hs, hi, hn, h1, h2, h3, h4, fun _ => Or.inr (by simp)⟩
    rw [hv]
    simp

theorem dmOuter_inv (dms : List XElem) (m : SCXMLModel) :
    (dms.foldl (fun acc dm =>
      (childrenTag dm "data").foldl
        (fun acc2 d =>
          { acc2 with
            variables_ := acc2.variables_ ++
              [⟨getAttrD d "id" "", getAttrD d "expr" "", getAttrD d "src" "",
                pyStrip d.text⟩],
            needs_jsengine := true })
        acc) m).variables_ =
      m.variables_ ++ (dms.map (fun dm =>
        (childrenTag dm "data").map (fun d =>
          (⟨getAttrD d "id" "", getAttrD d "expr" "", getAttrD d "src" "",
            pyStrip d.text⟩ : VarDecl)))).flatten ∧
    (dms.foldl (fun acc dm =>
      (childrenTag dm "data").foldl
        (fun acc2 d =>
          { acc2 with
            variables_ := acc2.variables_ ++
              [⟨getAttrD d "id" "", getAttrD d "expr" "", getAttrD d "src" "",
                pyStrip d.text⟩],
            needs_jsengine := true })
        acc) m).states = m.states ∧
    (dms.foldl (fun acc dm =>
      (childrenTag dm "data").foldl
        (fun acc2 d =>
          { acc2 with
            variables_ := acc2.variables_ ++
              [⟨getAttrD d "id" "", getAttrD d "expr" "", getAttrD d "src" "",
                pyStrip d.text⟩],
            needs_jsengine := true })
        acc) m).initial = m.initial ∧
    (dms.foldl (fun acc dm =>
      (childrenTag dm "data").foldl
        (fun acc2 d =>
          { acc2 with
            variables_ := acc2.variables_ ++
              [⟨getAttrD d "id" "", getAttrD d "expr" "", getAttrD d "src" "",
                pyStrip d.text⟩],
            needs_jsengine := true })
        acc) m).name = m.name ∧
    (dms.foldl (fun acc dm =>
      (childrenTag dm "data").foldl
        (fun acc2 d =>
          { acc2 with
            variables_ := acc2.variables_ ++
              [⟨getAttrD d "id" "", getAttrD d "expr" "", getAttrD d "src" "",
                pyStrip d.text⟩],
            needs_jsengine := true })
        acc) m).history_default_targets = m.history_default_targets ∧
    (dms.foldl (fun acc dm =>
      (childrenTag dm "data").foldl
        (fun acc2 d =>
          { acc2 with
            variables_ := acc2.variables_ ++
              [⟨getAttrD d "id" "", getAttrD d "expr" "", getAttrD d "src" "",
                pyStrip d.text⟩],
            needs_jsengine := true })
        acc) m).history_states = m.history_states ∧
    (dms.foldl (fun acc dm =>
      (childrenTag dm "data").foldl
        (fun acc2 d =>
          { acc2 with
            variables_ := acc2.variables_ ++
              [⟨getAttrD d "id" "", getAttrD d "expr" "", getAttrD d "src" "",
                pyStrip d.text⟩],
            needs_jsengine := true })
        acc) m).has_history_states = m.has_history_states ∧
    (dms.foldl (fun acc dm =>
      (childrenTag dm "data").foldl
        (fun acc2 d =>
          { acc2 with
            variables_ := acc2.variables_ ++
              [⟨getAttrD d "id" "", getAttrD d "expr" "", getAttrD d "src" "",
                pyStrip d.text⟩],
            needs_jsengine := true })
        acc) m).parallel_regions = m.parallel_regions ∧
    ((dms.foldl (fun acc dm =>
      (childrenTag dm "data").foldl
        (fun acc2 d =>
          { acc2 with
            variables_ := acc2.variables_ ++
              [⟨getAttrD d "id" "", getAttrD d "expr" "", getAttrD d "src" "",
                pyStrip d.text⟩],
            needs_jsengine := true })
        acc) m).needs_jsengine = true →
      m.needs_jsengine = true ∨ ∃ dm ∈ dms, childrenTag dm "data" ≠ []) := by
  induction dms generalizing m with
  | nil =>
    exact ⟨by simp, rfl, rfl, rfl, rfl, rfl, rfl, rfl, fun h => Or.inl h⟩
  | cons dm rest ih =>
    simp only [List.foldl_cons]
    obtain ⟨hv1, hs1, hi1, hn1, ha1, hb1, hc1, hd1, hj1⟩ :=
      dmInner_inv (childrenTag dm "data") m
    obtain ⟨hv2, hs2, hi2, hn2, ha2, hb2, hc2, hd2, hj2⟩ :=
      ih ((childrenTag dm "data").foldl
        (fun acc2 d =>
          { acc2 with
            variables_ := acc2.variables_ ++
              [⟨getAttrD d "id" "", getAttrD d "expr" "", getAttrD d "src" "",
                pyStrip d.text⟩],
            needs_jsengine := true }) m)
    refine ⟨?_, hs2.trans hs1, hi2.trans hi1, hn2.trans hn1, ha2.trans ha1,
      hb2.trans hb1, hc2.trans hc1, hd2.trans hd1, ?_⟩
    · rw [hv2, hv1]
      simp
    · intro hj
      rcases hj2 hj with hj | ⟨dm2, hdm2, hne⟩
      · rcases hj1 hj with hj | hne
        · exact Or.inl hj
        · exact Or.inr ⟨dm, List.mem_cons_self _ _, hne⟩
      · exact Or.inr ⟨dm2, List.mem_cons_of_mem _ hdm2, hne⟩

theorem parse_datamodel_effects (m : SCXMLModel) (root : XElem) :
    (parse_datamodel m root).variables_ = m.variables_ ++ specVariables root ∧
    (parse_datamodel m root).states = m.states ∧
    (parse_datamodel m root).initial = m.initial ∧
    (parse_datamodel m root).name = m.name ∧
    (parse_datamodel m root).history_default_targets = m.history_default_targets ∧
    (parse_datamodel m root).history_states = m.history_states ∧
    (parse_datamodel m root).has_history_states = m.has_history_states ∧
    (parse_datamodel m root).parallel_regions = m.parallel_regions ∧
    ((parse_datamodel m root).needs_jsengine = true →
      m.needs_jsengine = true ∨ ∃ x ∈ descendants root, trigElem x = true) := by
  obtain ⟨hv, hs, hi, hn, ha, hb, hc, hd, hj⟩ :=
    dmOuter_inv ((descendants root).filter (fun d => d.tag = "datamodel")) m
  refine ⟨hv, hs, hi, hn, ha, hb, hc, hd, ?_⟩
  intro h
  rcases hj h with h | ⟨dm, hdm, hne⟩
  · exact Or.inl h
  · have hmem := List.mem_filter.mp hdm
    refine Or.inr ⟨dm, hmem.1, ?_⟩
    have htag : dm.tag = "datamodel" := by simpa using hmem.2
    have hne2 : (childrenTag dm "data").isEmpty = false := by
      rcases hq : childrenTag dm "data" with - | ⟨a, b⟩
      · exact absurd hq hne
      · rfl
    simp [trigElem, htag, hne2]

theorem dfInner_inv (ts : List Transition) (acc : SCXMLModel) :
    (ts.foldl (fun acc2 t =>
      if t.cond ≠ "" then
        if event_metadata_fields.any (fun f => pyIn f t.cond) then
          { acc2 with has_event_metadata := true, needs_jsengine := true }
        else acc2
      else acc2) acc).states = acc.states ∧
    (ts.foldl (fun acc2 t =>
      if t.cond ≠ "" then
        if event_metadata_fields.any (fun f => pyIn f t.cond) then
          { acc2 with has_event_metadata := true, needs_jsengine := true }
        else acc2
      else acc2) acc).variables_ = acc.variables_ ∧
    (ts.foldl (fun acc2 t =>
      if t.cond ≠ "" then
        if event_metadata_fields.any (fun f => pyIn f t.cond) then
          { acc2 with has_event_metadata := true, needs_jsengine := true }
        else acc2
      else acc2) acc).initial = acc.initial ∧
    (ts.foldl (fun acc2 t =>
      if t.cond ≠ "" then
        if event_metadata_fields.any (fun f => pyIn f t.cond) then
          { acc2 with has_event_metadata := true, needs_jsengine := true }
        else acc2
      else acc2) acc).name = acc.name ∧
    (ts.foldl (fun acc2 t =>
      if t.cond ≠ "" then
        if event_metadata_fields.any (fun f => pyIn f t.cond) then
          { acc2 with has_event_metadata := true, needs_jsengine := true }
        else acc2
      else acc2) acc).history_default_targets = acc.history_default_targets ∧
    (ts.foldl (fun acc2 t =>
      if t.cond ≠ "" then
        if event_metadata_fields.any (fun f => pyIn f t.cond) then
          { acc2 with has_event_metadata := true, needs_jsengine := true }
        else acc2
      else acc2) acc).history_states = acc.history_states ∧
    (ts.foldl (fun acc2 t =>
      if t.cond ≠ "" then
        if event_metadata_fields.any (fun f => pyIn f t.cond) then
          { acc2 with has_event_metadata := true, needs_jsengine := true }
        else acc2
      else acc2) acc).has_history_states = acc.has_history_states ∧
    (ts.foldl (fun acc2 t =>
      if t.cond ≠ "" then
        if event_metadata_fields.any (fun f => pyIn f t.cond) then
          { acc2 with has_event_metadata := true, needs_jsengine := true }
        else acc2
      else acc2) acc).parallel_regions = acc.parallel_regions ∧
    ((ts.foldl (fun acc2 t =>
      if t.cond ≠ "" then
        if event_metadata_fields.any (fun f => pyIn f t.cond) then
          { acc2 with has_event_metadata := true, needs_jsengine := true }
        else acc2
      else acc2) acc).needs_jsengine = true →
      acc.needs_jsengine = true ∨
        ∃ t ∈ ts, event_metadata_fields.any (fun f => pyIn f t.cond) = true) := by
  induction ts generalizing acc with
  | nil => exact ⟨rfl, rfl, rfl, rfl, rfl, rfl, rfl, rfl, fun h => Or.inl h⟩
  | cons t rest ih =>
    simp only [List.foldl_cons]
    by_cases h1 : t.cond ≠ ""
    · rw [if_pos h1]
      by_cases h2 : event_metadata_fields.any (fun f => pyIn f t.cond) = true
      · rw [if_pos h2]
        obtain ⟨hs, hv, hi, hn, ha, hb, hc, hd, _⟩ :=
          ih { acc with has_event_metadata := true, needs_jsengine := true }
        exact ⟨hs, hv, hi, hn, ha, hb, hc, hd,
          fun _ => Or.inr ⟨t, List.mem_cons_self _ _, h2⟩⟩
      · rw [if_neg h2]
        obtain ⟨hs, hv, hi, hn, ha, hb, hc, hd, hj⟩ := ih acc
        refine ⟨hs, hv, hi, hn, ha, hb, hc, hd, ?_⟩
        intro h
        rcases hj h with h | ⟨t2, ht2, hh⟩
        · exact Or.inl h
        · exact Or.inr ⟨t2, List.mem_cons_of_mem _ ht2, hh⟩
    · rw [if_neg h1]
      obtain ⟨hs, hv, hi, hn, ha, hb, hc, hd, hj⟩ := ih acc
      refine ⟨hs, hv, hi, hn, ha, hb, hc, hd, ?_⟩
      intro h
      rcases hj h with h | ⟨t2, ht2, hh⟩
      · exact Or.inl h
      · exact Or.inr ⟨t2, List.mem_cons_of_mem _ ht2, hh⟩

theorem mem_storedConds_intro (sts : List (String × State)) (kv : String × State)
    (t : Transition) (hkv : kv ∈ sts) (ht : t ∈ kv.2.transitions) :
    t.cond ∈ storedConds sts := by
  simp only [storedConds, List.mem_flatten]
  exact ⟨kv.2.transitions.map (fun t => t.cond),
    List.mem_map.mpr ⟨kv, hkv, rfl⟩, List.mem_map.mpr ⟨t, ht, rfl⟩⟩

theorem dfOuter_inv (l : List (String × State)) (m : SCXMLModel) :
    (l.foldl (fun acc kv =>
      kv.2.transitions.foldl
        (fun acc2 t =>
          if t.cond ≠ "" then
            if event_metadata_fields.any (fun f => pyIn f t.cond) then
              { acc2 with has_event_metadata := true, needs_jsengine := true }
            else acc2
          else acc2)
        acc) m).states = m.states ∧
    (l.foldl (fun acc kv =>
      kv.2.transitions.foldl
        (fun acc2 t =>
          if t.cond ≠ "" then
            if event_metadata_fields.any (fun f => pyIn f t.cond) then
              { acc2 with has_event_metadata := true, needs_jsengine := true }
            else acc2
          else acc2)
        acc) m).variables_ = m.variables_ ∧
    (l.foldl (fun acc kv =>
      kv.2.transitions.foldl
        (fun acc2 t =>
          if t.cond ≠ "" then
            if event_metadata_fields.any (fun f => pyIn f t.cond) then
              { acc2 with has_event_metadata := true, needs_jsengine := true }
            else acc2
          else acc2)
        acc) m).initial = m.initial ∧
    (l.foldl (fun acc kv =>
      kv.2.transitions.foldl
        (fun acc2 t =>
          if t.cond ≠ "" then
            if event_metadata_fields.any (fun f => pyIn f t.cond) then
              { acc2 with has_event_metadata := true, needs_jsengine := true }
            else acc2
          else acc2)
        acc) m).name = m.name ∧
    (l.foldl (fun acc kv =>
      kv.2.transitions.foldl
        (fun acc2 t =>
          if t.cond ≠ "" then
            if event_metadata_fields.any (fun f => pyIn f t.cond) then
              { acc2 with has_event_metadata := true, needs_jsengine := true }
            else acc2
          else acc2)
        acc) m).history_default_targets = m.history_default_targets ∧
    (l.foldl (fun acc kv =>
      kv.2.transitions.foldl
        (fun acc2 t =>
          if t.cond ≠ "" then
            if event_metadata_fields.any (fun f => pyIn f t.cond) then
              { acc2 with has_event_metadata := true, needs_jsengine := true }
            else acc2
          else acc2)
        acc) m).history_states = m.history_states ∧
    (l.foldl (fun acc kv =>
      kv.2.transitions.foldl
        (fun acc2 t =>
          if t.cond ≠ "" then
            if event_metadata_fields.any (fun f => pyIn f t.cond) then
              { acc2 with has_event_metadata := true, needs_jsengine := true }
            else acc2
          else acc2)
        acc) m).has_history_states = m.has_history_states ∧
    (l.foldl (fun acc kv =>
      kv.2.transitions.foldl
        (fun acc2 t =>
          if t.cond ≠ "" then
            if event_metadata_fields.any (fun f => pyIn f t.cond) then
              { acc2 with has_event_metadata := true, needs_jsengine := true }
            else acc2
          else acc2)
        acc) m).parallel_regions = m.parallel_regions ∧
    ((l.foldl (fun acc kv =>
      kv.2.transitions.foldl
        (fun acc2 t =>
          if t.cond ≠ "" then
            if event_metadata_fields.any (fun f => pyIn f t.cond) then
              { acc2 with has_event_metadata := true, needs_jsengine := true }
            else acc2
          else acc2)
        acc) m).needs_jsengine = true →
      m.needs_jsengine = true ∨
        ∃ kv ∈ l, ∃ t ∈ kv.2.transitions,
          event_metadata_fields.any (fun f => pyIn f t.cond) = true) := by
  induction l generalizing m with
  | nil => exact ⟨rfl, rfl, rfl, rfl, rfl, rfl, rfl, rfl, fun h => Or.inl h⟩
  | cons kv rest ih =>
    simp only [List.foldl_cons]
    obtain ⟨hs1, hv1, hi1, hn1, ha1, hb1, hc1, hd1, hj1⟩ :=
      dfInner_inv kv.2.transitions m
    obtain ⟨hs2, hv2, hi2, hn2, ha2, hb2, hc2, hd2, hj2⟩ :=
      ih (kv.2.transitions.foldl
        (fun acc2 t =>
          if t.cond ≠ "" then
            if event_metadata_fields.any (fun f => pyIn f t.cond) then
              { acc2 with has_event_metadata := true, needs_jsengine := true }
            else acc2
          else acc2) m)
    refine ⟨hs2.trans hs1, hv2.trans hv1, hi2.trans hi1, hn2.trans hn1, ha2.trans ha1,
      hb2.trans hb1, hc2.trans hc1, hd2.trans hd1, ?_⟩
    intro h
    rcases hj2 h with h | ⟨kv2, hkv2, tt, htt, hh⟩
    · rcases hj1 h with h | ⟨tt, htt, hh⟩
      · exact Or.inl h
      · exact Or.inr ⟨kv, List.mem_cons_self _ _, tt, htt, hh⟩
    · exact Or.inr ⟨kv2, List.mem_cons_of_mem _ hkv2, tt, htt, hh⟩

theorem detect_features_effects (m : SCXMLModel) :
    (detect_features m).states = m.states ∧
    (detect_features m).variables_ = m.variables_ ∧
    (detect_features m).initial = m.initial ∧
    (detect_features m).name = m.name ∧
    (detect_features m).history_default_targets = m.history_default_targets ∧
    (detect_features m).history_states = m.history_states ∧
    (detect_features m).has_history_states = m.has_history_states ∧
    (detect_features m).parallel_regions = m.parallel_regions ∧
    ((detect_features m).needs_jsengine = true →
      m.needs_jsengine = true ∨
        ∃ c ∈ storedConds m.states,
          event_metadata_fields.any (fun f => pyIn f c) = true) := by
  obtain ⟨hs, hv, hi, hn, ha, hb, hc, hd, hj⟩ := dfOuter_inv m.states m
  refine ⟨hs, hv, hi, hn, ha, hb, hc, hd, ?_⟩
  intro h
  rcases hj h with h | ⟨kv, hkv, t, ht, hh⟩
  · exact Or.inl h
  · exact Or.inr ⟨t.cond, mem_storedConds_intro m.states kv t hkv ht, hh⟩

/-! ### Resolver passes -/

theorem followInitialChain_mem (states : List (String × State)) (d : Nat) (cur : String)
    (h : cur ∈ alistKeys states) : followInitialChain states d cur ∈ alistKeys states := by
  induction d generalizing cur with
  | zero => exact h
  | succ d ih =>
    simp only [followInitialChain]
    rcases hl : alistLookup states cur with - | st
    · exact h
    · show (if st.initial ≠ "" ∧ (alistLookup states st.initial).isSome = true then
          followInitialChain states d st.initial
        else cur) ∈ alistKeys states
      by_cases hc : st.initial ≠ "" ∧ (alistLookup states st.initial).isSome = true
      · rw [if_pos hc]
        exact ih st.initial ((lookup_isSome_iff_mem_keys states st.initial).mp hc.2)
      · rw [if_neg hc]
        exact h

theorem deepSingle_char (m : SCXMLModel) (start : String) :
    (deepSingle m start).states = m.states ∧
    (deepSingle m start).variables_ = m.variables_ ∧
    (deepSingle m start).needs_jsengine = m.needs_jsengine ∧
    (deepSingle m start).name = m.name ∧
    (deepSingle m start).history_default_targets = m.history_default_targets ∧
    (deepSingle m start).history_states = m.history_states ∧
    (deepSingle m start).has_history_states = m.has_history_states ∧
    (deepSingle m start).parallel_regions = m.parallel_regions ∧
    ((deepSingle m start).initial = m.initial ∨
      ((alistLookup m.states start).isSome = true ∧
        (deepSingle m start).initial = followInitialChain m.states 20 start)) := by
  unfold deepSingle
  by_cases h : (alistLookup m.states start).isNone
  · rw [if_pos h]
    exact ⟨rfl, rfl, rfl, rfl, rfl, rfl, rfl, rfl, Or.inl rfl⟩
  · rw [if_neg h]
    refine ⟨rfl, rfl, rfl, rfl, rfl, rfl, rfl, rfl, Or.inr ⟨?_, rfl⟩⟩
    rcases hq : alistLookup m.states start with - | st
    · rw [hq] at h
      simp at h
    · rfl

theorem resolve_deep_initial_char (m m' : SCXMLModel)
    (h : resolve_deep_initial m = some m') :
    m'.states = m.states ∧
    m'.variables_ = m.variables_ ∧
    m'.needs_jsengine = m.needs_jsengine ∧
    m'.name = m.name ∧
    m'.history_default_targets = m.history_default_targets ∧
    m'.history_states = m.history_states ∧
    m'.has_history_states = m.has_history_states ∧
    m'.parallel_regions = m.parallel_regions ∧
    (m'.initial = m.initial ∨
      ∃ start, (alistLookup m.states start).isSome = true ∧
        m'.initial = followInitialChain m.states 20 start) := by
  simp only [resolve_deep_initial] at h
  by_cases h1 : m.initial = ""
  · rw [if_pos h1] at h
    injection h with h
    subst h
    exact ⟨rfl, rfl, rfl, rfl, rfl, rfl, rfl, rfl, Or.inl rfl⟩
  · rw [if_neg h1] at h
    by_cases h2 : (pySplit m.initial).length > 1
    · rw [if_pos h2] at h
      by_cases h3 : (pySplit m.initial).all (fun t => (alistLookup m.states t).isSome)
      · rw [if_pos h3] at h
        injection h with h
        subst h
        exact ⟨rfl, rfl, rfl, rfl, rfl, rfl, rfl, rfl, Or.inl rfl⟩
      · rw [if_neg h3] at h
        injection h with h
        subst h
        obtain ⟨hs, hv, hn, hnm, ha, hb, hc, hd, hi⟩ := deepSingle_char m m.initial
        refine ⟨hs, hv, hn, hnm, ha, hb, hc, hd, ?_⟩
        rcases hi with hi | ⟨hsome, hi⟩
        · exact Or.inl hi
        · exact Or.inr ⟨m.initial, hsome, hi⟩
    · rw [if_neg h2] at h
      rcases htk : pySplit m.initial with - | ⟨t, rest⟩
      · rw [htk] at h
        simp at h
      · rcases rest with - | ⟨r, rs⟩
        · rw [htk] at h
          simp only [] at h
          injection h with h
          subst h
          obtain ⟨hs, hv, hn, hnm, ha, hb, hc, hd, hi⟩ := deepSingle_char m t
          refine ⟨hs, hv, hn, hnm, ha, hb, hc, hd, ?_⟩
          rcases hi with hi | ⟨hsome, hi⟩
          · exact Or.inl hi
          · exact Or.inr ⟨t, hsome, hi⟩
        · rw [htk] at h
          simp at h

theorem ordPres_refl (m : SCXMLModel) : OrdPres m m :=
  ⟨fun _ => Iff.rfl, fun _ s h => ⟨s, h, rfl⟩⟩

theorem ordPres_trans {a b c : SCXMLModel} (h1 : OrdPres a b) (h2 : OrdPres b c) :
    OrdPres a c := by
  refine ⟨fun k => (h2.1 k).trans (h1.1 k), ?_⟩
  intro k s h
  obtain ⟨s1, hl1, ho1⟩ := h2.2 k s h
  obtain ⟨s0, hl0, ho0⟩ := h1.2 k s1 hl1
  exact ⟨s0, hl0, ho1.trans ho0⟩

theorem ordPres_of_states_eq {a b : SCXMLModel} (h : b.states = a.states) :
    OrdPres a b := by
  refine ⟨fun k => by rw [h], ?_⟩
  intro k s hl
  rw [h] at hl
  exact ⟨s, hl, rfl⟩

theorem mem_keys_upsert_existing {α : Type} (l : List (String × α)) (k0 k : String)
    (v : α) (h : k0 ∈ alistKeys l) :
    k ∈ alistKeys (alistUpsert l k0 v) ↔ k ∈ alistKeys l := by
  rw [mem_keys_upsert]
  constructor
  · rintro (h2 | rfl)
    · exact h2
    · exact h
  · exact Or.inl

theorem alistKeys_map_pair {α β : Type} (l : List (String × α)) (f : String × α → β) :
    alistKeys (l.map (fun kv => (kv.1, f kv))) = alistKeys l := by
  induction l with
  | nil => rfl
  | cons kv rest ih =>
    have ih2 : List.map (fun x => x.1) (List.map (fun kv => (kv.1, f kv)) rest) =
        List.map (fun x => x.1) rest := ih
    simp only [alistKeys, List.map_cons]
    exact congrArg (List.cons kv.1) ih2

theorem lookup_map_pair {α β : Type} (l : List (String × α)) (f : String × α → β)
    (k : String) (s : β)
    (h : alistLookup (l.map (fun kv => (kv.1, f kv))) k = some s) :
    ∃ v0, alistLookup l k = some v0 ∧ s = f (k, v0) := by
  induction l with
  | nil => simp [alistLookup] at h
  | cons kv rest ih =>
    obtain ⟨k0, v0⟩ := kv
    simp only [List.map_cons] at h
    by_cases h0 : k0 = k
    · rw [show alistLookup ((k0, f (k0, v0)) :: List.map (fun kv => (kv.1, f kv)) rest) k
          = some (f (k0, v0)) from by simp [alistLookup, h0]] at h
      injection h with h
      subst h0
      exact ⟨v0, by simp [alistLookup], h.symm⟩
    · rw [show alistLookup ((k0, f (k0, v0)) :: List.map (fun kv => (kv.1, f kv)) rest) k
          = alistLookup (List.map (fun kv => (kv.1, f kv)) rest) k from by
        simp [alistLookup, h0]] at h
      obtain ⟨w, hw, hs⟩ := ih h
      refine ⟨w, ?_, hs⟩
      simp [alistLookup, h0, hw]

theorem resolveFrame_refl (m : SCXMLModel) : ResolveFrame m m :=
  ⟨rfl, rfl, rfl, rfl, rfl, rfl, ordPres_refl m⟩

theorem resolveFrame_trans {a b c : SCXMLModel} (h1 : ResolveFrame a b)
    (h2 : ResolveFrame b c) : ResolveFrame a c := by
  obtain ⟨v1, n1, nm1, k1, l1, f1, o1⟩ := h1
  obtain ⟨v2, n2, nm2, k2, l2, f2, o2⟩ := h2
  exact ⟨v2.trans v1, n2.trans n1, nm2.trans nm1, k2.trans k1, l2.trans l1,
    f2.trans f1, ordPres_trans o1 o2⟩

theorem registered_of_resolveFrame {a b : SCXMLModel} (h : ResolveFrame a b)
    (x : String) (hr : Registered a x) : Registered b x := by
  obtain ⟨-, -, -, k1, k2, hh, -⟩ := h
  exact ⟨by rw [k1]; exact hr.1, by rw [k2]; exact hr.2.1, by rw [hh]; exact hr.2.2⟩

theorem apoFold_inv (toks : List String) (m : SCXMLModel) :
    ResolveFrame m (toks.foldl (fun acc t =>
      match alistLookup acc.states t with
      | none => acc
      | some st =>
        match st.parent with
        | none => acc
        | some pid =>
          if pid = "" then acc
          else
            match alistLookup acc.states pid with
            | none => acc
            | some ps =>
              { acc with states := alistUpsert acc.states pid { ps with initial := t } })
      m) ∧
    (toks.foldl (fun acc t =>
      match alistLookup acc.states t with
      | none => acc
      | some st =>
        match st.parent with
        | none => acc
        | some pid =>
          if pid = "" then acc
          else
            match alistLookup acc.states pid with
            | none => acc
            | some ps =>
              { acc with states := alistUpsert acc.states pid { ps with initial := t } })
      m).initial = m.initial := by
  induction toks generalizing m with
  | nil => exact ⟨resolveFrame_refl m, rfl⟩
  | cons t rest ih =>
    simp only [List.foldl_cons]
    rcases hl : alistLookup m.states t with - | st
    · simp only [hl]
      exact ih m
    · simp only [hl]
      rcases hp : st.parent with - | pid
      · simp only [hp]
        exact ih m
      · simp only [hp]
        by_cases hpe : pid = ""
        · rw [if_pos hpe]
          exact ih m
        · rw [if_neg hpe]
          rcases hlp : alistLookup m.states pid with - | ps
          · simp only [hlp]
            exact ih m
          · simp only [hlp]
            obtain ⟨ihf, ihi⟩ :=
              ih { m with states := alistUpsert m.states pid { ps with initial := t } }
            have hpidmem : pid ∈ alistKeys m.states :=
              (lookup_isSome_iff_mem_keys m.states pid).mp (by rw [hlp]; rfl)
            have hstep : ResolveFrame m
                { m with states := alistUpsert m.states pid { ps with initial := t } } := by
              refine ⟨rfl, rfl, rfl, rfl, rfl, rfl, ?_, ?_⟩
              · intro k
                exact mem_keys_upsert_existing m.states pid k _ hpidmem
              · intro k s hlk
                by_cases hk : k = pid
                · subst hk
                  rw [alistLookup_upsert_self] at hlk
                  injection hlk with hlk
                  exact ⟨ps, hlp, by rw [← hlk]⟩
                · rw [alistLookup_upsert_ne m.states pid k _ hk] at hlk
                  exact ⟨s, hlk, rfl⟩
            exact ⟨resolveFrame_trans hstep ihf, ihi⟩

theorem apply_parallel_initial_overrides_effects (m : SCXMLModel) :
    ResolveFrame m (apply_parallel_initial_overrides m) ∧
    ((apply_parallel_initial_overrides m).initial = m.initial ∨
      ((pySplit m.initial).length > 1 ∧
        (apply_parallel_initial_overrides m).initial = (pySplit m.initial).headD "")) := by
  unfold apply_parallel_initial_overrides
  by_cases h1 : m.initial = ""
  · rw [if_pos h1]
    exact ⟨resolveFrame_refl m, Or.inl rfl⟩
  · rw [if_neg h1]
    by_cases h2 : (pySplit m.initial).length ≤ 1
    · rw [if_pos h2]
      exact ⟨resolveFrame_refl m, Or.inl rfl⟩
    · rw [if_neg h2]
      obtain ⟨hf, hi⟩ := apoFold_inv (pySplit m.initial) m
      obtain ⟨v, n, nm, k1, k2, hh, op⟩ := hf
      exact ⟨⟨v, n, nm, k1, k2, hh, op⟩, Or.inr ⟨by omega, rfl⟩⟩

theorem rhtLeaf_effects (m : SCXMLModel) :
    ResolveFrame m (rhtLeaf m) ∧ (rhtLeaf m).initial = m.initial ∧
    (rhtLeaf m).states = m.states := by
  have hkeys : alistKeys (rhtLeaf m).history_states = alistKeys m.history_states :=
    alistKeys_map_pair m.history_states (fun kv =>
      ({ kv.2 with
        leaf_target := some (resolve_to_leaf_state m kv.2.default_target) } : HistoryRec))
  exact ⟨⟨rfl, rfl, rfl, rfl, hkeys, rfl, ordPres_of_states_eq rfl⟩, rfl, rfl⟩

theorem rhtTag_effects (m : SCXMLModel) :
    ResolveFrame m (rhtTag m) ∧ (rhtTag m).initial = m.initial := by
  have hkeys : alistKeys (rhtTag m).states = alistKeys m.states :=
    alistKeys_map_pair m.states (fun kv =>
      ({ kv.2 with
        transitions := kv.2.transitions.map
          (fun t =>
            if (alistLookup m.history_default_targets t.target).isSome ∧
                t.history_target = none then
              { t with history_target := some t.target }
            else t) } : State))
  refine ⟨⟨rfl, rfl, rfl, rfl, rfl, rfl, fun k => by rw [hkeys], ?_⟩, rfl⟩
  intro k s hl
  obtain ⟨v0, hv0, hs⟩ := lookup_map_pair m.states (fun kv =>
    ({ kv.2 with
      transitions := kv.2.transitions.map
        (fun t =>
          if (alistLookup m.history_default_targets t.target).isSome ∧
              t.history_target = none then
            { t with history_target := some t.target }
          else t) } : State)) k s hl
  refine ⟨v0, hv0, ?_⟩
  rw [hs]

theorem rhtInit_effects (m : SCXMLModel) :
    ResolveFrame m (rhtInit m) ∧ (rhtInit m).initial = m.initial := by
  have hkeys : alistKeys (rhtInit m).states = alistKeys m.states :=
    alistKeys_map_pair m.states (fun kv =>
      (if (alistLookup m.history_default_targets kv.2.initial).isSome then
        match alistLookup m.history_states kv.2.initial with
        | some info =>
          match info.leaf_target with
          | some lt => { kv.2 with initial := lt }
          | none => kv.2
        | none => kv.2
      else kv.2 : State))
  refine ⟨⟨rfl, rfl, rfl, rfl, rfl, rfl, fun k => by rw [hkeys], ?_⟩, rfl⟩
  intro k s hl
  obtain ⟨v0, hv0, hs⟩ := lookup_map_pair m.states (fun kv =>
    (if (alistLookup m.history_default_targets kv.2.initial).isSome then
      match alistLookup m.history_states kv.2.initial with
      | some info =>
        match info.leaf_target with
        | some lt => { kv.2 with initial := lt }
        | none => kv.2
      | none => kv.2
    else kv.2 : State)) k s hl
  refine ⟨v0, hv0, ?_⟩
  rw [hs]
  by_cases hc : (alistLookup m.history_default_targets (k, v0).2.initial).isSome = true
  · rw [if_pos hc]
    rcases h1 : alistLookup m.history_states (k, v0).2.initial with - | info
    · simp only [h1]
    · simp only [h1]
      rcases h2 : info.leaf_target with - | lt
      · simp only [h2]
      · simp only [h2]
  · rw [if_neg hc]

theorem resolve_history_targets_effects (m : SCXMLModel) :
    ResolveFrame m (resolve_history_targets m) ∧
    (resolve_history_targets m).initial = m.initial := by
  unfold resolve_history_targets
  split_ifs with h
  · exact ⟨resolveFrame_refl m, rfl⟩
  · obtain ⟨f1, i1, s1⟩ := rhtLeaf_effects m
    obtain ⟨f2, i2⟩ := rhtTag_effects (rhtLeaf m)
    obtain ⟨f3, i3⟩ := rhtInit_effects (rhtTag (rhtLeaf m))
    exact ⟨resolveFrame_trans f1 (resolveFrame_trans f2 f3), (i3.trans i2).trans i1⟩

theorem cprFold_shape (l : List (String × State)) (m acc : SCXMLModel) :
    ∃ pr, (l.foldl (fun acc kv =>
      if kv.2.is_parallel then
        { acc with
          parallel_regions := alistUpsert acc.parallel_regions kv.1
            ((m.states.filter (fun c => c.2.parent = some kv.1)).map (fun c => c.1)) }
      else acc) acc) = { acc with parallel_regions := pr } := by
  induction l generalizing acc with
  | nil =>
    exact ⟨acc.parallel_regions, rfl⟩
  | cons kv rest ih =>
    simp only [List.foldl_cons]
    by_cases hp : kv.2.is_parallel = true
    · rw [if_pos hp]
      obtain ⟨pr, h⟩ := ih
        { acc with
          parallel_regions := alistUpsert acc.parallel_regions kv.1
            ((m.states.filter (fun c => c.2.parent = some kv.1)).map (fun c => c.1)) }
      exact ⟨pr, h⟩
    · rw [if_neg hp]
      exact ih acc

theorem compute_parallel_regions_effects (m : SCXMLModel) :
    (compute_parallel_regions m).states = m.states ∧
    (compute_parallel_regions m).variables_ = m.variables_ ∧
    (compute_parallel_regions m).needs_jsengine = m.needs_jsengine ∧
    (compute_parallel_regions m).name = m.name ∧
    (compute_parallel_regions m).history_default_targets = m.history_default_targets ∧
    (compute_parallel_regions m).history_states = m.history_states ∧
    (compute_parallel_regions m).has_history_states = m.has_history_states ∧
    (compute_parallel_regions m).initial = m.initial := by
  obtain ⟨pr, h⟩ := cprFold_shape m.states m m
  have h2 : compute_parallel_regions m = { m with parallel_regions := pr } := h
  rw [h2]
  exact ⟨rfl, rfl, rfl, rfl, rfl, rfl, rfl, rfl⟩

theorem detect_transition_actions_effects (m : SCXMLModel) :
    (detect_transition_actions m).states = m.states ∧
    (detect_transition_actions m).variables_ = m.variables_ ∧
    (detect_transition_actions m).needs_jsengine = m.needs_jsengine ∧
    (detect_transition_actions m).name = m.name ∧
    (detect_transition_actions m).history_default_targets = m.history_default_targets ∧
    (detect_transition_actions m).history_states = m.history_states ∧
    (detect_transition_actions m).has_history_states = m.has_history_states ∧
    (detect_transition_actions m).initial = m.initial :=
  ⟨rfl, rfl, rfl, rfl, rfl, rfl, rfl, rfl⟩

/-! ### The parse phase and the full pipeline -/

theorem parsePhase_char (nm : String) (root : XElem) :
    (parsePhase nm root).variables_ = specVariables root ∧
    ((parsePhase nm root).needs_jsengine = true → hasJsTrigger root = true) ∧
    (∀ v ∈ visitedParents root, ∀ he ∈ v.children, he.tag = "history" →
      getAttrD he "id" "" ≠ "" → (firstTransitionTarget he.children).isSome = true →
      Registered (parsePhase nm root) (getAttrD he "id" "")) := by
  obtain ⟨hv1, hs1, hi1, hn1, ha1, hb1, hc1, hd1, hj1⟩ :=
    parse_datamodel_effects (m0Of nm root) root
  obtain ⟨ns, reg⟩ :=
    parse_states_step root ⟨parse_datamodel (m0Of nm root) root, 0⟩ none
  obtain ⟨hs3, hv3, hi3, hn3, ha3, hb3, hc3, hd3, hj3⟩ :=
    detect_features_effects
      (parse_states ⟨parse_datamodel (m0Of nm root) root, 0⟩ root none).model
  refine ⟨?_, ?_, ?_⟩
  · show (detect_features
        (parse_states ⟨parse_datamodel (m0Of nm root) root, 0⟩ root none).model).variables_
      = specVariables root
    rw [hv3]
    have h2 : (parse_states ⟨parse_datamodel (m0Of nm root) root, 0⟩
        root none).model.variables_ = (parse_datamodel (m0Of nm root) root).variables_ :=
      ns.1.1
    rw [h2, hv1]
    show ([] : List VarDecl) ++ specVariables root = specVariables root
    rw [List.nil_append]
  · intro hn
    have htrig : ∃ x ∈ descendants root, trigElem x = true := by
      rcases hj3 hn with hn2 | ⟨c, hcmem, hcmeta⟩
      · rcases ns.2.2.1 hn2 with hn3 | ⟨x, hx, ht⟩
        · have hn3' : (parse_datamodel (m0Of nm root) root).needs_jsengine = true := hn3
          rcases hj1 hn3' with hn4 | ⟨x, hx, ht⟩
          · have : False := by
              have hfalse : (m0Of nm root).needs_jsengine = false := rfl
              rw [hfalse] at hn4
              exact Bool.false_ne_true hn4
            exact absurd this (fun hf => hf)
          · exact ⟨x, hx, ht⟩
        · refine ⟨x, ?_, ht⟩
          rw [descendants_eq_children]
          exact hx
      · rcases ns.2.2.2.1 c hcmem with hc0 | ⟨x, hx, hcx⟩
        · have hc0' : c ∈ storedConds (parse_datamodel (m0Of nm root) root).states :=
            hc0
          rw [hs1] at hc0'
          have hempty : storedConds (m0Of nm root).states = [] := rfl
          rw [hempty] at hc0'
          simp at hc0'
        · have hcmeta2 : event_metadata_fields.any
              (fun f => pyIn f (getAttrD x "cond" "")) = true := by
            rw [hcx]
            exact hcmeta
          refine ⟨x, by rw [descendants_eq_children]; exact hx, ?_⟩
          simp only [trigElem, Bool.or_eq_true]
          exact Or.inr hcmeta2
    obtain ⟨x, hx, ht⟩ := htrig
    simp only [hasJsTrigger, Bool.or_eq_true]
    refine Or.inr ?_
    rw [List.any_eq_true]
    exact ⟨x, hx, ht⟩
  · intro v hv he hhe h1 h2 h3
    have hr := reg v hv he hhe h1 h2 h3
    exact ⟨by rw [show (parsePhase nm root).history_default_targets =
        (parse_states ⟨parse_datamodel (m0Of nm root) root, 0⟩
          root none).model.history_default_targets from ha3]; exact hr.1,
      by rw [show (parsePhase nm root).history_states =
        (parse_states ⟨parse_datamodel (m0Of nm root) root, 0⟩
          root none).model.history_states from hb3]; exact hr.2.1,
      by rw [show (parsePhase nm root).has_history_states =
        (parse_states ⟨parse_datamodel (m0Of nm root) root, 0⟩
          root none).model.has_history_states from hc3]; exact hr.2.2⟩

theorem parse_file_inv (nm : String) (root : XElem) (m : SCXMLModel)
    (h : parse_file nm root = some m) :
    ResolveFrame (parsePhase nm root) m := by
  simp only [parse_file] at h
  rcases hr : resolve_deep_initial (parsePhase nm root) with - | m4
  · rw [hr] at h
    simp at h
  · rw [hr] at h
    injection h with h
    obtain ⟨es, ev, en, enm, ea, eb, ec, ed, -⟩ :=
      resolve_deep_initial_char (parsePhase nm root) m4 hr
    have f0 : ResolveFrame (parsePhase nm root) m4 :=
      ⟨ev, en, enm, by rw [ea], by rw [eb], ec, ordPres_of_states_eq es⟩
    have f1 := (apply_parallel_initial_overrides_effects m4).1
    have f2 := (resolve_history_targets_effects (apply_parallel_initial_overrides m4)).1
    obtain ⟨cs, cv, cn, cnm, ca, cb, cc, -⟩ :=
      compute_parallel_regions_effects
        (resolve_history_targets (apply_parallel_initial_overrides m4))
    have f3 : ResolveFrame
        (resolve_history_targets (apply_parallel_initial_overrides m4))
        (compute_parallel_regions
          (resolve_history_targets (apply_parallel_initial_overrides m4))) :=
      ⟨cv, cn, cnm, by rw [ca], by rw [cb], cc, ordPres_of_states_eq cs⟩
    obtain ⟨ds, dv, dn, dnm, da, db, dc, -⟩ :=
      detect_transition_actions_effects
        (compute_parallel_regions
          (resolve_history_targets (apply_parallel_initial_overrides m4)))
    have f4 : ResolveFrame
        (compute_parallel_regions
          (resolve_history_targets (apply_parallel_initial_overrides m4)))
        (detect_transition_actions
          (compute_parallel_regions
            (resolve_history_targets (apply_parallel_initial_overrides m4)))) :=
      ⟨dv, dn, dnm, by rw [da], by rw [db], dc, ordPres_of_states_eq ds⟩
    rw [← h]
    exact resolveFrame_trans f0
      (resolveFrame_trans f1 (resolveFrame_trans f2 (resolveFrame_trans f3 f4)))

/-- C3 (counterexample): in `dataDoc` the only `<data>` sits inside a
per-state `<datamodel>` and the root has no `<datamodel>` child, yet the
emitted `variables` list contains that record — contradicting the claim
that `model.variables` holds only top-level declarations. -/
theorem claim3_counterexample :
    (parse_file "model" dataDoc).map (fun m => m.variables_) =
      some [⟨"x", "1", "", ""⟩] ∧
    childrenTag dataDoc "datamodel" = [] := by
  exact ⟨rfl, rfl⟩

/-- C3 (amended): the emitted `variables` list is exactly the `<data>`
children of every `<datamodel>` element of the document (top-level and
per-state alike, via the `.//` descendant search), in document order. -/
theorem claim3_amended (nm : String) (doc : XElem) (m : SCXMLModel)
    (h : parse_file nm doc = some m) : m.variables_ = specVariables doc := by
  have hf := parse_file_inv nm doc m h
  rw [hf.1, (parsePhase_char nm doc).1]

/-- C3 (witness): on `dataDoc` the pipeline succeeds and the final
`variables` list equals the all-datamodels collection. -/
theorem claim3_witness :
    ∃ m, parse_file "model" dataDoc = some m ∧ m.variables_ = specVariables dataDoc := by
  rcases hp : parse_file "model" dataDoc with - | m
  · have hs : (parse_file "model" dataDoc).isSome = true := rfl
    rw [hp] at hs
    simp at hs
  · exact ⟨m, rfl, claim3_amended "model" dataDoc m hp⟩

/-- C4 (counterexample): `dataDoc` has no top-level `<data>`, no
`<assign>`/`<script>`/`<foreach>`, and no condition the classifier flags,
yet `needs_jsengine` ends up true (the per-state `<data>` sets it) —
contradicting the claim's trigger list. -/
theorem claim4_counterexample :
    (parse_file "model" dataDoc).map (fun m => m.needs_jsengine) = some true ∧
    childrenTag dataDoc "datamodel" = [] ∧
    (descendantsL [dataDoc]).all
      (fun x => !(x.tag == "assign" || x.tag == "script" || x.tag == "foreach")) = true ∧
    (descendantsL [dataDoc]).all
      (fun x => !requires_jsengine_b (getAttrD x "cond" "")) = true := by
  exact ⟨rfl, rfl, by decide, by decide⟩

/-- C4 (amended): `needs_jsengine` in the emitted model implies the
document contains a trigger element: a `<datamodel>` with a `<data>` child
(top-level OR per-state), an `<assign>`/`<script>`/`<foreach>`, a `<send>`
with a non-empty `eventexpr`/`targetexpr`/`delayexpr`, or an element whose
`cond` the classifier flags or that references event metadata. -/
theorem claim4_amended (nm : String) (doc : XElem) (m : SCXMLModel)
    (h : parse_file nm doc = some m) (hn : m.needs_jsengine = true) :
    hasJsTrigger doc = true := by
  have hf := parse_file_inv nm doc m h
  exact (parsePhase_char nm doc).2.1 (hf.2.1 ▸ hn)

/-- C4 (witness): `dataDoc` parses with `needs_jsengine` set, and the
amended implication indeed exhibits a trigger in it. -/
theorem claim4_witness : hasJsTrigger dataDoc = true := by
  rcases hp : parse_file "model" dataDoc with - | m
  · have hs : (parse_file "model" dataDoc).isSome = true := rfl
    rw [hp] at hs
    simp at hs
  · have hn : (parse_file "model" dataDoc).map (fun mm => mm.needs_jsengine)
        = some true := rfl
    rw [hp] at hn
    simp only [Option.map_some'] at hn
    injection hn with hn
    exact claim4_amended "model" dataDoc m hp hn

/-- C8 (counterexample): `c8doc` contains `<history id="hh"/>` (an id, but
no `<transition>` child), yet the emitted model has empty history maps and
`has_history_states` false — contradicting the claim that every history
id is registered. -/
theorem claim8_counterexample :
    (parse_file "model" c8doc).map
      (fun m => (m.history_default_targets.isEmpty, m.history_states.isEmpty,
        m.has_history_states)) = some (true, true, false) ∧
    (descendants c8doc).any
      (fun x => x.tag == "history" && getAttrD x "id" "" != "") = true := by
  exact ⟨rfl, rfl⟩

/-- C8 (amended): a `<history>` child (of any element the builder visits)
with a non-empty id AND a first `<transition>` child carrying a non-empty
`target` is registered in both history maps, and `has_history_states` is
set; a history without such a default transition is dropped entirely. -/
theorem claim8_amended (nm : String) (doc : XElem) (m : SCXMLModel)
    (h : parse_file nm doc = some m) :
    ∀ v ∈ visitedParents doc, ∀ he ∈ v.children, he.tag = "history" →
      getAttrD he "id" "" ≠ "" → (firstTransitionTarget he.children).isSome = true →
      getAttrD he "id" "" ∈ alistKeys m.history_default_targets ∧
      getAttrD he "id" "" ∈ alistKeys m.history_states ∧
      m.has_history_states = true := by
  intro v hv he hhe h1 h2 h3
  exact registered_of_resolveFrame (parse_file_inv nm doc m h) _
    ((parsePhase_char nm doc).2.2 v hv he hhe h1 h2 h3)

/-- C8 (witness): in `c8wdoc` the history `h` (with a default transition
targeting `x`) ends up in both maps with the flag set. -/
theorem claim8_witness :
    ∃ m, parse_file "model" c8wdoc = some m ∧
      "h" ∈ alistKeys m.history_default_targets ∧
      "h" ∈ alistKeys m.history_states ∧ m.has_history_states = true := by
  rcases hp : parse_file "model" c8wdoc with - | m
  · have hs : (parse_file "model" c8wdoc).isSome = true := rfl
    rw [hp] at hs
    simp at hs
  · refine ⟨m, rfl, ?_⟩
    have hlist : visitedParents c8wdoc =
        [c8wdoc,
         XElem.mk "state" [("id", "p")] ""
           [XElem.mk "history" [("id", "h")] ""
              [XElem.mk "transition" [("target", "x")] "" []],
            XElem.mk "state" [("id", "x"), ("initial", "x1")] ""
              [XElem.mk "state" [("id", "x1")] "" []]],
         XElem.mk "state" [("id", "x"), ("initial", "x1")] ""
           [XElem.mk "state" [("id", "x1")] "" []],
         XElem.mk "state" [("id", "x1")] "" []] := rfl
    have hv : XElem.mk "state" [("id", "p")] ""
          [XElem.mk "history" [("id", "h")] ""
             [XElem.mk "transition" [("target", "x")] "" []],
           XElem.mk "state" [("id", "x"), ("initial", "x1")] ""
             [XElem.mk "state" [("id", "x1")] "" []]] ∈ visitedParents c8wdoc := by
      rw [hlist]
      exact List.mem_cons_of_mem _ (List.mem_cons_self _ _)
    exact claim8_amended "model" c8wdoc m hp
      (XElem.mk "state" [("id", "p")] ""
        [XElem.mk "history" [("id", "h")] ""
           [XElem.mk "transition" [("target", "x")] "" []],
         XElem.mk "state" [("id", "x"), ("initial", "x1")] ""
           [XElem.mk "state" [("id", "x1")] "" []]]) hv
      (XElem.mk "history" [("id", "h")] ""
        [XElem.mk "transition" [("target", "x")] "" []])
      (List.mem_cons_self _ _) rfl (by decide) rfl

/-- Under the hypotheses that the initial string has tokens and all of
them name states, `_resolve_deep_initial` either keeps a multi-token
initial verbatim or replaces it by an existing state id. -/
theorem rdi_good (m0 m4 : SCXMLModel) (h1 : pySplit m0.initial ≠ [])
    (h2 : ∀ t ∈ pySplit m0.initial, t ∈ alistKeys m0.states)
    (hm4 : resolve_deep_initial m0 = some m4) :
    (m4.initial = m0.initial ∧ (pySplit m0.initial).length > 1) ∨
      m4.initial ∈ alistKeys m0.states := by
  simp only [resolve_deep_initial] at hm4
  have h0 : ¬m0.initial = "" := by
    intro he
    rw [he] at h1
    exact h1 rfl
  rw [if_neg h0] at hm4
  by_cases hlen : (pySplit m0.initial).length > 1
  · rw [if_pos hlen] at hm4
    have hall : (pySplit m0.initial).all
        (fun t => (alistLookup m0.states t).isSome) = true := by
      rw [List.all_eq_true]
      intro t ht
      exact (lookup_isSome_iff_mem_keys m0.states t).mpr (h2 t ht)
    rw [if_pos hall] at hm4
    injection hm4 with hm4
    subst hm4
    exact Or.inl ⟨rfl, hlen⟩
  · rw [if_neg hlen] at hm4
    rcases htk : pySplit m0.initial with - | ⟨t, rest⟩
    · exact absurd htk h1
    · rcases rest with - | ⟨r, rs⟩
      · rw [htk] at hm4
        simp only [] at hm4
        injection hm4 with hm4
        subst hm4
        have htmem : t ∈ alistKeys m0.states := h2 t (by rw [htk]; exact List.mem_cons_self _ _)
        have hts : (alistLookup m0.states t).isSome = true :=
          (lookup_isSome_iff_mem_keys m0.states t).mpr htmem
        unfold deepSingle
        have hnn : ¬(alistLookup m0.states t).isNone = true := by
          intro hn
          rw [Option.isNone_iff_eq_none] at hn
          rw [hn] at hts
          simp at hts
        rw [if_neg hnn]
        exact Or.inr (followInitialChain_mem m0.states 20 t htmem)
      · rw [htk] at hm4
        rw [htk] at hlen
        simp at hlen

/-- C9 (counterexample): in `c9doc` the root `initial` names a state
that does not exist; after all passes `model.initial` is still `nosuch`,
which is not a key of the states map — contradicting the claim that the
invariant holds "also when the root's initial attribute named a
nonexistent state". -/
theorem claim9_counterexample :
    (parse_file "model" c9doc).map (fun m => (m.initial, alistKeys m.states)) =
      some ("nosuch", ["a"]) ∧
    "nosuch" ∉ (["a"] : List String) ∧ pySplit "nosuch" = ["nosuch"] := by
  exact ⟨rfl, by decide, by decide⟩

/-- C9 (amended): when the pre-resolution `initial` splits into at least
one token, every token names a state, and no state id contains
whitespace, the resolved `model.initial` is either a single existing
state id or a multi-token list of existing state ids.  (Without these
side conditions the invariant fails: a nonexistent id survives
resolution verbatim.) -/
theorem claim9_amended (nm : String) (doc : XElem) (m : SCXMLModel)
    (h : parse_file nm doc = some m)
    (h1 : pySplit (parsePhase nm doc).initial ≠ [])
    (h2 : ∀ t ∈ pySplit (parsePhase nm doc).initial,
      t ∈ alistKeys (parsePhase nm doc).states)
    (h3 : ∀ k ∈ alistKeys (parsePhase nm doc).states, pySplit k = [k]) :
    m.initial ∈ alistKeys m.states ∨
      ((pySplit m.initial).length > 1 ∧
        ∀ t ∈ pySplit m.initial, t ∈ alistKeys m.states) := by
  have hkeys := (parse_file_inv nm doc m h).2.2.2.2.2.2.1
  simp only [parse_file] at h
  rcases hr : resolve_deep_initial (parsePhase nm doc) with - | m4
  · rw [hr] at h
    simp at h
  · rw [hr] at h
    injection h with h
    obtain ⟨es, -, -, -, -, -, -, -, -⟩ :=
      resolve_deep_initial_char (parsePhase nm doc) m4 hr
    obtain ⟨apoF, apoI⟩ := apply_parallel_initial_overrides_effects m4
    have hInitChain : m.initial = (apply_parallel_initial_overrides m4).initial := by
      rw [← h]
      rw [(detect_transition_actions_effects _).2.2.2.2.2.2.2]
      rw [(compute_parallel_regions_effects _).2.2.2.2.2.2.2]
      rw [(resolve_history_targets_effects _).2]
    rcases rdi_good (parsePhase nm doc) m4 h1 h2 hr with ⟨hEq, hLen⟩ | hMem
    · rcases apoI with hA | ⟨hL, hA⟩
      · refine Or.inr ⟨?_, ?_⟩
        · rw [hInitChain, hA, hEq]
          exact hLen
        · intro t ht
          rw [hInitChain, hA, hEq] at ht
          exact (hkeys t).mpr (h2 t ht)
      · refine Or.inl ?_
        rw [hInitChain, hA, hEq]
        refine (hkeys _).mpr ?_
        refine h2 _ ?_
        rcases hq : pySplit (parsePhase nm doc).initial with - | ⟨t0, rest⟩
        · exact absurd hq h1
        · exact List.mem_cons_self _ _
    · rcases apoI with hA | ⟨hL, hA⟩
      · refine Or.inl ?_
        rw [hInitChain, hA]
        exact (hkeys m4.initial).mpr hMem
      · have hone : pySplit m4.initial = [m4.initial] := h3 m4.initial hMem
        rw [hone] at hL
        simp at hL

/-- C9 (witness): `c9wdoc` (`initial="s0"`, `s0.initial="s01"`): every
side condition holds, the pipeline succeeds, and the resolved initial is
an existing state id. -/
theorem claim9_witness :
    ∃ m, parse_file "model" c9wdoc = some m ∧
      (m.initial ∈ alistKeys m.states ∨
        ((pySplit m.initial).length > 1 ∧
          ∀ t ∈ pySplit m.initial, t ∈ alistKeys m.states)) := by
  rcases hp : parse_file "model" c9wdoc with - | m
  · have hs : (parse_file "model" c9wdoc).isSome = true := rfl
    rw [hp] at hs
    simp at hs
  · exact ⟨m, rfl, claim9_amended "model" c9wdoc m hp (by decide)
      (by decide) (by decide)⟩

/-! ### Document-order characterization (claim C1 groundwork) -/

theorem visitFinalIds_cons_pos (c : XElem) (rest : List XElem)
    (hc : c.tag = "final" ∧ getAttrD c "id" "" ≠ "") :
    visitFinalIds (c :: rest) = getAttrD c "id" "" :: visitFinalIds rest := by
  simp [visitFinalIds, List.filter_cons, hc]

theorem visitFinalIds_cons_neg (c : XElem) (rest : List XElem)
    (hc : ¬(c.tag = "final" ∧ getAttrD c "id" "" ≠ "")) :
    visitFinalIds (c :: rest) = visitFinalIds rest := by
  simp [visitFinalIds, List.filter_cons, hc]

theorem passFinals_order (cs : List XElem) (p : Psr) (pid : Option String)
    (hnd : (visitFinalIds cs).Nodup)
    (hfresh : ∀ i ∈ visitFinalIds cs, alistLookup p.model.states i = none) :
    (passFinals p cs pid).ctr = p.ctr + (visitFinalIds cs).length ∧
    (∀ i, i ∉ visitFinalIds cs →
      alistLookup (passFinals p cs pid).model.states i = alistLookup p.model.states i) ∧
    (∀ i ∈ visitFinalIds cs, ∃ s,
      alistLookup (passFinals p cs pid).model.states i = some s ∧
      s.document_order = p.ctr + posOf i (visitFinalIds cs)) := by
  induction cs generalizing p with
  | nil =>
    exact ⟨rfl, fun i _ => rfl, by simp [visitFinalIds]⟩
  | cons c rest ih =>
    by_cases hc : c.tag = "final" ∧ getAttrD c "id" "" ≠ ""
    · have hvr := visitFinalIds_cons_pos c rest hc
      rw [hvr] at hnd hfresh
      have hnotin : getAttrD c "id" "" ∉ visitFinalIds rest := (List.nodup_cons.mp hnd).1
      have hndr : (visitFinalIds rest).Nodup := (List.nodup_cons.mp hnd).2
      have hrw : passFinals p (c :: rest) pid =
          passFinals (handleFinal p c pid) rest pid := by
        simp only [passFinals, if_pos hc]
      obtain ⟨-, hctr, hne, ⟨sc, hsc, hscord⟩, -⟩ := handleFinal_effects p c pid
      have hfresh2 : ∀ i ∈ visitFinalIds rest,
          alistLookup (handleFinal p c pid).model.states i = none := by
        intro i hi
        have hine : ¬i = getAttrD c "id" "" := by
          intro he
          rw [he] at hi
          exact hnotin hi
        rw [hne i hine]
        exact hfresh i (List.mem_cons_of_mem _ hi)
      obtain ⟨ictr, ine, iord⟩ := ih (handleFinal p c pid) hndr hfresh2
      rw [hrw, hvr]
      refine ⟨?_, ?_, ?_⟩
      · rw [ictr, hctr]
        simp only [List.length_cons]
        omega
      · intro i hi
        have h1 : ¬i = getAttrD c "id" "" := fun he => hi (he ▸ List.mem_cons_self _ _)
        have h2 : i ∉ visitFinalIds rest := fun hm => hi (List.mem_cons_of_mem _ hm)
        rw [ine i h2, hne i h1]
      · intro i hi
        rcases List.mem_cons.mp hi with heq | hi2
        · subst heq
          refine ⟨sc, ?_, ?_⟩
          · rw [ine _ hnotin]
            exact hsc
          · rw [hscord]
            simp [posOf]
        · obtain ⟨s, hs, hord⟩ := iord i hi2
          refine ⟨s, hs, ?_⟩
          rw [hord, hctr]
          have hine : getAttrD c "id" "" ≠ i := by
            intro he
            rw [he] at hnotin
            exact hnotin hi2
          simp only [posOf, if_neg hine]
          omega
    · have hvr := visitFinalIds_cons_neg c rest hc
      rw [hvr] at hnd hfresh
      have hrw : passFinals p (c :: rest) pid = passFinals p rest pid := by
        simp only [passFinals, if_neg hc]
      rw [hrw, hvr]
      exact ih p hnd hfresh

theorem visitStateIds_cons_pos (c : XElem) (rest : List XElem)
    (hc : c.tag = "state" ∧ getAttrD c "id" "" ≠ "") :
    visitStateIds (c :: rest) =
      (getAttrD c "id" "" :: visitIds c) ++ visitStateIds rest := by
  simp only [visitStateIds, if_pos hc]

theorem visitStateIds_cons_neg (c : XElem) (rest : List XElem)
    (hc : ¬(c.tag = "state" ∧ getAttrD c "id" "" ≠ "")) :
    visitStateIds (c :: rest) = visitStateIds rest := by
  simp only [visitStateIds, if_neg hc, List.nil_append]

theorem visitParallelIds_cons_pos (c : XElem) (rest : List XElem)
    (hc : c.tag = "parallel" ∧ getAttrD c "id" "" ≠ "") :
    visitParallelIds (c :: rest) =
      (getAttrD c "id" "" :: visitIds c) ++ visitParallelIds rest := by
  simp only [visitParallelIds, if_pos hc]

theorem visitParallelIds_cons_neg (c : XElem) (rest : List XElem)
    (hc : ¬(c.tag = "parallel" ∧ getAttrD c "id" "" ≠ "")) :
    visitParallelIds (c :: rest) = visitParallelIds rest := by
  simp only [visitParallelIds, if_neg hc, List.nil_append]

mutual
theorem parse_states_order (e : XElem) (p : Psr) (pid : Option String)
    (hnd : (visitIds e).Nodup)
    (hfresh : ∀ i ∈ visitIds e, alistLookup p.model.states i = none) :
    (parse_states p e pid).ctr = p.ctr + (visitIds e).length ∧
    (∀ i, i ∉ visitIds e →
      alistLookup (parse_states p e pid).model.states i = alistLookup p.model.states i) ∧
    (∀ i ∈ visitIds e, ∃ s,
      alistLookup (parse_states p e pid).model.states i = some s ∧
      s.document_order = p.ctr + posOf i (visitIds e)) := by
  obtain ⟨tg, ats, tx, cs⟩ := e
  have hv : visitIds (XElem.mk tg ats tx cs) =
      visitStateIds cs ++ visitFinalIds cs ++ visitParallelIds cs := rfl
  rw [hv] at hnd hfresh ⊢
  have hrw : parse_states p (XElem.mk tg ats tx cs) pid =
      handleHistoryL (passParallels (passFinals (passStates p cs pid) cs pid) cs pid)
        cs pid := by
    simp only [parse_states]
  rw [hrw]
  rw [List.nodup_append] at hnd
  obtain ⟨hndSF, hndP, hdisSFP⟩ := hnd
  rw [List.nodup_append] at hndSF
  obtain ⟨hndS, hndF, hdisSF⟩ := hndSF
  have hfS : ∀ i ∈ visitStateIds cs, alistLookup p.model.states i = none := by
    intro i hi
    exact hfresh i (List.mem_append_left _ (List.mem_append_left _ hi))
  obtain ⟨ctr1, ne1, ord1⟩ := passStates_order cs p pid hndS hfS
  have hfF : ∀ i ∈ visitFinalIds cs,
      alistLookup (passStates p cs pid).model.states i = none := by
    intro i hi
    have hiS : i ∉ visitStateIds cs := fun hm => hdisSF hm hi
    rw [ne1 i hiS]
    exact hfresh i (List.mem_append_left _ (List.mem_append_right _ hi))
  obtain ⟨ctr2, ne2, ord2⟩ := passFinals_order cs (passStates p cs pid) pid hndF hfF
  have hfP : ∀ i ∈ visitParallelIds cs,
      alistLookup (passFinals (passStates p cs pid) cs pid).model.states i = none := by
    intro i hi
    have hiSF : i ∉ visitStateIds cs ++ visitFinalIds cs := fun hm => hdisSFP hm hi
    have hiS : i ∉ visitStateIds cs := fun hm => hiSF (List.mem_append_left _ hm)
    have hiF : i ∉ visitFinalIds cs := fun hm => hiSF (List.mem_append_right _ hm)
    rw [ne2 i hiF, ne1 i hiS]
    exact hfresh i (List.mem_append_right _ hi)
  obtain ⟨ctr3, ne3, ord3⟩ :=
    passParallels_order cs (passFinals (passStates p cs pid) cs pid) pid hndP hfP
  obtain ⟨hs4, -, -, -, hc4, -⟩ :=
    handleHistoryL_effects cs
      (passParallels (passFinals (passStates p cs pid) cs pid) cs pid) pid
  refine ⟨?_, ?_, ?_⟩
  · rw [hc4, ctr3, ctr2, ctr1]
    simp only [List.length_append]
    omega
  · intro i hi
    have hiSF : i ∉ visitStateIds cs ++ visitFinalIds cs :=
      fun hm => hi (List.mem_append_left _ hm)
    have hiS : i ∉ visitStateIds cs := fun hm => hiSF (List.mem_append_left _ hm)
    have hiF : i ∉ visitFinalIds cs := fun hm => hiSF (List.mem_append_right _ hm)
    have hiP : i ∉ visitParallelIds cs := fun hm => hi (List.mem_append_right _ hm)
    rw [hs4, ne3 i hiP, ne2 i hiF, ne1 i hiS]
  · intro i hi
    rcases List.mem_append.mp hi with hiSF | hiP
    · rcases List.mem_append.mp hiSF with hiS | hiF
      · obtain ⟨s, hs, hord⟩ := ord1 i hiS
        have hiF : i ∉ visitFinalIds cs := fun hm => hdisSF hiS hm
        have hiP : i ∉ visitParallelIds cs := fun hm =>
          hdisSFP (List.mem_append_left _ hiS) hm
        refine ⟨s, ?_, ?_⟩
        · rw [hs4, ne3 i hiP, ne2 i hiF]
          exact hs
        · rw [hord, posOf_append_left i _ _ (List.mem_append_left _ hiS),
            posOf_append_left i _ _ hiS]
      · obtain ⟨s, hs, hord⟩ := ord2 i hiF
        have hiS : i ∉ visitStateIds cs := fun hm => hdisSF hm hiF
        have hiP : i ∉ visitParallelIds cs := fun hm =>
          hdisSFP (List.mem_append_right _ hiF) hm
        refine ⟨s, ?_, ?_⟩
        · rw [hs4, ne3 i hiP]
          exact hs
        · rw [hord, ctr1, posOf_append_left i _ _ (List.mem_append_right _ hiF),
            posOf_append_right i _ _ hiS]
          omega
    · obtain ⟨s, hs, hord⟩ := ord3 i hiP
      refine ⟨s, ?_, ?_⟩
      · rw [hs4]
        exact hs
      · have hiSF : i ∉ visitStateIds cs ++ visitFinalIds cs :=
          fun hm => hdisSFP hm hiP
        rw [hord, ctr2, ctr1, posOf_append_right i _ _ hiSF]
        simp only [List.length_append]
        omega

theorem passStates_order (cs : List XElem) (p : Psr) (pid : Option String)
    (hnd : (visitStateIds cs).Nodup)
    (hfresh : ∀ i ∈ visitStateIds cs, alistLookup p.model.states i = none) :
    (passStates p cs pid).ctr = p.ctr + (visitStateIds cs).length ∧
    (∀ i, i ∉ visitStateIds cs →
      alistLookup (passStates p cs pid).model.states i = alistLookup p.model.states i) ∧
    (∀ i ∈ visitStateIds cs, ∃ s,
      alistLookup (passStates p cs pid).model.states i = some s ∧
      s.document_order = p.ctr + posOf i (visitStateIds cs)) := by
  cases cs with
  | nil =>
    exact ⟨rfl, fun i _ => rfl, by simp [visitStateIds]⟩
  | cons c rest =>
    by_cases hc : c.tag = "state" ∧ getAttrD c "id" "" ≠ ""
    · have hvr := visitStateIds_cons_pos c rest hc
      rw [hvr] at hnd hfresh ⊢
      have hrw : passStates p (c :: rest) pid =
          passStates (parse_states (handleState p c pid) c (some (getAttrD c "id" "")))
            rest pid := by
        simp only [passStates, if_pos hc]
      rw [hrw]
      rw [List.nodup_append] at hnd
      obtain ⟨hndH, hndR, hdis⟩ := hnd
      obtain ⟨hnotc, hndC⟩ := List.nodup_cons.mp hndH
      obtain ⟨-, hctr1, hne1, ⟨sc, hsc, hscord⟩, -⟩ := handleState_effects p c pid
      have hf2 : ∀ i ∈ visitIds c,
          alistLookup (handleState p c pid).model.states i = none := by
        intro i hi
        have hine : ¬i = getAttrD c "id" "" := by
          intro he
          rw [he] at hi
          exact hnotc hi
        rw [hne1 i hine]
        exact hfresh i (List.mem_append_left _ (List.mem_cons_of_mem _ hi))
      obtain ⟨ctr2, ne2, ord2⟩ :=
        parse_states_order c (handleState p c pid) (some (getAttrD c "id" "")) hndC hf2
      have hf3 : ∀ i ∈ visitStateIds rest,
          alistLookup (parse_states (handleState p c pid) c
            (some (getAttrD c "id" ""))).model.states i = none := by
        intro i hi
        have hiH : i ∉ getAttrD c "id" "" :: visitIds c := fun hm => hdis hm hi
        have hiC : i ∉ visitIds c := fun hm => hiH (List.mem_cons_of_mem _ hm)
        have hine : ¬i = getAttrD c "id" "" := fun he =>
          hiH (he ▸ List.mem_cons_self _ _)
        rw [ne2 i hiC, hne1 i hine]
        exact hfresh i (List.mem_append_right _ hi)
      obtain ⟨ctr3, ne3, ord3⟩ :=
        passStates_order rest
          (parse_states (handleState p c pid) c (some (getAttrD c "id" ""))) pid hndR hf3
      refine ⟨?_, ?_, ?_⟩
      · rw [ctr3, ctr2, hctr1]
        simp only [List.length_append, List.length_cons]
        omega
      · intro i hi
        have hiH : i ∉ getAttrD c "id" "" :: visitIds c :=
          fun hm => hi (List.mem_append_left _ hm)
        have hiC : i ∉ visitIds c := fun hm => hiH (List.mem_cons_of_mem _ hm)
        have hine : ¬i = getAttrD c "id" "" := fun he =>
          hiH (he ▸ List.mem_cons_self _ _)
        have hiR : i ∉ visitStateIds rest := fun hm => hi (List.mem_append_right _ hm)
        rw [ne3 i hiR, ne2 i hiC, hne1 i hine]
      · intro i hi
        rcases List.mem_append.mp hi with hiH | hiR
        · rcases List.mem_cons.mp hiH with heq | hiC
          · subst heq
            have hiR : getAttrD c "id" "" ∉ visitStateIds rest := fun hm =>
              hdis (List.mem_cons_self _ _) hm
            refine ⟨sc, ?_, ?_⟩
            · rw [ne3 _ hiR, ne2 _ hnotc]
              exact hsc
            · rw [hscord, posOf_append_left _ _ _ (List.mem_cons_self _ _)]
              simp [posOf]
          · obtain ⟨s, hs, hord⟩ := ord2 i hiC
            have hiR : i ∉ visitStateIds rest := fun hm =>
              hdis (List.mem_cons_of_mem _ hiC) hm
            have hine : getAttrD c "id" "" ≠ i := by
              intro he
              rw [he] at hnotc
              exact hnotc hiC
            refine ⟨s, ?_, ?_⟩
            · rw [ne3 i hiR]
              exact hs
            · rw [hord, hctr1,
                posOf_append_left i _ _ (List.mem_cons_of_mem _ hiC)]
              simp only [posOf, if_neg hine]
              omega
        · obtain ⟨s, hs, hord⟩ := ord3 i hiR
          have hiH : i ∉ getAttrD c "id" "" :: visitIds c := fun hm => hdis hm hiR
          refine ⟨s, hs, ?_⟩
          rw [hord, ctr2, hctr1, posOf_append_right i _ _ hiH]
          simp only [List.length_cons]
          omega
    · have hvr := visitStateIds_cons_neg c rest hc
      rw [hvr] at hnd hfresh ⊢
      have hrw : passStates p (c :: rest) pid = passStates p rest pid := by
        simp only [passStates, if_neg hc]
      rw [hrw]
      exact passStates_order rest p pid hnd hfresh

theorem passParallels_order (cs : List XElem) (p : Psr) (pid : Option String)
    (hnd : (visitParallelIds cs).Nodup)
    (hfresh : ∀ i ∈ visitParallelIds cs, alistLookup p.model.states i = none) :
    (passParallels p cs pid).ctr = p.ctr + (visitParallelIds cs).length ∧
    (∀ i, i ∉ visitParallelIds cs →
      alistLookup (passParallels p cs pid).model.states i = alistLookup p.model.states i) ∧
    (∀ i ∈ visitParallelIds cs, ∃ s,
      alistLookup (passParallels p cs pid).model.states i = some s ∧
      s.document_order = p.ctr + posOf i (visitParallelIds cs)) := by
  cases cs with
  | nil =>
    exact ⟨rfl, fun i _ => rfl, by simp [visitParallelIds]⟩
  | cons c rest =>
    by_cases hc : c.tag = "parallel" ∧ getAttrD c "id" "" ≠ ""
    · have hvr := visitParallelIds_cons_pos c rest hc
      rw [hvr] at hnd hfresh ⊢
      have hrw : passParallels p (c :: rest) pid =
          passParallels (parse_states (handleParallel p c pid) c (some (getAttrD c "id" "")))
            rest pid := by
        simp only [passParallels, if_pos hc]
      rw [hrw]
      rw [List.nodup_append] at hnd
      obtain ⟨hndH, hndR, hdis⟩ := hnd
      obtain ⟨hnotc, hndC⟩ := List.nodup_cons.mp hndH
      obtain ⟨-, hctr1, hne1, ⟨sc, hsc, hscord⟩, -⟩ := handleParallel_effects p c pid
      have hf2 : ∀ i ∈ visitIds c,
          alistLookup (handleParallel p c pid).model.states i = none := by
        intro i hi
        have hine : ¬i = getAttrD c "id" "" := by
          intro he
          rw [he] at hi
          exact hnotc hi
        rw [hne1 i hine]
        exact hfresh i (List.mem_append_left _ (List.mem_cons_of_mem _ hi))
      obtain ⟨ctr2, ne2, ord2⟩ :=
        parse_states_order c (handleParallel p c pid) (some (getAttrD c "id" "")) hndC hf2
      have hf3 : ∀ i ∈ visitParallelIds rest,
          alistLookup (parse_states (handleParallel p c pid) c
            (some (getAttrD c "id" ""))).model.states i = none := by
        intro i hi
        have hiH : i ∉ getAttrD c "id" "" :: visitIds c := fun hm => hdis hm hi
        have hiC : i ∉ visitIds c := fun hm => hiH (List.mem_cons_of_mem _ hm)
        have hine : ¬i = getAttrD c "id" "" := fun he =>
          hiH (he ▸ List.mem_cons_self _ _)
        rw [ne2 i hiC, hne1 i hine]
        exact hfresh i (List.mem_append_right _ hi)
      obtain ⟨ctr3, ne3, ord3⟩ :=
        passParallels_order rest
          (parse_states (handleParallel p c pid) c (some (getAttrD c "id" ""))) pid hndR hf3
      refine ⟨?_, ?_, ?_⟩
      · rw [ctr3, ctr2, hctr1]
        simp only [List.length_append, List.length_cons]
        omega
      · intro i hi
        have hiH : i ∉ getAttrD c "id" "" :: visitIds c :=
          fun hm => hi (List.mem_append_left _ hm)
        have hiC : i ∉ visitIds c := fun hm => hiH (List.mem_cons_of_mem _ hm)
        have hine : ¬i = getAttrD c "id" "" := fun he =>
          hiH (he ▸ List.mem_cons_self _ _)
        have hiR : i ∉ visitParallelIds rest := fun hm => hi (List.mem_append_right _ hm)
        rw [ne3 i hiR, ne2 i hiC, hne1 i hine]
      · intro i hi
        rcases List.mem_append.mp hi with hiH | hiR
        · rcases List.mem_cons.mp hiH with heq | hiC
          · subst heq
            have hiR : getAttrD c "id" "" ∉ visitParallelIds rest := fun hm =>
              hdis (List.mem_cons_self _ _) hm
            refine ⟨sc, ?_, ?_⟩
            · rw [ne3 _ hiR, ne2 _ hnotc]
              exact hsc
            · rw [hscord, posOf_append_left _ _ _ (List.mem_cons_self _ _)]
              simp [posOf]
          · obtain ⟨s, hs, hord⟩ := ord2 i hiC
            have hiR : i ∉ visitParallelIds rest := fun hm =>
              hdis (List.mem_cons_of_mem _ hiC) hm
            have hine : getAttrD c "id" "" ≠ i := by
              intro he
              rw [he] at hnotc
              exact hnotc hiC
            refine ⟨s, ?_, ?_⟩
            · rw [ne3 i hiR]
              exact hs
            · rw [hord, hctr1,
                posOf_append_left i _ _ (List.mem_cons_of_mem _ hiC)]
              simp only [posOf, if_neg hine]
              omega
        · obtain ⟨s, hs, hord⟩ := ord3 i hiR
          have hiH : i ∉ getAttrD c "id" "" :: visitIds c := fun hm => hdis hm hiR
          refine ⟨s, hs, ?_⟩
          rw [hord, ctr2, hctr1, posOf_append_right i _ _ hiH]
          simp only [List.length_cons]
          omega
    · have hvr := visitParallelIds_cons_neg c rest hc
      rw [hvr] at hnd hfresh ⊢
      have hrw : passParallels p (c :: rest) pid = passParallels p rest pid := by
        simp only [passParallels, if_neg hc]
      rw [hrw]
      exact passParallels_order rest p pid hnd hfresh
end

/-- C1 (counterexample): in `c1doc` the `<final id="f"/>` element precedes
`<state id="a"/>` in the source document (`sourceIds c1doc = ["f", "a"]`),
yet `a` receives `document_order` 0 and `f` receives 1 — the numbering
follows the kind-grouped traversal (states, then finals, then parallels),
not XML document order. -/
theorem claim1_counterexample :
    (parse_file "model" c1doc).map
      (fun m => ((alistLookup m.states "a").map (fun s => s.document_order),
        (alistLookup m.states "f").map (fun s => s.document_order))) =
      some (some 0, some 1) ∧
    sourceIds c1doc = ["f", "a"] := by
  exact ⟨rfl, rfl⟩

/-- C1 (amended): when the visited state ids are pairwise distinct, every
visited id is a key of the emitted states map and its `document_order` is
its position in the builder's traversal order `visitIds` (all `<state>`
children of a parent first — each with its subtree — then all `<final>`
children, then all `<parallel>` children with their subtrees); consecutive
integers from 0 in that order, not XML document order. -/
theorem claim1_amended (nm : String) (doc : XElem) (m : SCXMLModel)
    (h : parse_file nm doc = some m) (hnd : (visitIds doc).Nodup) :
    ∀ i ∈ visitIds doc, ∃ s, alistLookup m.states i = some s ∧
      s.document_order = posOf i (visitIds doc) := by
  have hop := (parse_file_inv nm doc m h).2.2.2.2.2.2
  have hfresh : ∀ i ∈ visitIds doc,
      alistLookup (⟨parse_datamodel (m0Of nm doc) doc, 0⟩ : Psr).model.states i
        = none := by
    intro i hi
    have hs1 := (parse_datamodel_effects (m0Of nm doc) doc).2.1
    show alistLookup (parse_datamodel (m0Of nm doc) doc).states i = none
    rw [hs1]
    rfl
  obtain ⟨-, -, ord⟩ :=
    parse_states_order doc ⟨parse_datamodel (m0Of nm doc) doc, 0⟩ none hnd hfresh
  intro i hi
  obtain ⟨s0, hl0, ho0⟩ := ord i hi
  have hdf := (detect_features_effects
    (parse_states ⟨parse_datamodel (m0Of nm doc) doc, 0⟩ doc none).model).1
  have hl0' : alistLookup (parsePhase nm doc).states i = some s0 := by
    show alistLookup (detect_features
      (parse_states ⟨parse_datamodel (m0Of nm doc) doc, 0⟩ doc none).model).states i
        = some s0
    rw [hdf]
    exact hl0
  have hmem : i ∈ alistKeys m.states := (hop.1 i).mpr
    ((lookup_isSome_iff_mem_keys _ i).mp (by rw [hl0']; rfl))
  have hisSome : (alistLookup m.states i).isSome = true :=
    (lookup_isSome_iff_mem_keys _ i).mpr hmem
  rcases hq : alistLookup m.states i with - | s
  · rw [hq] at hisSome
    simp at hisSome
  · obtain ⟨s0', hl0'', ho⟩ := hop.2 i s hq
    rw [hl0'] at hl0''
    injection hl0'' with hl0''
    refine ⟨s, rfl, ?_⟩
    rw [ho, ← hl0'', ho0]
    show 0 + posOf i (visitIds doc) = posOf i (visitIds doc)
    omega

/-- C1 (witness): on `c1doc` (distinct ids) the amended characterization
gives `a` order 0 and `f` order 1 — positions in `visitIds c1doc`. -/
theorem claim1_witness :
    ∃ m, parse_file "model" c1doc = some m ∧
      ∀ i ∈ visitIds c1doc, ∃ s, alistLookup m.states i = some s ∧
        s.document_order = posOf i (visitIds c1doc) := by
  rcases hp : parse_file "model" c1doc with - | m
  · have hs : (parse_file "model" c1doc).isSome = true := rfl
    rw [hp] at hs
    simp at hs
  · exact ⟨m, rfl, claim1_amended "model" c1doc m hp (by decide)⟩

end SCXML
